import Mathlib

/-!
# xjson: a shallow embedding of the dual-mode JSON traversal engine

The definitions below follow `src/xjson.h` function by function.

Conventions of the embedding:

* A C byte is a `Char`; the memory a context points into is a `List Char`
  (the whole allocation that holds the buffer).  The three pointers
  `start`, `current` and `end` of the C struct are offsets into it.
  Loading from an offset outside the allocation yields NUL, storing to an
  offset outside the allocation is not represented (the list is unchanged).
* Out-parameters (`*val`, `*str`) are passed in and returned.
* A `NULL` key is `none`.
* `XJSON_ASSERT`s are not executed: they are preconditions of the callers.
* The two scanning loops of `xjson_expect_key` and
  `xjson_expect_and_parse_string` can fail to return, so every operation that
  reaches them returns an `Option`: `none` means that the call does not return.
* `sprintf`, `strtoll`, `strtod`, `strncpy` and `memcmp` are C library
  functions; they are modelled after ISO C in the section `libc`.  The model
  of `strtod` covers decimal notation (not hexadecimal notation, `inf` or
  `nan`), and floating-point values have an unbounded exponent (no overflow
  to infinity, no subnormal numbers).
-/

namespace XJson

/-! ## Memory -/

/-- Read the byte at offset `p` (NUL outside the allocation). -/
def load (mem : List Char) (p : Nat) : Char := mem.getD p '\x00'

/-- Write the byte `c` at offset `p`. -/
def store (mem : List Char) (p : Nat) (c : Char) : List Char := mem.set p c

/-- Write the bytes `bs` at offsets `p`, `p+1`, ... -/
def store_bytes : List Char → Nat → List Char → List Char
  | mem, _, [] => mem
  | mem, p, b :: bs => store_bytes (store mem p b) (p + 1) bs

/-- The `n` bytes at offsets `p`, ..., `p+n-1`. -/
def load_bytes (mem : List Char) (p n : Nat) : List Char :=
  (List.range n).map (fun i => load mem (p + i))

/-! ## libc -/

/-- C `isspace` in the "C" locale. -/
def isspace (c : Char) : Bool :=
  c == ' ' || c == '\t' || c == '\n' || c == Char.ofNat 11 || c == Char.ofNat 12 || c == '\r'

/-- C `isdigit`. -/
def isdigit (c : Char) : Bool := 48 ≤ c.toNat && c.toNat ≤ 57

/-- The character of a decimal digit. -/
def digit_char (d : Nat) : Char := Char.ofNat (48 + d)

/-- The value of a decimal digit character. -/
def digit_val (c : Char) : Nat := c.toNat - 48

/-- Decimal digits of `n`, most significant first (`fuel` bounds the number of digits). -/
def fmt_nat_fuel : Nat → Nat → List Char
  | 0, _ => []
  | fuel + 1, n =>
    if n < 10 then [digit_char n] else fmt_nat_fuel fuel (n / 10) ++ [digit_char (n % 10)]

/-- What `printf("%u")` and its wider variants print for `n`. -/
def fmt_nat (n : Nat) : List Char := fmt_nat_fuel (n + 1) n

/-- What `printf("%i")` / `printf("%d")` and their wider variants print for `i`. -/
def fmt_int (i : Int) : List Char :=
  if i < 0 then '-' :: fmt_nat i.natAbs else fmt_nat i.natAbs

/-- The value of a string of decimal digits. -/
def digits_val (ds : List Char) : Nat := ds.foldl (fun a c => a * 10 + digit_val c) 0

def LLONG_MAX : Int := 9223372036854775807

def LLONG_MIN : Int := -9223372036854775808

/-- C `strtoll(nptr, &end_ptr, 10)` on the text that starts at offset `nptr`:
leading white space, an optional sign, then the longest run of decimal digits.
Returns the value (clamped to the `long long` range) and `end_ptr`; without
any digit no conversion is done and `end_ptr = nptr`. -/
def strtoll (mem : List Char) (nptr : Nat) : Int × Nat :=
  let s := mem.drop nptr
  let ws := s.takeWhile isspace
  let s1 := s.drop ws.length
  let neg := s1.head? == some '-'
  let signlen := if s1.head? == some '-' || s1.head? == some '+' then 1 else 0
  let ds := (s1.drop signlen).takeWhile isdigit
  if ds.isEmpty then (0, nptr)
  else
    let mag : Int := digits_val ds
    let v : Int := if neg then max (-mag) LLONG_MIN else min mag LLONG_MAX
    (v, nptr + ws.length + signlen + ds.length)

/-- A finite C floating-point value: `(-1)^neg * mant * 2^exp`, kept in the
normal form where `mant` is odd, or `mant = 0` and `exp = 0`.  Infinities,
NaNs, overflow and subnormal rounding are not represented. -/
structure fval where
  neg : Bool
  mant : Nat
  exp : Int
  deriving DecidableEq

/-- Remove the factors of two from the mantissa. -/
def fval_norm_fuel : Nat → Bool → Nat → Int → fval
  | 0, s, m, e => ⟨s, m, e⟩
  | fuel + 1, s, m, e =>
    if m = 0 then ⟨s, 0, 0⟩
    else if m % 2 = 0 then fval_norm_fuel fuel s (m / 2) (e + 1)
    else ⟨s, m, e⟩

def fval_norm (s : Bool) (m : Nat) (e : Int) : fval := fval_norm_fuel m s m e

/-- Number of binary digits of `n`. -/
def bit_length_fuel : Nat → Nat → Nat
  | 0, _ => 0
  | fuel + 1, n => if n = 0 then 0 else bit_length_fuel fuel (n / 2) + 1

def bit_length (n : Nat) : Nat := bit_length_fuel n n

/-- The quotient `num / den` rounded to the nearest integer, ties to even. -/
def round_half_even (num den : Nat) : Nat :=
  let q := num / den
  let r := num % den
  if 2 * r < den then q
  else if den < 2 * r then q + 1
  else if q % 2 = 0 then q else q + 1

/-- The value `num / den` rounded to the nearest binary floating-point value
with `p` significant bits (round to nearest, ties to even).  The exponent is
not bounded: a value beyond the range of the C format is not turned into an
infinity, and a value below its normal range is not rounded as a subnormal
number or to zero; the result is the C conversion for the values whose result
lies in the normal range of the format. -/
def fround (p : Nat) (s : Bool) (num den : Nat) : fval :=
  if num = 0 then ⟨s, 0, 0⟩
  else
    let e0 : Int := (bit_length num : Int) - (bit_length den : Int)
    let k1 : Int := (p : Int) - e0
    let t := (num * 2 ^ k1.toNat) / (den * 2 ^ (-k1).toNat)
    let k : Int := if 2 ^ p ≤ t then k1 - 1 else k1
    let m := round_half_even (num * 2 ^ k.toNat) (den * 2 ^ (-k).toNat)
    fval_norm s m (-k)

/-- The C conversion `(float)d` of a `double`. -/
def double_to_float (d : fval) : fval :=
  fround 24 d.neg (d.mant * 2 ^ d.exp.toNat) (2 ^ (-d.exp).toNat)

/-- What `printf("%f")` prints: sign, integer part, a point and six decimals. -/
def fmt_f (d : fval) : List Char :=
  let scaled := round_half_even (d.mant * 2 ^ d.exp.toNat * 1000000) (2 ^ (-d.exp).toNat)
  let frac := fmt_nat (scaled % 1000000)
  (if d.neg then ['-'] else []) ++ fmt_nat (scaled / 1000000) ++ ['.']
    ++ List.replicate (6 - frac.length) '0' ++ frac

/-- C `strtod(nptr, &end_ptr)` for text in decimal notation: leading white
space, an optional sign, digits with an optional point, an optional exponent.
Returns the nearest `double` and `end_ptr`; without any digit `end_ptr = nptr`.
The C library also reads hexadecimal notation (`0x1p3`), `inf`, `infinity` and
`nan`; these forms are not represented, and on a text that starts with one of
them this function is not the library function (of `0x1` it reads the `0` and
stops at the `x`).  What is stated through this function is stated for texts
whose numbers are written in decimal notation. -/
def strtod (mem : List Char) (nptr : Nat) : fval × Nat :=
  let s := mem.drop nptr
  let ws := s.takeWhile isspace
  let s1 := s.drop ws.length
  let neg := s1.head? == some '-'
  let signlen := if s1.head? == some '-' || s1.head? == some '+' then 1 else 0
  let s2 := s1.drop signlen
  let ip := s2.takeWhile isdigit
  let s3 := s2.drop ip.length
  let fp := if s3.head? == some '.' then (s3.drop 1).takeWhile isdigit else []
  let pointlen := if s3.head? == some '.' then 1 else 0
  if ip.isEmpty && fp.isEmpty then (⟨false, 0, 0⟩, nptr)
  else
    let s4 := s3.drop (pointlen + fp.length)
    let s5 := s4.drop 1
    let eneg := s5.head? == some '-'
    let esignlen := if s5.head? == some '-' || s5.head? == some '+' then 1 else 0
    let ed := (s5.drop esignlen).takeWhile isdigit
    let has_exp := (s4.head? == some 'e' || s4.head? == some 'E') && !ed.isEmpty
    let explen := if has_exp then 1 + esignlen + ed.length else 0
    let e10 : Int :=
      (if has_exp then (if eneg then -(digits_val ed : Int) else (digits_val ed : Int)) else 0)
        - (fp.length : Int)
    let d := digits_val (ip ++ fp)
    (fround 53 neg (d * 10 ^ e10.toNat) (10 ^ (-e10).toNat),
      nptr + ws.length + signlen + ip.length + pointlen + fp.length + explen)

/-- The bytes `strncpy(dst, token, len)` stores: the first `len` bytes of the
C string `token`, padded with NUL when the string is shorter. -/
def strncpy_bytes (token : List Char) (len : Nat) : List Char :=
  let s := token.takeWhile (fun c => c != '\x00')
  s.take len ++ List.replicate (len - s.length) '\x00'

/-- The byte at index `i` of the C string `key`: its characters, then the
terminating NUL (read as NUL beyond the terminator as well). -/
def cstr_byte (key : List Char) (i : Nat) : Char :=
  (key.takeWhile (fun c => c != '\x00')).getD i '\x00'

/-- Whether `memcmp(key, mem + p, n)` is 0. -/
def memcmp_eq (key : List Char) (mem : List Char) (p n : Nat) : Bool :=
  (List.range n).all (fun i => cstr_byte key i == load mem (p + i))

/-- What `printf("%.*s", prec, s)` prints for the string at offset `p`: at most
`prec` bytes, stopping at a NUL; a negative precision counts as omitted. -/
def fmt_prec_s (prec : Int) (mem : List Char) (p : Nat) : List Char :=
  let s := (mem.drop p).takeWhile (fun c => c != '\x00')
  if prec < 0 then s else s.take prec.toNat

/-! ## The context -/

inductive xjson_state
  | XJSON_STATE_UNITIALIZED
  | XJSON_STATE_READ
  | XJSON_STATE_WRITE
  deriving DecidableEq

inductive xjson_int_type
  | XJSON_INT_TYPE_U8
  | XJSON_INT_TYPE_U16
  | XJSON_INT_TYPE_U32
  | XJSON_INT_TYPE_U64
  | XJSON_INT_TYPE_I8
  | XJSON_INT_TYPE_I16
  | XJSON_INT_TYPE_I32
  | XJSON_INT_TYPE_I64
  deriving DecidableEq

open xjson_state xjson_int_type

/-- The struct `xjson`, together with the memory its pointers point into
(`mem`) and the calls made so far to `string_allocator` (`allocs`, one entry
per call: the bytes of the span it was given, latest call last). -/
structure xjson where
  mode : xjson_state
  pretty_print : Bool
  intendation : Int
  current : Nat
  end_ : Nat
  start : Nat
  error : Bool
  error_message : List Char
  mem : List Char
  allocs : List (List Char)
  deriving DecidableEq

/-- The zero-initialised context (`memset(json, 0, sizeof(xjson))`) over the memory `mem`. -/
def xjson_zero (mem : List Char) : xjson :=
  { mode := XJSON_STATE_UNITIALIZED, pretty_print := false, intendation := 0,
    current := 0, end_ := 0, start := 0, error := false, error_message := [],
    mem := mem, allocs := [] }

/-! ## Error reporting -/

/-- The loop of `xjson_error` over `i = 0 .. n-1`: returns `(line, line_begin)`. -/
def count_lines (mem : List Char) (start : Nat) : Nat → Nat × Nat
  | 0 => (0, 0)
  | i + 1 =>
    let r := count_lines mem start i
    if load mem (start + i) = '\n' then (r.1 + 1, i + 1) else r

def msg_unexpected_token : List Char := "Unexpected token found.".toList

def msg_key_mismatch : List Char := "Expected key does not match.".toList

def msg_invalid_integer : List Char := "Invalid integer found. Couldn\x27t parse value.".toList

def msg_invalid_double : List Char := "Invalid double found. Couldn\x27t parse value.".toList

def msg_unexpected_bool : List Char := "Unexpected token whilst parsing bool.".toList

def msg_write_buffer : List Char := "Write buffer is too small to write to. Abort.".toList

def xjson_error (json : xjson) (message : List Char) : xjson :=
  if json.mode = XJSON_STATE_READ then
    let lines := count_lines json.mem json.start (json.current - json.start)
    let line := lines.1
    let line_begin := lines.2
    let character_offset : Int := (json.current : Int) - ((json.start : Int) + (line_begin : Int))
    let sample_range_start := if json.current < json.start + 8 then json.start else json.current - 8
    let sample_range_end := if json.current + 8 > json.end_ then json.end_ else json.current + 8
    { json with
      error := true
      error_message :=
        "Error (".toList ++ fmt_int line ++ ", ".toList ++ fmt_int character_offset ++ "): ".toList
          ++ message ++ "\n\t".toList
          ++ fmt_prec_s ((sample_range_end : Int) - (sample_range_start : Int)) json.mem
              sample_range_start
          ++ "\n\t".toList
          ++ "-------------".toList.take (json.current - sample_range_start)
          ++ "^".toList }
  else
    { json with error := true, error_message := message }

/-! ## Cursor primitives -/

def xjson_is_space (c : Char) : Bool :=
  c == ' ' || c == '\t' || c == '\n' || c == Char.ofNat 11 || c == Char.ofNat 12 || c == '\r'

/-- The `while(xjson_is_space(c))` loop of `xjson_consume`, entered with
`c = *json->current`; returns the context and the value the function returns. -/
def consume_loop : Nat → xjson → xjson × Char
  | 0, json => (json, load json.mem json.current)
  | fuel + 1, json =>
    if xjson_is_space (load json.mem json.current) then
      if json.current = json.end_ then (json, '\x00')
      else consume_loop fuel { json with current := json.current + 1 }
    else (json, load json.mem json.current)

def xjson_consume (json : xjson) : xjson × Char :=
  if json.error then (json, '\x00')
  else if json.current = json.end_ then (json, '\x00')
  else
    consume_loop (json.mem.length - json.current) { json with current := json.current + 1 }

def xjson_try (json : xjson) (expected_character : Char) : xjson :=
  if json.error then json
  else if load json.mem json.current = expected_character then (xjson_consume json).1
  else json

def xjson_expect (json : xjson) (expected_character : Char) : xjson :=
  if json.error then json
  else if load json.mem json.current ≠ expected_character then
    xjson_error json msg_unexpected_token
  else (xjson_consume json).1

/-- Whether the `for` loop of `xjson_expect_token` finds a mismatch. -/
def token_mismatch (json : xjson) (token : List Char) (len : Nat) : Bool :=
  (List.range len).any (fun i => load json.mem (json.current + i) != token.getD i '\x00')

def xjson_expect_token (json : xjson) (token : List Char) (len : Nat) : xjson :=
  if json.error then json
  else if token_mismatch json token len then xjson_error json msg_unexpected_token
  else
    let json1 := { json with current := json.current + len }
    if xjson_is_space (load json1.mem json1.current) then (xjson_consume json1).1 else json1

/-- The loop `while(*json->current != '"') { xjson_consume(json); if(json->error) return; }`
shared by `xjson_expect_key` and `xjson_expect_and_parse_string`.  `none`: the
loop has not ended after `fuel` iterations. -/
def scan_to_quote : Nat → xjson → Option xjson
  | 0, _ => none
  | fuel + 1, json =>
    if load json.mem json.current = '"' then some json
    else
      let json1 := (xjson_consume json).1
      if json1.error then some json1 else scan_to_quote fuel json1

/-- Enough iterations for `scan_to_quote`: once the cursor is past the
allocation and past `end` no quote can be found any more, and at `end` the
cursor does not move any more. -/
def scan_fuel (json : xjson) : Nat := max json.mem.length json.end_ + 2 - json.current

def xjson_expect_key (json : xjson) (key : List Char) : Option xjson :=
  let json1 := xjson_expect json '"'
  if json1.error then some json1
  else
    let key_start := json1.current
    match scan_to_quote (scan_fuel json1) json1 with
    | none => none
    | some json2 =>
      if json2.error then some json2
      else
        let key_len := json2.current - key_start
        if !memcmp_eq key json2.mem key_start key_len then
          some (xjson_error json2 msg_key_mismatch)
        else
          some (xjson_expect (xjson_expect json2 '"') ':')

def xjson_expect_and_parse_int (json : xjson) (out_value : Int) : xjson × Int :=
  if json.error then (json, out_value)
  else
    let r := strtoll json.mem json.current
    let value := r.1
    let end_ptr := r.2
    if json.current = end_ptr then (xjson_error json msg_invalid_integer, out_value)
    else
      let json1 := { json with current := end_ptr }
      if xjson_is_space (load json1.mem json1.current) then ((xjson_consume json1).1, value)
      else (json1, value)

def xjson_expect_and_parse_double (json : xjson) (out_value : fval) : xjson × fval :=
  if json.error then (json, out_value)
  else
    let r := strtod json.mem json.current
    let value := r.1
    let end_ptr := r.2
    if json.current = end_ptr then (xjson_error json msg_invalid_double, out_value)
    else
      let json1 := { json with current := end_ptr }
      if xjson_is_space (load json1.mem json1.current) then ((xjson_consume json1).1, value)
      else (json1, value)

/-- The caller's `string_allocator(str_start, str_len)`: the call is recorded
and the owned string returned is a copy of the span. -/
def string_allocator (json : xjson) (str_start str_len : Nat) : xjson × List Char :=
  let span := load_bytes json.mem str_start str_len
  ({ json with allocs := json.allocs ++ [span] }, span)

def xjson_expect_and_parse_string (json : xjson) (str : List Char) : Option (xjson × List Char) :=
  let json1 := xjson_expect json '"'
  if json1.error then some (json1, str)
  else
    let str_start := json1.current
    match scan_to_quote (scan_fuel json1) json1 with
    | none => none
    | some json2 =>
      if json2.error then some (json2, str)
      else
        let str_len := json2.current - str_start
        let r := string_allocator json2 str_start str_len
        some (xjson_expect r.1 '"', r.2)

def xjson_expect_and_parse_bool (json : xjson) (val : Bool) : xjson × Bool :=
  if json.error then (json, val)
  else if load json.mem json.current = 't' then
    let json1 := xjson_expect_token json "true".toList 4
    (json1, if !json1.error then true else val)
  else if load json.mem json.current = 'f' then
    let json1 := xjson_expect_token json "false".toList 5
    (json1, if !json1.error then false else val)
  else (xjson_error json msg_unexpected_bool, val)

def xjson_print_token (json : xjson) (token : List Char) (len : Nat) : xjson :=
  if json.error then json
  else
    let json1 := if json.current + len > json.end_ then xjson_error json msg_write_buffer else json
    { json1 with
      mem := store_bytes json1.mem json1.current (strncpy_bytes token len)
      current := json1.current + len }

/-- C `strlen` of a C string. -/
def strlen (s : List Char) : Nat := (s.takeWhile (fun c => c != '\x00')).length

def xjson_print_key (json : xjson) (key : List Char) : xjson :=
  if json.error then json
  else
    let json1 := xjson_print_token json ['"'] 1
    let json2 := xjson_print_token json1 key (strlen key)
    let json3 := xjson_print_token json2 ['"'] 1
    xjson_print_token json3 [':'] 1

/-- The `for` loop of `xjson_print_new_line`, `n` iterations. -/
def print_tabs : Nat → xjson → xjson
  | 0, json => json
  | n + 1, json => print_tabs n (xjson_print_token json ['\t'] 1)

def xjson_print_new_line (json : xjson) : xjson :=
  if json.error then json
  else
    let json1 := xjson_print_token json ['\n'] 1
    print_tabs json1.intendation.toNat json1

/-! ## Setup -/

/-- `xjson_setup_read(json, str, len)`: `str` is the offset of the text in `json.mem`. -/
def xjson_setup_read (json : xjson) (str : Nat) (len : Nat) : xjson :=
  { json with start := str, current := str, end_ := str + len, mode := XJSON_STATE_READ }

/-- `xjson_setup_write(json, pretty_print, buffer, len)`: `buffer` is the
offset of the destination in `json.mem`. -/
def xjson_setup_write (json : xjson) (pretty_print : Bool) (buffer : Nat) (len : Nat) : xjson :=
  { json with
    pretty_print := pretty_print, start := buffer, current := buffer, end_ := buffer + len
    mode := XJSON_STATE_WRITE }

/-! ## Containers -/

def xjson_object_begin (json : xjson) (key : Option (List Char)) : Option xjson :=
  if json.error then some json
  else if json.mode = XJSON_STATE_READ then
    match key with
    | some k =>
      (xjson_expect_key json k).map fun json1 =>
        let json2 := xjson_expect json1 '{'
        { json2 with intendation := json2.intendation + 1 }
    | none =>
      let json2 := xjson_expect json '{'
      some { json2 with intendation := json2.intendation + 1 }
  else
    let json1 :=
      match key with
      | some k => xjson_print_key (if json.pretty_print then xjson_print_new_line json else json) k
      | none => json
    let json2 := xjson_print_token json1 ['{'] 1
    some { json2 with intendation := json2.intendation + 1 }

def xjson_object_end (json : xjson) : xjson :=
  if json.error then json
  else
    let json1 := { json with intendation := json.intendation - 1 }
    let json2 :=
      if json1.mode = XJSON_STATE_READ then xjson_try (xjson_expect json1 '}') ','
      else
        let json3 := { json1 with current := json1.current - 1 }
        let json4 :=
          if load json3.mem json3.current = '{' then { json3 with current := json3.current + 1 }
          else json3
        let json5 := if json4.pretty_print then xjson_print_new_line json4 else json4
        xjson_print_token (xjson_print_token json5 ['}'] 1) [','] 1
    if json2.intendation = 0 ∧ json2.mode = XJSON_STATE_WRITE then
      { json2 with
        current := json2.current - 1
        mem := store json2.mem (json2.current - 1) '\x00' }
    else json2

def xjson_array_begin (json : xjson) (key : Option (List Char)) : Option xjson :=
  if json.error then some json
  else if json.mode = XJSON_STATE_READ then
    match key with
    | some k =>
      (xjson_expect_key json k).map fun json1 =>
        let json2 := xjson_expect json1 '['
        { json2 with intendation := json2.intendation + 1 }
    | none =>
      let json2 := xjson_expect json '['
      some { json2 with intendation := json2.intendation + 1 }
  else
    let json1 :=
      match key with
      | some k => xjson_print_key (if json.pretty_print then xjson_print_new_line json else json) k
      | none => json
    let json2 := xjson_print_token json1 ['['] 1
    some { json2 with intendation := json2.intendation + 1 }

def xjson_array_end (json : xjson) : xjson :=
  if json.error then json
  else
    let json1 := { json with intendation := json.intendation - 1 }
    if json1.mode = XJSON_STATE_READ then xjson_try (xjson_expect json1 ']') ','
    else
      let json3 := { json1 with current := json1.current - 1 }
      let json4 :=
        if load json3.mem json3.current = '[' then { json3 with current := json3.current + 1 }
        else json3
      let json5 := if json4.pretty_print then xjson_print_new_line json4 else json4
      xjson_print_token (xjson_print_token json5 [']'] 1) [','] 1

def xjson_array_reached_end (json : xjson) (current : Int) (size : Int) : Bool :=
  if json.mode = XJSON_STATE_READ then
    if load json.mem json.current = ']' ∨ json.error = true then true else false
  else decide (current ≥ size)

/-! ## Scalars -/

/-- The value of an integer object of the given type whose stored bits are
those of `n`: the C conversion of `n` to that type (reduction modulo `2^W`,
for the signed types into `[-2^(W-1), 2^(W-1))`). -/
def int_cast (type : xjson_int_type) (n : Int) : Int :=
  match type with
  | XJSON_INT_TYPE_U8 => n % 256
  | XJSON_INT_TYPE_U16 => n % 65536
  | XJSON_INT_TYPE_U32 => n % 4294967296
  | XJSON_INT_TYPE_U64 => n % 18446744073709551616
  | XJSON_INT_TYPE_I8 => (n + 128) % 256 - 128
  | XJSON_INT_TYPE_I16 => (n + 32768) % 65536 - 32768
  | XJSON_INT_TYPE_I32 => (n + 2147483648) % 4294967296 - 2147483648
  | XJSON_INT_TYPE_I64 => (n + 9223372036854775808) % 18446744073709551616 - 9223372036854775808

/-- The write branch shared by all scalar accessors: the optional new line and
key, `len = sprintf(json->current, ...)` storing `text` and a NUL,
`json->current += len`, then the comma. -/
def write_scalar (json : xjson) (key : Option (List Char)) (text : List Char) : xjson :=
  let json1 := if json.pretty_print then xjson_print_new_line json else json
  let json2 :=
    match key with
    | some k => xjson_print_key json1 k
    | none => json1
  let json3 :=
    { json2 with
      mem := store_bytes json2.mem json2.current (text ++ ['\x00'])
      current := json2.current + text.length }
  xjson_print_token json3 [','] 1

/-- The optional `xjson_expect_key` at the start of the read branch of every scalar accessor. -/
def read_key (json : xjson) (key : Option (List Char)) : Option xjson :=
  match key with
  | some k => xjson_expect_key json k
  | none => some json

def xjson_integer (json : xjson) (key : Option (List Char)) (val : Int) (type : xjson_int_type) :
    Option (xjson × Int) :=
  if json.mode = XJSON_STATE_READ then
    (read_key json key).map fun json1 =>
      let r := xjson_expect_and_parse_int json1 0
      let json2 := r.1
      let number := r.2
      if json2.error then (json2, val)
      else (xjson_try json2 ',', int_cast type number)
  else
    some (write_scalar json key (fmt_int (int_cast type val)), val)

def xjson_u8 (json : xjson) (key : Option (List Char)) (val : Int) : Option (xjson × Int) :=
  xjson_integer json key val XJSON_INT_TYPE_U8

def xjson_u16 (json : xjson) (key : Option (List Char)) (val : Int) : Option (xjson × Int) :=
  xjson_integer json key val XJSON_INT_TYPE_U16

def xjson_u32 (json : xjson) (key : Option (List Char)) (val : Int) : Option (xjson × Int) :=
  xjson_integer json key val XJSON_INT_TYPE_U32

def xjson_u64 (json : xjson) (key : Option (List Char)) (val : Int) : Option (xjson × Int) :=
  xjson_integer json key val XJSON_INT_TYPE_U64

def xjson_i8 (json : xjson) (key : Option (List Char)) (val : Int) : Option (xjson × Int) :=
  xjson_integer json key val XJSON_INT_TYPE_I8

def xjson_i16 (json : xjson) (key : Option (List Char)) (val : Int) : Option (xjson × Int) :=
  xjson_integer json key val XJSON_INT_TYPE_I16

def xjson_i32 (json : xjson) (key : Option (List Char)) (val : Int) : Option (xjson × Int) :=
  xjson_integer json key val XJSON_INT_TYPE_I32

def xjson_i64 (json : xjson) (key : Option (List Char)) (val : Int) : Option (xjson × Int) :=
  xjson_integer json key val XJSON_INT_TYPE_I64

def xjson_float (json : xjson) (key : Option (List Char)) (val : fval) : Option (xjson × fval) :=
  if json.mode = XJSON_STATE_READ then
    (read_key json key).map fun json1 =>
      let r := xjson_expect_and_parse_double json1 ⟨false, 0, 0⟩
      let json2 := r.1
      let out := r.2
      (xjson_try json2 ',', if !json2.error then double_to_float out else val)
  else
    some (write_scalar json key (fmt_f val), val)

def xjson_double (json : xjson) (key : Option (List Char)) (val : fval) : Option (xjson × fval) :=
  if json.mode = XJSON_STATE_READ then
    (read_key json key).map fun json1 =>
      let r := xjson_expect_and_parse_double json1 val
      (xjson_try r.1 ',', r.2)
  else
    some (write_scalar json key (fmt_f val), val)

def xjson_bool (json : xjson) (key : Option (List Char)) (val : Bool) : Option (xjson × Bool) :=
  if json.mode = XJSON_STATE_READ then
    (read_key json key).map fun json1 =>
      let r := xjson_expect_and_parse_bool json1 val
      (xjson_try r.1 ',', r.2)
  else
    some (write_scalar json key (if val = true then "true".toList else "false".toList), val)

def xjson_string (json : xjson) (key : Option (List Char)) (str : List Char) :
    Option (xjson × List Char) :=
  if json.mode = XJSON_STATE_READ then
    (read_key json key).bind fun json1 =>
      (xjson_expect_and_parse_string json1 str).map fun r => (xjson_try r.1 ',', r.2)
  else
    some (write_scalar json key
      (['"'] ++ str.takeWhile (fun c => c != '\x00') ++ ['"']), str)

/-! ## Traversals

A host program drives the engine with one ordered sequence of calls, the same
in read and in write mode (`main` in `sample.c`).  `Trav` describes such a
sequence together with the caller's variables: a list of calls, each a scalar
accessor with the variable it is given, or a container whose `begin` and `end`
calls enclose the calls of its body.  The body of an array is executed under
the loop `for(i = 0; !xjson_array_reached_end(json, i, n); i++)`, one element
per iteration, `n` being the number of elements. -/

inductive Trav
  | done : Trav
  | int (key : Option (List Char)) (type : xjson_int_type) (val : Int) (rest : Trav) : Trav
  | float (key : Option (List Char)) (val : fval) (rest : Trav) : Trav
  | double (key : Option (List Char)) (val : fval) (rest : Trav) : Trav
  | bool (key : Option (List Char)) (val : Bool) (rest : Trav) : Trav
  | string (key : Option (List Char)) (str : List Char) (rest : Trav) : Trav
  | object (key : Option (List Char)) (body : Trav) (rest : Trav) : Trav
  | array (key : Option (List Char)) (body : Trav) (rest : Trav) : Trav
  deriving DecidableEq

/-- Number of calls (elements) at the top level of a sequence. -/
def Trav.count : Trav → Nat
  | .done => 0
  | .int _ _ _ rest => rest.count + 1
  | .float _ _ rest => rest.count + 1
  | .double _ _ rest => rest.count + 1
  | .bool _ _ rest => rest.count + 1
  | .string _ _ rest => rest.count + 1
  | .object _ _ rest => rest.count + 1
  | .array _ _ rest => rest.count + 1

/-- The loop guard in front of an array element: `lp` is `none` outside of an
array loop and `some (i, n)` in the loop at index `i` with declared size `n`. -/
def loop_stops (lp : Option (Int × Int)) (json : xjson) : Bool :=
  match lp with
  | none => false
  | some (i, n) => xjson_array_reached_end json i n

/-- The `i++` of the array loop. -/
def loop_next (lp : Option (Int × Int)) : Option (Int × Int) :=
  lp.map fun p => (p.1 + 1, p.2)

/-- Run a sequence of calls.  The result is the context, the sequence with the
values the caller's variables hold afterwards, and a flag that tells whether
every array loop executed its body exactly once per element: the guard was
false in front of each element and true after the last one (when the guard
still is false after the last element the run of that loop stops there and
the flag is false).  `none`: a call does not return. -/
def run : Trav → Option (Int × Int) → xjson → Option (xjson × Trav × Bool)
  | .done, lp, json =>
    some (json, .done,
      match lp with
      | none => true
      | some (i, n) => xjson_array_reached_end json i n)
  | .int key type val rest, lp, json =>
    if loop_stops lp json then some (json, .int key type val rest, false)
    else
      (xjson_integer json key val type).bind fun r =>
        (run rest (loop_next lp) r.1).map fun s => (s.1, .int key type r.2 s.2.1, s.2.2)
  | .float key val rest, lp, json =>
    if loop_stops lp json then some (json, .float key val rest, false)
    else
      (xjson_float json key val).bind fun r =>
        (run rest (loop_next lp) r.1).map fun s => (s.1, .float key r.2 s.2.1, s.2.2)
  | .double key val rest, lp, json =>
    if loop_stops lp json then some (json, .double key val rest, false)
    else
      (xjson_double json key val).bind fun r =>
        (run rest (loop_next lp) r.1).map fun s => (s.1, .double key r.2 s.2.1, s.2.2)
  | .bool key val rest, lp, json =>
    if loop_stops lp json then some (json, .bool key val rest, false)
    else
      (xjson_bool json key val).bind fun r =>
        (run rest (loop_next lp) r.1).map fun s => (s.1, .bool key r.2 s.2.1, s.2.2)
  | .string key str rest, lp, json =>
    if loop_stops lp json then some (json, .string key str rest, false)
    else
      (xjson_string json key str).bind fun r =>
        (run rest (loop_next lp) r.1).map fun s => (s.1, .string key r.2 s.2.1, s.2.2)
  | .object key body rest, lp, json =>
    if loop_stops lp json then some (json, .object key body rest, false)
    else
      (xjson_object_begin json key).bind fun json1 =>
        (run body none json1).bind fun b =>
          (run rest (loop_next lp) (xjson_object_end b.1)).map fun s =>
            (s.1, .object key b.2.1 s.2.1, b.2.2 && s.2.2)
  | .array key body rest, lp, json =>
    if loop_stops lp json then some (json, .array key body rest, false)
    else
      (xjson_array_begin json key).bind fun json1 =>
        (run body (some (0, (body.count : Int))) json1).bind fun b =>
          (run rest (loop_next lp) (xjson_array_end b.1)).map fun s =>
            (s.1, .array key b.2.1 s.2.1, b.2.2 && s.2.2)

/-- A write traversal of `t` into the first `len` bytes of the memory `mem`. -/
def write_traversal (t : Trav) (pretty_print : Bool) (mem : List Char) (len : Nat) :
    Option (xjson × Trav × Bool) :=
  run t none (xjson_setup_write (xjson_zero mem) pretty_print 0 len)

/-- A read traversal of `t` over the first `len` bytes of the memory `mem`. -/
def read_traversal (t : Trav) (mem : List Char) (len : Nat) : Option (xjson × Trav × Bool) :=
  run t none (xjson_setup_read (xjson_zero mem) 0 len)

/-- Write `t`, then read the text produced (the bytes from `start` up to the
final cursor) with the calls of `t0`. -/
def write_then_read (t t0 : Trav) (pretty_print : Bool) (mem : List Char) (len : Nat) :
    Option (xjson × Trav × Bool) :=
  (write_traversal t pretty_print mem len).bind fun w =>
    read_traversal t0 w.1.mem (w.1.current - w.1.start)

/-! ## Concrete traversals used by the statements below -/

/-- The root object with one integer field `key`, as written or read by
`object_begin(NULL); accessor(key, &val); object_end`. -/
def int_doc (type : xjson_int_type) (key : List Char) (val : Int) : Trav :=
  .object none (.int (some key) type val .done) .done

/-- The root object with one string field `key`. -/
def string_doc (key : List Char) (str : List Char) : Trav :=
  .object none (.string (some key) str .done) .done

/-- The worked example: `object_begin(NULL); u32("a"); array_begin("b");`
the loop over `float(NULL)`; `array_end; object_end`. -/
def example_doc (a : Int) (b0 b1 : fval) : Trav :=
  .object none
    (.int (some ['a']) XJSON_INT_TYPE_U32 a
      (.array (some ['b']) (.float none b0 (.float none b1 .done)) .done))
    .done

/-- The text of the worked example. -/
def example_text : List Char := "\x7b\"a\":10,\"b\":[1.000000,2.000000]\x7d".toList

/-- A write context over an 8 byte allocation of which 1 byte is declared as
capacity, after `object_begin(NULL)` and `u8(NULL)` with value 7: the comma of
the accessor did not fit, so the error is latched. -/
def latched_write_context : Option xjson :=
  (xjson_object_begin (xjson_setup_write (xjson_zero (List.replicate 8 '#')) false 0 1) none).bind
    fun json1 => (xjson_u8 json1 none 7).map fun r => r.1

/-! ## Texts and invariants used by the statements below -/

/-- The characters of a C string: what precedes the first NUL. -/
def cstr (s : List Char) : List Char := s.takeWhile (fun c => c != '\x00')

/-- What `xjson_print_new_line` prints at indentation `d`, when pretty printing. -/
def nl (pp : Bool) (d : Nat) : List Char := if pp then '\n' :: List.replicate d '\t' else []

/-- What `xjson_print_key` prints: the key in quotes and a colon (nothing for `NULL`). -/
def key_text (key : Option (List Char)) : List Char :=
  match key with
  | none => []
  | some k => '"' :: cstr k ++ ['"', ':']

/-- The new line in front of a keyed container. -/
def key_nl (pp : Bool) (d : Nat) (key : Option (List Char)) : List Char :=
  match key with
  | none => []
  | some _ => nl pp d

/-- The text of a boolean. -/
def bool_text (b : Bool) : List Char := if b = true then "true".toList else "false".toList

/-- The bytes a write traversal appends for a sequence of calls at indentation
`d`, while no container is closed at the root: every scalar and every
container is followed by a comma, and closing a container removes the last
byte of its body (the comma of its last child) when the body is not empty. -/
def render : Bool → Nat → Trav → List Char
  | _, _, .done => []
  | pp, d, .int key type val rest =>
    nl pp d ++ key_text key ++ fmt_int (int_cast type val) ++ [','] ++ render pp d rest
  | pp, d, .float key val rest =>
    nl pp d ++ key_text key ++ fmt_f val ++ [','] ++ render pp d rest
  | pp, d, .double key val rest =>
    nl pp d ++ key_text key ++ fmt_f val ++ [','] ++ render pp d rest
  | pp, d, .bool key val rest =>
    nl pp d ++ key_text key ++ bool_text val ++ [','] ++ render pp d rest
  | pp, d, .string key str rest =>
    nl pp d ++ key_text key ++ ('"' :: cstr str ++ ['"']) ++ [','] ++ render pp d rest
  | pp, d, .object key body rest =>
    key_nl pp d key ++ key_text key ++ ['{'] ++ (render pp (d + 1) body).dropLast ++ nl pp d
      ++ ['}', ','] ++ render pp d rest
  | pp, d, .array key body rest =>
    key_nl pp d key ++ key_text key ++ ['['] ++ (render pp (d + 1) body).dropLast ++ nl pp d
      ++ [']', ','] ++ render pp d rest

/-- The texts of the children of a container, in the words of the
specification (no pretty printing): the text of a scalar child is its key and
its value; the text of a container child is its key, the opening delimiter,
the texts of its children joined by commas, and the closing delimiter. -/
def child_texts : Trav → List (List Char)
  | .done => []
  | .int key type val rest => (key_text key ++ fmt_int (int_cast type val)) :: child_texts rest
  | .float key val rest => (key_text key ++ fmt_f val) :: child_texts rest
  | .double key val rest => (key_text key ++ fmt_f val) :: child_texts rest
  | .bool key val rest => (key_text key ++ bool_text val) :: child_texts rest
  | .string key str rest => (key_text key ++ ('"' :: cstr str ++ ['"'])) :: child_texts rest
  | .object key body rest =>
    (key_text key ++ ['{'] ++ List.intercalate [','] (child_texts body) ++ ['}'])
      :: child_texts rest
  | .array key body rest =>
    (key_text key ++ ['['] ++ List.intercalate [','] (child_texts body) ++ [']'])
      :: child_texts rest

/-- The loop state fits the sequence: outside of a loop, or in a loop whose
declared size is the index plus the number of elements still to come. -/
def lp_ok (lp : Option (Int × Int)) (t : Trav) : Prop :=
  match lp with
  | none => True
  | some (i, n) => n = i + (t.count : Int)

/-- A write context without error, at indentation `d`, whose memory holds the
text `T` in front of the cursor, and whose declared capacity lies inside the allocation. -/
def Wr (json : xjson) (T : List Char) (pp : Bool) (d : Nat) : Prop :=
  json.mode = XJSON_STATE_WRITE ∧ json.error = false ∧ json.pretty_print = pp
    ∧ json.intendation = (d : Int) ∧ json.current = T.length ∧ json.mem.take T.length = T
    ∧ json.end_ ≤ json.mem.length

/-- The context with the cursor moved forward by `k`. -/
def adv (json : xjson) (k : Nat) : xjson := { json with current := json.current + k }

/-- A read context without error whose memory holds, from the cursor on, the
text `L` up to `end` and then `post`. -/
def Rd (json : xjson) (L post : List Char) : Prop :=
  json.mode = XJSON_STATE_READ ∧ json.error = false ∧ json.mem.drop json.current = L ++ post
    ∧ json.current + L.length = json.end_

/-- The function `f` is a step of a write traversal that appends the text `X`
and takes the indentation from `d` to `d'`: it keeps the mode, keeps a latched
error, and, when it ends without error, extends the text in front of the cursor by `X`. -/
def WStep (pp : Bool) (d d' : Nat) (f : xjson → xjson) (X : List Char) : Prop :=
  (∀ j, (f j).mode = j.mode) ∧ (∀ j, j.error = true → (f j).error = true)
    ∧ (∀ j T, Wr j T pp d → (f j).error = false → Wr (f j) (T ++ X) pp d')

/-- The step `f`, which appends the text `X`, has room: from a write context
with the text `T` in front of the cursor and `T.length + X.length` within the
declared capacity, it ends without error and leaves the capacity as it is. -/
def WFit (pp : Bool) (d : Nat) (f : xjson → xjson) (X : List Char) : Prop :=
  ∀ j T, Wr j T pp d → T.length + X.length ≤ j.end_ → (f j).error = false ∧ (f j).end_ = j.end_

/-- The first steps of the write branch of `xjson_object_end` (`opener = '{'`)
and `xjson_array_end` (`opener = '['`): the indentation is decremented and the
cursor steps back over the last comma, unless the byte there is the opener. -/
def retract (opener : Char) (json : xjson) : xjson :=
  if load json.mem (json.current - 1) = opener then
    { json with intendation := json.intendation - 1, current := json.current - 1 + 1 }
  else
    { json with intendation := json.intendation - 1, current := json.current - 1 }

/-- The last step of `xjson_object_end`: closing the root in write mode
overwrites the byte in front of the cursor with NUL. -/
def terminate_root (json : xjson) : xjson :=
  if json.intendation = 0 ∧ json.mode = XJSON_STATE_WRITE then
    { json with
      current := json.current - 1
      mem := store json.mem (json.current - 1) '\x00' }
  else json

/-- The write branch of `xjson_object_begin` (`opener = '{'`) and
`xjson_array_begin` (`opener = '['`). -/
def write_begin (opener : Char) (key : Option (List Char)) (json : xjson) : xjson :=
  let json1 :=
    match key with
    | some k => xjson_print_key (if json.pretty_print then xjson_print_new_line json else json) k
    | none => json
  let json2 := xjson_print_token json1 [opener] 1
  { json2 with intendation := json2.intendation + 1 }

/-- The write branch of `xjson_array_end` (`opener = '['`, `closer = ']'`),
and of `xjson_object_end` up to the root special case. -/
def write_end (opener closer : Char) (json : xjson) : xjson :=
  let json4 := retract opener json
  let json5 := if json4.pretty_print then xjson_print_new_line json4 else json4
  xjson_print_token (xjson_print_token json5 [closer] 1) [','] 1

/-- What a write traversal of `t` does, stated for one sequence. -/
def WriteRuns (pp : Bool) (t : Trav) (lp : Option (Int × Int)) (j : xjson) : Prop :=
  ∃ j', run t lp j = some (j', t, true) ∧ j'.mode = XJSON_STATE_WRITE
    ∧ (j.error = true → j'.error = true)
    ∧ (∀ T d, 1 ≤ d → Wr j T pp d → j'.error = false → Wr j' (T ++ render pp d t) pp d)

/-- The text of a container in the words of the specification: the opening
delimiter, the texts of the children joined by commas (one comma less than
there are children, none for an empty container), the closing delimiter. -/
def container_text (opener closer : Char) (body : Trav) : List Char :=
  opener :: List.intercalate [','] (child_texts body) ++ [closer]

/-- A write context at indentation 1 (inside the root object, whose opening
brace is the first byte), over a buffer of 64 bytes, used as an example. -/
def nested_write_context : xjson :=
  { xjson_setup_write (xjson_zero ('\x7b' :: List.replicate 63 '#')) false 0 64 with
    current := 1, intendation := 1 }

/-- An example body: the children `"a": 1`, `"b": [true, -2]`, `"c": {}`. -/
def example_body : Trav :=
  .int (some ['a']) XJSON_INT_TYPE_U8 1
    (.array (some ['b']) (.bool none true (.int none XJSON_INT_TYPE_I8 (-2) .done))
      (.object (some ['c']) .done .done))

/-- Number of leading white space bytes of a text. -/
def ws_len (L : List Char) : Nat := (L.takeWhile xjson_is_space).length

/-- A text without its leading white space. -/
def skip_ws (L : List Char) : List Char := L.dropWhile xjson_is_space

/-- The width in bits of an integer type. -/
def int_bits (type : xjson_int_type) : Nat :=
  match type with
  | XJSON_INT_TYPE_U8 => 8
  | XJSON_INT_TYPE_U16 => 16
  | XJSON_INT_TYPE_U32 => 32
  | XJSON_INT_TYPE_U64 => 64
  | XJSON_INT_TYPE_I8 => 8
  | XJSON_INT_TYPE_I16 => 16
  | XJSON_INT_TYPE_I32 => 32
  | XJSON_INT_TYPE_I64 => 64

/-- Whether an integer type is signed. -/
def int_signed (type : xjson_int_type) : Bool :=
  match type with
  | XJSON_INT_TYPE_U8 => false
  | XJSON_INT_TYPE_U16 => false
  | XJSON_INT_TYPE_U32 => false
  | XJSON_INT_TYPE_U64 => false
  | XJSON_INT_TYPE_I8 => true
  | XJSON_INT_TYPE_I16 => true
  | XJSON_INT_TYPE_I32 => true
  | XJSON_INT_TYPE_I64 => true

/-- The fields of the context that no traversal operation changes: the mode,
the bounds of the buffer and the pretty printing flag. -/
def Frame (j j' : xjson) : Prop :=
  j'.mode = j.mode ∧ j'.start = j.start ∧ j'.end_ = j.end_ ∧ j'.pretty_print = j.pretty_print

/-- A key the read side can match against its own text: no double quote, no
white space and no NUL among its bytes. -/
def key_ok (k : List Char) : Bool :=
  k.all fun c => c != '"' && !xjson_is_space c && c != '\x00'

/-- The key of a child fits its container: children of an object have a key
(a `key_ok` one), elements of an array have none. -/
def key_fits (in_object : Bool) (key : Option (List Char)) : Bool :=
  match key with
  | none => !in_object
  | some k => in_object && key_ok k

/-- A well-nested sequence of children of an object (`in_object = true`) or of
an array (`in_object = false`): integer and boolean scalars and containers,
keyed in objects and unkeyed in arrays. -/
def wf_seq : Bool → Trav → Bool
  | _, .done => true
  | io, .int key _ _ rest => key_fits io key && wf_seq io rest
  | _, .float _ _ _ => false
  | _, .double _ _ _ => false
  | io, .bool key _ rest => key_fits io key && wf_seq io rest
  | _, .string _ _ _ => false
  | io, .object key body rest => key_fits io key && wf_seq true body && wf_seq io rest
  | io, .array key body rest => key_fits io key && wf_seq false body && wf_seq io rest

/-- The text that follows a child in a document: the comma and the further
children `R` (rendered with their commas, the last one removed), then `X`; or
`X` alone after the last child. -/
def sep_tail (R X : List Char) : List Char :=
  if R = [] then X else ',' :: (R.dropLast ++ X)

/-- The values a read traversal leaves in the caller's variables when it reads
the text written from `t`: an integer is printed from its value in its type,
parsed by `strtoll` (which clamps to the `long long` range) and converted to
its type; a boolean is read back as it is. -/
def read_back : Trav → Trav
  | .done => .done
  | .int key type val rest =>
    .int key type
      (int_cast type
        (if int_cast type val < 0 then max (int_cast type val) LLONG_MIN
          else min (int_cast type val) LLONG_MAX))
      (read_back rest)
  | .float key val rest => .float key val (read_back rest)
  | .double key val rest => .double key val (read_back rest)
  | .bool key val rest => .bool key val (read_back rest)
  | .string key str rest => .string key str (read_back rest)
  | .object key body rest => .object key (read_back body) (read_back rest)
  | .array key body rest => .array key (read_back body) (read_back rest)

/-- The sequence `t0` makes the same calls as `t`: the same accessors with the
same keys in the same order, whatever the caller's variables hold. -/
def same_calls : Trav → Trav → Bool
  | .done, .done => true
  | .int key type _ rest, .int key0 type0 _ rest0 =>
    decide (key = key0) && decide (type = type0) && same_calls rest rest0
  | .float key _ rest, .float key0 _ rest0 => decide (key = key0) && same_calls rest rest0
  | .double key _ rest, .double key0 _ rest0 => decide (key = key0) && same_calls rest rest0
  | .bool key _ rest, .bool key0 _ rest0 => decide (key = key0) && same_calls rest rest0
  | .string key _ rest, .string key0 _ rest0 => decide (key = key0) && same_calls rest rest0
  | .object key body rest, .object key0 body0 rest0 =>
    decide (key = key0) && same_calls body body0 && same_calls rest rest0
  | .array key body rest, .array key0 body0 rest0 =>
    decide (key = key0) && same_calls body body0 && same_calls rest rest0
  | _, _ => false

/-- A well-nested traversal: one root container, an object or an array,
without a key, whose children are well-nested (`wf_seq`). -/
def wf_root (t : Trav) : Bool :=
  match t with
  | .object none body .done => wf_seq true body
  | .array none body .done => wf_seq false body
  | _ => false

/-- An example of a well-nested traversal: the root object with the children
of `example_body`. -/
def example_root : Trav := .object none example_body .done

/-- The calls of `example_root` with other values in the caller's variables. -/
def example_root_blank : Trav :=
  .object none
    (.int (some ['a']) XJSON_INT_TYPE_U8 0
      (.array (some ['b']) (.bool none false (.int none XJSON_INT_TYPE_I8 0 .done))
        (.object (some ['c']) .done .done)))
    .done

/-! ## Contexts and texts used by the statements on the cursor -/

/-- A read context over the three bytes `{"a`, a document whose key has no
closing quote, after `object_begin(NULL)`: the cursor is on the opening quote. -/
def unterminated_key_context : xjson :=
  { xjson_setup_read (xjson_zero "\x7b\"a".toList) 0 3 with current := 1, intendation := 1 }

/-- A read context over the seven bytes `{"a":"b`, a document whose string value
has no closing quote, after `object_begin(NULL)`. -/
def unterminated_string_context : xjson :=
  { xjson_setup_read (xjson_zero "\x7b\"a\":\"b".toList) 0 7 with current := 1, intendation := 1 }

/-- One call of the traversal interface, with the arguments the caller passes. -/
inductive Op
  | object_begin (key : Option (List Char)) : Op
  | object_end : Op
  | array_begin (key : Option (List Char)) : Op
  | array_end : Op
  | integer (key : Option (List Char)) (val : Int) (type : xjson_int_type) : Op
  | float (key : Option (List Char)) (val : fval) : Op
  | double (key : Option (List Char)) (val : fval) : Op
  | bool (key : Option (List Char)) (val : Bool) : Op
  | string (key : Option (List Char)) (str : List Char) : Op
  deriving DecidableEq

/-- The context after one call (`none`: the call does not return). -/
def step (json : xjson) : Op → Option xjson
  | .object_begin key => xjson_object_begin json key
  | .object_end => some (xjson_object_end json)
  | .array_begin key => xjson_array_begin json key
  | .array_end => some (xjson_array_end json)
  | .integer key val type => (xjson_integer json key val type).map fun r => r.1
  | .float key val => (xjson_float json key val).map fun r => r.1
  | .double key val => (xjson_double json key val).map fun r => r.1
  | .bool key val => (xjson_bool json key val).map fun r => r.1
  | .string key str => (xjson_string json key str).map fun r => r.1

/-- The contexts after each call of a sequence of calls, in order. -/
def steps : xjson → List Op → Option (List xjson)
  | _, [] => some []
  | json, op :: ops => (step json op).bind fun json1 => (steps json1 ops).map fun js => json1 :: js

/-- The change of the nesting depth by a call: a container is opened, closed, or neither. -/
def Op.delta : Op → Int
  | .object_begin _ => 1
  | .array_begin _ => 1
  | .object_end => -1
  | .array_end => -1
  | _ => 0

/-- The nesting depth after each call of a sequence that starts at depth `d`:
the number of containers opened and not yet closed. -/
def depths : Int → List Op → List Int
  | _, [] => []
  | d, op :: ops => (d + op.delta) :: depths (d + op.delta) ops

/-- A sequence of calls is well nested from depth `d`: no `end` call comes
without a container open. -/
def well_nested : Nat → List Op → Bool
  | _, [] => true
  | d, .object_begin _ :: ops => well_nested (d + 1) ops
  | d, .array_begin _ :: ops => well_nested (d + 1) ops
  | d, .object_end :: ops => decide (0 < d) && well_nested (d - 1) ops
  | d, .array_end :: ops => decide (0 < d) && well_nested (d - 1) ops
  | d, _ :: ops => well_nested d ops

/-- The indentation is the same in both contexts. -/
@[reducible] def SameIndent (j j' : xjson) : Prop := j'.intendation = j.intendation

/-- The calls of a traversal of `{"a":1,"b":[true,-2],"c":{}}`. -/
def example_ops : List Op :=
  [.object_begin none, .integer (some ['a']) 0 XJSON_INT_TYPE_U8, .array_begin (some ['b']),
    .bool none false, .integer none 0 XJSON_INT_TYPE_I8, .array_end, .object_begin (some ['c']),
    .object_end, .object_end]

/-- The read context set up over the text `{"a":1,"b":[true,-2],"c":{}}`. -/
def example_read_context : xjson :=
  xjson_setup_read (xjson_zero "\x7b\"a\":1,\"b\":[true,-2],\"c\":\x7b\x7d\x7d".toList) 0 28

/-- The contexts after each call of `example_ops` on `example_read_context`. -/
def example_trace : List xjson :=
  match steps example_read_context example_ops with
  | some trace => trace
  | none => []

/-! ## Documents

A document as the read side sees it: a sequence of children, each a value (the
text of a scalar) or a container with its own children, with an optional key
and with its layout: the white space after the closing quote of the key
(`wq`), after the colon (`wc`), after the opening delimiter (`wo`), after the
value or the closing delimiter (`w1`), whether a comma follows (`comma`), and
the white space after that comma (`w2`). -/

inductive Doc
  | done : Doc
  | val (key : Option (List Char)) (wq wc : List Char) (text : List Char)
      (w1 : List Char) (comma : Bool) (w2 : List Char) (rest : Doc) : Doc
  | box (key : Option (List Char)) (wq wc : List Char) (is_array : Bool) (wo : List Char)
      (body : Doc) (w1 : List Char) (comma : Bool) (w2 : List Char) (rest : Doc) : Doc
  deriving DecidableEq

/-- The text of a key with its layout (nothing without a key). -/
def key_doc (key : Option (List Char)) (wq wc : List Char) : List Char :=
  match key with
  | none => []
  | some k => '"' :: (k ++ '"' :: (wq ++ ':' :: wc))

/-- The text between a child and what follows it. -/
def sep_doc (w1 : List Char) (comma : Bool) (w2 : List Char) : List Char :=
  w1 ++ (if comma then ',' :: w2 else w2)

def opener (is_array : Bool) : Char := if is_array then '[' else '{'

def closer (is_array : Bool) : Char := if is_array then ']' else '}'

/-- The text of a document. -/
def Doc.text : Doc → List Char
  | .done => []
  | .val key wq wc text w1 comma w2 rest =>
    key_doc key wq wc ++ (text ++ (sep_doc w1 comma w2 ++ rest.text))
  | .box key wq wc is_array wo body w1 comma w2 rest =>
    key_doc key wq wc ++ (opener is_array :: (wo ++ (body.text ++
      (closer is_array :: (sep_doc w1 comma w2 ++ rest.text)))))

/-- White space only. -/
def blank (W : List Char) : Bool := W.all xjson_is_space

/-- The text starts like a number: with a digit, a sign or a point. -/
def starts_number (V : List Char) : Bool :=
  match V with
  | [] => false
  | c :: _ => isdigit c || c == '-' || c == '+' || c == '.'

/-- The text does not start with a byte that could continue a number in front
of it: a digit, a point or an exponent letter. -/
def no_number_tail (T : List Char) : Bool :=
  match T with
  | [] => true
  | c :: _ => !isdigit c && c != '.' && c != 'e' && c != 'E'

/-- The layout of a document is sound: the white space is white space, and no
number is directly followed by a byte that could continue it. -/
def Doc.ok : Doc → Bool
  | .done => true
  | .val _ wq wc text w1 comma w2 rest =>
    blank wq && blank wc && blank w1 && blank w2
      && (!starts_number text || no_number_tail (sep_doc w1 comma w2 ++ rest.text)) && rest.ok
  | .box _ wq wc _ wo body w1 _ w2 rest =>
    blank wq && blank wc && blank wo && blank w1 && blank w2 && body.ok && rest.ok

/-- The text is made of the bytes of decimal notation only: digits, signs, a
point, an exponent letter. -/
def decimal_text (V : List Char) : Bool :=
  V.all fun c => isdigit c || c == '-' || c == '+' || c == '.' || c == 'e' || c == 'E'

/-- The numbers of a document are written in decimal notation: every value
that starts like a number is made of the bytes of decimal notation only (no
hexadecimal notation, no `infinity`, no `nan`). -/
def Doc.decimal : Doc → Bool
  | .done => true
  | .val _ _ _ text _ _ _ rest => (!starts_number text || decimal_text text) && rest.decimal
  | .box _ _ _ _ _ body _ _ _ rest => body.decimal && rest.decimal

/-- The document without its white space. -/
def Doc.squeeze : Doc → Doc
  | .done => .done
  | .val key _ _ text _ comma _ rest => .val key [] [] text [] comma [] rest.squeeze
  | .box key _ _ is_array _ body _ comma _ rest =>
    .box key [] [] is_array [] body.squeeze [] comma [] rest.squeeze

/-- The document without its white space and without its commas: the keys,
the values and the nesting. -/
def Doc.bare : Doc → Doc
  | .done => .done
  | .val key _ _ text _ _ _ rest => .val key [] [] text [] false [] rest.bare
  | .box key _ _ is_array _ body _ _ _ rest =>
    .box key [] [] is_array [] body.bare [] false [] rest.bare

/-- The text is an integer for `strtoll`: it starts like a number and `strtoll` consumes all of it. -/
def is_int_text (V : List Char) : Bool :=
  starts_number V && decide ((strtoll V 0).2 = V.length)

/-- The text is a number for `strtod`: it starts like a number and `strtod` consumes all of it. -/
def is_float_text (V : List Char) : Bool :=
  starts_number V && decide ((strtod V 0).2 = V.length)

/-- The text is `true` or `false`. -/
def is_bool_text (V : List Char) : Bool :=
  decide (V = "true".toList) || decide (V = "false".toList)

/-- The text is a string in double quotes, with no double quote between them. -/
def is_string_text (V : List Char) : Bool :=
  match V with
  | '"' :: r =>
    match r.reverse with
    | '"' :: b => b.all fun c => c != '"'
    | _ => false
  | _ => false

/-- The calls of the sequence `t` match the children of the document: the same
keys (`key_fits`: present and `key_ok` in an object, absent in an array), a
value of the kind the accessor parses, a container of the kind the call opens. -/
def fits : Bool → Trav → Doc → Bool
  | _, .done, .done => true
  | io, .int key _ _ rest, .val key0 _ _ text _ _ _ rest0 =>
    key_fits io key && decide (key = key0) && is_int_text text && fits io rest rest0
  | io, .float key _ rest, .val key0 _ _ text _ _ _ rest0 =>
    key_fits io key && decide (key = key0) && is_float_text text && fits io rest rest0
  | io, .double key _ rest, .val key0 _ _ text _ _ _ rest0 =>
    key_fits io key && decide (key = key0) && is_float_text text && fits io rest rest0
  | io, .bool key _ rest, .val key0 _ _ text _ _ _ rest0 =>
    key_fits io key && decide (key = key0) && is_bool_text text && fits io rest rest0
  | io, .string key _ rest, .val key0 _ _ text _ _ _ rest0 =>
    key_fits io key && decide (key = key0) && is_string_text text && fits io rest rest0
  | io, .object key body rest, .box key0 _ _ is_array _ body0 _ _ _ rest0 =>
    key_fits io key && decide (key = key0) && !is_array && fits true body body0
      && fits io rest rest0
  | io, .array key body rest, .box key0 _ _ is_array _ body0 _ _ _ rest0 =>
    key_fits io key && decide (key = key0) && is_array && fits false body body0
      && fits io rest rest0
  | _, _, _ => false

/-- The values the calls of `t` read from a document they match: an integer is
what `strtoll` returns for its text, converted to the type of the accessor; a
`double` is what `strtod` returns, a `float` that value converted; a boolean
is its literal; a string is what stands between the quotes, without its
leading white space. -/
def decode : Trav → Doc → Trav
  | .int key type _ rest, .val _ _ _ text _ _ _ rest0 =>
    .int key type (int_cast type (strtoll text 0).1) (decode rest rest0)
  | .float key _ rest, .val _ _ _ text _ _ _ rest0 =>
    .float key (double_to_float (strtod text 0).1) (decode rest rest0)
  | .double key _ rest, .val _ _ _ text _ _ _ rest0 =>
    .double key (strtod text 0).1 (decode rest rest0)
  | .bool key _ rest, .val _ _ _ text _ _ _ rest0 =>
    .bool key (decide (text = "true".toList)) (decode rest rest0)
  | .string key _ rest, .val _ _ _ text _ _ _ rest0 =>
    .string key (skip_ws (text.drop 1).dropLast) (decode rest rest0)
  | .object key body rest, .box _ _ _ _ _ body0 _ _ _ rest0 =>
    .object key (decode body body0) (decode rest rest0)
  | .array key body rest, .box _ _ _ _ _ body0 _ _ _ rest0 =>
    .array key (decode body body0) (decode rest rest0)
  | t, _ => t

/-- The exponent part of `strtod` on the text `s4` that follows the digits:
the value of the exponent and the number of bytes it takes (0 and 0 when
there is no exponent). -/
def strtod_exp (s4 : List Char) : Int × Nat :=
  let s5 := s4.drop 1
  let eneg := s5.head? == some '-'
  let esignlen := if s5.head? == some '-' || s5.head? == some '+' then 1 else 0
  let ed := (s5.drop esignlen).takeWhile isdigit
  let has_exp := (s4.head? == some 'e' || s4.head? == some 'E') && !ed.isEmpty
  (if has_exp then (if eneg then -(digits_val ed : Int) else (digits_val ed : Int)) else 0,
    if has_exp then 1 + esignlen + ed.length else 0)

/-! ## Example documents -/

/-- The calls of `main` in `sample.c` (the two fields of `delta`, which
`sample.c` reads with the key first, are read here with keyed accessors), with
the values `main` starts with. -/
def sample_calls : Trav :=
  .object none
    (.int (some ['a']) XJSON_INT_TYPE_U32 10
      (.array (some ['b'])
        (.float none ⟨false, 0, 0⟩ (.float none ⟨false, 0, 0⟩ (.float none ⟨false, 0, 0⟩ .done)))
        (.string (some ['c']) "Test String!".toList
          (.bool (some ['d']) true
            (.object (some "pos".toList)
              (.float (some ['x']) ⟨false, 1, 0⟩ (.float (some ['y']) ⟨false, 1, 1⟩ .done))
              (.object (some "delta".toList)
                (.float (some ['x']) ⟨false, 5, 1⟩ (.float (some ['y']) ⟨false, 5, 1⟩ .done))
                .done))))))
    .done

/-- The text `json_sample` of `sample.c`. -/
def sample_text : List Char :=
  ("\x7b \"a\": 20, \"b\": [2.0, 1.0, 3.0], \"c\": \"A test string!\", \"d\": false, "
    ++ "\"pos\": \x7b \"x\": 4, \"y\": 10.5 \x7d, \"delta\": \x7b \"x\": 20.3331, \"y\": 8 \x7d\x7d").toList

/-- The document of `sample.c`: a blank after every opening brace, colon and
comma, and after the last value of the two inner objects. -/
def sample_doc : Doc :=
  .box none [] [] false [' ']
    (.val (some ['a']) [] [' '] "20".toList [] true [' ']
      (.box (some ['b']) [] [' '] true []
        (.val none [] [] "2.0".toList [] true [' ']
          (.val none [] [] "1.0".toList [] true [' ']
            (.val none [] [] "3.0".toList [] false [] .done)))
        [] true [' ']
        (.val (some ['c']) [] [' '] "\"A test string!\"".toList [] true [' ']
          (.val (some ['d']) [] [' '] "false".toList [] true [' ']
            (.box (some "pos".toList) [] [' '] false [' ']
              (.val (some ['x']) [] [' '] "4".toList [] true [' ']
                (.val (some ['y']) [] [' '] "10.5".toList [' '] false [] .done))
              [] true [' ']
              (.box (some "delta".toList) [] [' '] false [' ']
                (.val (some ['x']) [] [' '] "20.3331".toList [] true [' ']
                  (.val (some ['y']) [] [' '] "8".toList [' '] false [] .done))
                [] false [] .done))))))
    [] false [] .done

/-- The calls `array_begin(NULL)`, the loop over two `u8(NULL)`, `array_end`. -/
def two_u8 (a b : Int) : Trav :=
  .array none (.int none XJSON_INT_TYPE_U8 a (.int none XJSON_INT_TYPE_U8 b .done)) .done

/-- The calls `object_begin(NULL); u8("a"); u8("b"); object_end`. -/
def two_fields (a b : Int) : Trav :=
  .object none
    (.int (some ['a']) XJSON_INT_TYPE_U8 a (.int (some ['b']) XJSON_INT_TYPE_U8 b .done)) .done

/-- The document `{"a":1,"b":2}` (`comma = true`, `w = []`), `{"a":1 "b":2}`
(`comma = false`, `w` a blank), and so on; `last` tells whether a comma
follows the last child. -/
def two_fields_doc (comma : Bool) (w : List Char) (last : Bool) : Doc :=
  .box none [] [] false []
    (.val (some ['a']) [] [] ['1'] [] comma w (.val (some ['b']) [] [] ['2'] [] last [] .done))
    [] false [] .done

/-! ## The boolean accessor -/

/-- A read context over `[true , false]` after `array_begin(NULL)`: the cursor
is on the literal `true`. -/
def bool_read_context : xjson :=
  { xjson_setup_read (xjson_zero "[true , false]".toList) 0 14 with
    current := 1, intendation := 1 }

/-- The root object with one boolean field `k`. -/
def bool_doc (b : Bool) : Trav := .object none (.bool (some ['k']) b .done) .done

/-! ## The byte in front of the cursor in write mode -/

/-- The byte a call leaves in front of the cursor in write mode: the opening
delimiter after a `begin`, a comma after a scalar accessor or an `end`. -/
def last_byte : Op → Char
  | .object_begin _ => '\x7b'
  | .array_begin _ => '['
  | _ => ','

/-- The declared capacity lies inside the allocation. -/
def Cap (json : xjson) : Prop := json.end_ ≤ json.mem.length

/-- A write context set up over a 32 byte buffer. -/
def example_write_context : xjson := xjson_setup_write (xjson_zero (List.replicate 32 '#')) false 0 32

/-- The calls that write `{"a":1,"b":[],"c":{}}`. -/
def example_write_ops : List Op :=
  [.object_begin none, .integer (some ['a']) 1 XJSON_INT_TYPE_U8, .array_begin (some ['b']),
    .array_end, .object_begin (some ['c']), .object_end, .object_end]

/-- The contexts after each call of `example_write_ops` on `example_write_context`. -/
def example_write_trace : List xjson :=
  match steps example_write_context example_write_ops with
  | some trace => trace
  | none => []

/-! ## Theorems -/

/-! ### Evaluations on concrete inputs -/

/-- C1, the code at the failing input: writing the root object with the u64
field `"a"` = 18446744073709551615 and reading the text back with the same
calls ends without error, but the field read back is 9223372036854775807:
`strtoll` saturates at `LLONG_MAX`. -/
theorem c1_u64_round_trip_saturates :
    (write_then_read (int_doc XJSON_INT_TYPE_U64 ['a'] 18446744073709551615)
        (int_doc XJSON_INT_TYPE_U64 ['a'] 0) false (List.replicate 32 '#') 32).map
      (fun r => (r.1.error, r.2.1))
      = some (false, int_doc XJSON_INT_TYPE_U64 ['a'] 9223372036854775807) := by
  decide

/-- C2: the worked example.  Written without pretty printing into a 64 byte
buffer, the calls leave the text of the example followed by a NUL in the
buffer, with the cursor on the NUL and no error; the same calls in read mode
over that text end without error, with `a = 10` and `b = [1.0, 2.0]`, each
loop having run its body once per element, and with the cursor at `end`. -/
theorem c2_worked_example :
    (write_traversal (example_doc 10 ⟨false, 1, 0⟩ ⟨false, 1, 1⟩) false
        (List.replicate 64 '#') 64).map
      (fun r => (r.1.mem.take 33, r.1.current, r.1.error, r.2.2))
      = some (example_text ++ ['\x00'], 32, false, true)
    ∧ (write_then_read (example_doc 10 ⟨false, 1, 0⟩ ⟨false, 1, 1⟩)
        (example_doc 0 ⟨false, 0, 0⟩ ⟨false, 0, 0⟩) false (List.replicate 64 '#') 64).map
      (fun r => (r.1.error, r.2.1, r.2.2, r.1.current, r.1.end_))
      = some (false, example_doc 10 ⟨false, 1, 0⟩ ⟨false, 1, 1⟩, true, 32, 32) := by
  decide

/-- C4, the code at the failing input: the root array `[1]` written into an 8
byte buffer.  After `array_end` the indentation is back to 0 and no error is
latched, but the buffer holds `[1],` with the cursor after the comma: the byte
that follows the closing bracket is a comma, not a NUL, and no NUL is stored. -/
theorem c4_root_array_not_terminated :
    (write_traversal (.array none (.int none XJSON_INT_TYPE_U8 1 .done) .done) false
        (List.replicate 8 '#') 8).map
      (fun r => (r.1.mem, r.1.current, r.1.intendation, r.1.error))
      = some ("[1],####".toList, 4, 0, false) := by
  decide

/-- C5, the code at the failing input: the root object with the u8 field
`"a"` = 1 written into a 16 byte allocation of which 2 bytes are declared as
capacity.  The error is latched with the message of the claim, but the bytes
`a`, `1` and a NUL are stored at the offsets 2, 3 and 4, past `end = 2`, and
the cursor ends at 4.  Also `xjson_print_token` alone, with `end - cursor = 0`
and `len = 1`: it latches the error, and still copies the byte and advances
the cursor. -/
theorem c5_writes_past_end :
    (write_traversal (int_doc XJSON_INT_TYPE_U8 ['a'] 1) false (List.replicate 16 '#') 2).map
      (fun r => (r.1.mem, r.1.current, r.1.end_, r.1.error, r.1.error_message))
      = some ("\x7b\"a1\x00###########".toList, 4, 2, true, msg_write_buffer)
    ∧ (let json := xjson_print_token
          (xjson_setup_write (xjson_zero (List.replicate 4 '#')) false 0 0) ['\x7b'] 1
       (json.mem, json.current, json.end_, json.error)
        = ("\x7b###".toList, 1, 0, true)) := by
  decide

/-- C6, the code at the failing input: on the write context
`latched_write_context`, whose error flag is set, the accessor `u8(NULL)`
with value 7 is not a no-op: it stores `7` and a NUL at the cursor and moves
the cursor from 3 to 4 (the error flag and the message stay as they are). -/
theorem c6_write_accessor_not_noop :
    latched_write_context.map (fun json => (json.mem, json.current, json.error))
      = some ("\x7b7,#####".toList, 3, true)
    ∧ (latched_write_context.bind fun json => xjson_u8 json none 7).map
        (fun r => (r.1.mem, r.1.current, r.1.error, r.1.error_message))
      = some ("\x7b7,7\x00###".toList, 4, true, msg_write_buffer) := by
  decide

/-- C7, the code at the failing input: with the cursor on the opening quote of
the document key `a` in the text `"a":1`, `xjson_expect_key` for the requested
key `ab` returns without error, the cursor past the colon: only the first
`key_len` bytes of the requested key are compared.  (Requesting `b` latches
the key mismatch error.) -/
theorem c7_longer_key_accepted :
    (xjson_expect_key (xjson_setup_read (xjson_zero "\"a\":1".toList) 0 5) "ab".toList).map
      (fun json => (json.error, json.current)) = some (false, 4)
    ∧ (xjson_expect_key (xjson_setup_read (xjson_zero "\"a\":1".toList) 0 5) "b".toList)
      = some (xjson_error
          { xjson_setup_read (xjson_zero "\"a\":1".toList) 0 5 with current := 2 }
          msg_key_mismatch) := by
  decide

/-- C8, the code at the failing input: the root object with the string field
`"k"` = `" a"` (a space, then `a`).  The text written is `{"k":" a"}`, and
reading it back with the same calls ends without error, with one call of
the allocator, but the span it is given and the string read back are `a`: the
white space after the opening quote is skipped. -/
theorem c8_leading_space_lost :
    (write_traversal (string_doc ['k'] " a".toList) false (List.replicate 16 '#') 16).map
      (fun r => (r.1.mem.take 11, r.1.current, r.1.error))
      = some ("\x7b\"k\":\" a\"\x7d\x00".toList, 10, false)
    ∧ (write_then_read (string_doc ['k'] " a".toList) (string_doc ['k'] [])
        false (List.replicate 16 '#') 16).map
      (fun r => (r.1.error, r.1.allocs, r.2.1))
      = some (false, [['a']], string_doc ['k'] ['a']) := by
  decide

/-! ### Decimal text -/

theorem digit_val_digit_char (d : Nat) (h : d < 10) : digit_val (digit_char d) = d := by
  interval_cases d <;> rfl

theorem isdigit_digit_char (d : Nat) (h : d < 10) : isdigit (digit_char d) = true := by
  interval_cases d <;> rfl

theorem digits_val_append (a : List Char) (c : Char) :
    digits_val (a ++ [c]) = digits_val a * 10 + digit_val c := by
  simp [digits_val]

theorem fmt_nat_fuel_spec : ∀ (fuel n : Nat), n < fuel →
    (∀ c ∈ fmt_nat_fuel fuel n, isdigit c = true) ∧ digits_val (fmt_nat_fuel fuel n) = n
      ∧ fmt_nat_fuel fuel n ≠ [] := by
  intro fuel
  induction fuel with
  | zero => intro n h; omega
  | succ fuel ih =>
    intro n h
    unfold fmt_nat_fuel
    by_cases h10 : n < 10
    · simp only [h10, if_true]
      refine ⟨?_, ?_, by simp⟩
      · intro c hc
        simp only [List.mem_singleton] at hc
        subst hc
        exact isdigit_digit_char n h10
      · simp [digits_val, digit_val_digit_char n h10]
    · simp only [h10, if_false]
      have hlt : n / 10 < fuel := by omega
      obtain ⟨h1, h2, _⟩ := ih (n / 10) hlt
      refine ⟨?_, ?_, by simp⟩
      · intro c hc
        rcases List.mem_append.mp hc with hc | hc
        · exact h1 c hc
        · simp only [List.mem_singleton] at hc
          subst hc
          exact isdigit_digit_char _ (Nat.mod_lt _ (by omega))
      · rw [digits_val_append, h2, digit_val_digit_char _ (Nat.mod_lt _ (by omega))]
        omega

theorem fmt_nat_digits (n : Nat) : ∀ c ∈ fmt_nat n, isdigit c = true :=
  (fmt_nat_fuel_spec (n + 1) n (by omega)).1

theorem digits_val_fmt_nat (n : Nat) : digits_val (fmt_nat n) = n :=
  (fmt_nat_fuel_spec (n + 1) n (by omega)).2.1

theorem fmt_nat_ne_nil (n : Nat) : fmt_nat n ≠ [] :=
  (fmt_nat_fuel_spec (n + 1) n (by omega)).2.2

theorem isspace_of_isdigit (c : Char) (h : isdigit c = true) : isspace c = false := by
  unfold isdigit at h
  simp only [Bool.and_eq_true, decide_eq_true_eq] at h
  unfold isspace
  simp only [Bool.or_eq_false_iff, beq_eq_false_iff_ne, ne_eq]
  refine ⟨⟨⟨⟨⟨?_, ?_⟩, ?_⟩, ?_⟩, ?_⟩, ?_⟩ <;>
    (intro hc; rw [hc] at h; revert h; decide)

theorem takeWhile_digits (ds S : List Char) (hd : ∀ c ∈ ds, isdigit c = true)
    (hS : ∀ c, S.head? = some c → isdigit c = false) :
    (ds ++ S).takeWhile isdigit = ds := by
  rw [List.takeWhile_append_of_pos hd]
  cases S with
  | nil => simp
  | cons c S => simp [List.takeWhile_cons, hS c rfl]

/-- The text of an integer is read back by `strtoll`, whatever stands in front
of it, when no digit follows it. -/
theorem strtoll_fmt_int (pre S : List Char) (n : Int)
    (hS : ∀ c, S.head? = some c → isdigit c = false) :
    strtoll (pre ++ (fmt_int n ++ S)) pre.length
      = (if n < 0 then max n LLONG_MIN else min n LLONG_MAX, pre.length + (fmt_int n).length) := by
  unfold strtoll
  simp only [List.drop_left]
  by_cases hn : n < 0
  · have hf : fmt_int n = '-' :: fmt_nat n.natAbs := by simp [fmt_int, hn]
    have hws : (fmt_int n ++ S).takeWhile isspace = [] := by
      rw [hf]; rfl
    rw [hws, hf]
    simp only [List.length_nil, List.drop_zero, List.cons_append, List.head?_cons, beq_self_eq_true,
      Bool.true_or, if_true, List.drop_succ_cons, hn]
    rw [takeWhile_digits _ _ (fmt_nat_digits _) hS]
    have hne := fmt_nat_ne_nil n.natAbs
    simp only [List.isEmpty_eq_true, hne, if_false, digits_val_fmt_nat, List.length_cons]
    refine Prod.ext ?_ ?_
    · simp only
      congr 1
      omega
    · simp only
      omega
  · have hf : fmt_int n = fmt_nat n.natAbs := by simp [fmt_int, hn]
    have hne := fmt_nat_ne_nil n.natAbs
    obtain ⟨c, ds, hcd⟩ := List.exists_cons_of_ne_nil hne
    have hc : isdigit c = true := fmt_nat_digits n.natAbs c (by rw [hcd]; simp)
    have hws : (fmt_int n ++ S).takeWhile isspace = [] := by
      rw [hf, hcd]
      simp [List.takeWhile_cons, isspace_of_isdigit c hc]
    have hm : (c == '-') = false := by
      rw [beq_eq_false_iff_ne]; intro h; rw [h] at hc; revert hc; decide
    have hp : (c == '+') = false := by
      rw [beq_eq_false_iff_ne]; intro h; rw [h] at hc; revert hc; decide
    rw [hws, hf]
    have hsign : ((fmt_nat n.natAbs ++ S).head? == some '-') = false := by
      rw [hcd]; simpa using hm
    have hsign2 : ((fmt_nat n.natAbs ++ S).head? == some '+') = false := by
      rw [hcd]; simpa using hp
    simp only [List.length_nil, List.drop_zero, hsign, hsign2, Bool.or_self, Bool.false_eq_true,
      if_false, hn]
    rw [takeWhile_digits _ _ (fmt_nat_digits _) hS]
    simp only [List.isEmpty_eq_true, hne, if_false, digits_val_fmt_nat]
    refine Prod.ext ?_ ?_
    · simp only
      congr 1
      omega
    · simp only
      omega

/-! ### Memory -/

theorem store_bytes_length : ∀ (bs m : List Char) (p : Nat),
    (store_bytes m p bs).length = m.length := by
  intro bs
  induction bs with
  | nil => intro m p; rfl
  | cons b bs ih => intro m p; simp [store_bytes, store, ih]

theorem store_take (m : List Char) (p : Nat) (c : Char) (h : p < m.length) :
    (store m p c).take (p + 1) = m.take p ++ [c] := by
  unfold store
  rw [List.set_eq_take_append_cons_drop, if_pos h]
  have hl : (m.take p).length = p := by simp; omega
  rw [List.take_append_eq_append_take, hl]
  simp [List.take_take]

theorem store_bytes_take : ∀ (bs m : List Char) (p : Nat), p + bs.length ≤ m.length →
    (store_bytes m p bs).take (p + bs.length) = m.take p ++ bs := by
  intro bs
  induction bs with
  | nil => intro m p _; simp [store_bytes]
  | cons b bs ih =>
    intro m p h
    simp only [List.length_cons] at h
    have h1 : p + 1 + bs.length ≤ (store m p b).length := by simp [store]; omega
    have := ih (store m p b) (p + 1) h1
    simp only [store_bytes, List.length_cons]
    rw [show p + (bs.length + 1) = p + 1 + bs.length by omega, this,
      store_take m p b (by omega)]
    simp

theorem take_of_take_eq (m T X : List Char) (h : m.take (T ++ X).length = T ++ X) :
    m.take T.length = T := by
  have := congrArg (List.take T.length) h
  rw [List.take_take] at this
  simpa using this

/-! ### Write mode: the steps of a traversal -/

@[simp] theorem xjson_error_error (j : xjson) (m : List Char) : (xjson_error j m).error = true := by
  unfold xjson_error; split <;> rfl

@[simp] theorem xjson_error_mode (j : xjson) (m : List Char) : (xjson_error j m).mode = j.mode := by
  unfold xjson_error; split <;> rfl

theorem print_token_latched (j : xjson) (tok : List Char) (n : Nat) (h : j.error = true) :
    xjson_print_token j tok n = j := by
  simp [xjson_print_token, h]

theorem print_token_mode (j : xjson) (tok : List Char) (n : Nat) :
    (xjson_print_token j tok n).mode = j.mode := by
  unfold xjson_print_token
  split
  · rfl
  · split <;> simp

theorem print_token_intendation (j : xjson) (tok : List Char) (n : Nat) :
    (xjson_print_token j tok n).intendation = j.intendation := by
  unfold xjson_print_token xjson_error
  split
  · rfl
  · split <;> [split; skip] <;> rfl

theorem WStep_id (pp : Bool) (d : Nat) : WStep pp d d (fun j => j) [] :=
  ⟨fun _ => rfl, fun _ h => h, fun j T h _ => by simpa using h⟩

theorem WStep_comp {pp : Bool} {d d' d'' : Nat} {f g : xjson → xjson} {X Y : List Char}
    (hf : WStep pp d d' f X) (hg : WStep pp d' d'' g Y) :
    WStep pp d d'' (fun j => g (f j)) (X ++ Y) := by
  refine ⟨fun j => by rw [hg.1, hf.1], fun j h => hg.2.1 _ (hf.2.1 j h), ?_⟩
  intro j T hw he
  have hfe : (f j).error = false := by
    cases hfe : (f j).error with
    | false => rfl
    | true => rw [hg.2.1 _ hfe] at he; exact absurd he (by simp)
  have := hg.2.2 _ _ (hf.2.2 j T hw hfe) he
  simpa [List.append_assoc] using this

theorem WStep_print_token (pp : Bool) (d : Nat) (tok X : List Char) (n : Nat)
    (hX : strncpy_bytes tok n = X) (hn : X.length = n) :
    WStep pp d d (fun j => xjson_print_token j tok n) X := by
  refine ⟨fun j => print_token_mode j tok n, ?_, ?_⟩
  · intro j h; show (xjson_print_token j tok n).error = true
    rw [print_token_latched j tok n h]; exact h
  · intro j T ⟨hm, he, hp, hi, hc, ht, hcap⟩ hr
    beta_reduce at hr ⊢
    unfold xjson_print_token at hr ⊢
    simp only [he, Bool.false_eq_true, if_false] at hr ⊢
    by_cases hov : j.current + n > j.end_
    · simp [hov] at hr
    · simp only [hov, if_false, hX]
      refine ⟨hm, he, hp, hi, by simp [hc, hn], ?_, by simpa [store_bytes_length] using hcap⟩
      simp only [List.length_append, hn]
      rw [hc]
      have := store_bytes_take X j.mem T.length (by rw [hn]; omega)
      rw [hn] at this
      rw [this, ht]

theorem strncpy_bytes_char (c : Char) (h : c ≠ '\x00') : strncpy_bytes [c] 1 = [c] := by
  simp [strncpy_bytes, List.takeWhile_cons, h]

theorem strncpy_bytes_key (k : List Char) : strncpy_bytes k (strlen k) = cstr k := by
  simp [strncpy_bytes, strlen, cstr]

theorem WStep_print_char (pp : Bool) (d : Nat) (c : Char) (h : c ≠ '\x00') :
    WStep pp d d (fun j => xjson_print_token j [c] 1) [c] :=
  WStep_print_token pp d [c] [c] 1 (strncpy_bytes_char c h) rfl

theorem WStep_congr {pp : Bool} {d d' : Nat} {f g : xjson → xjson} {X Y : List Char}
    (hf : WStep pp d d' f X) (hfg : ∀ j, g j = f j) (hXY : Y = X) : WStep pp d d' g Y := by
  have : g = f := funext hfg
  rw [this, hXY]; exact hf

theorem WStep_print_key (pp : Bool) (d : Nat) (k : List Char) :
    WStep pp d d (fun j => xjson_print_key j k) (key_text (some k)) := by
  have h1 := WStep_print_char pp d '"' (by decide)
  have h2 := WStep_print_token pp d k (cstr k) (strlen k) (strncpy_bytes_key k) (by simp [cstr, strlen])
  have h3 := WStep_print_char pp d ':' (by decide)
  refine WStep_congr (WStep_comp (WStep_comp (WStep_comp h1 h2) h1) h3) ?_ ?_
  · intro j
    unfold xjson_print_key
    cases he : j.error with
    | false => simp
    | true => simp [print_token_latched, he]
  · simp [key_text]

theorem WStep_print_tabs (pp : Bool) (d : Nat) : ∀ n : Nat,
    WStep pp d d (fun j => print_tabs n j) (List.replicate n '\t') := by
  intro n
  induction n with
  | zero => exact WStep_id pp d
  | succ n ih =>
    exact WStep_congr (WStep_comp (WStep_print_char pp d '\t' (by decide)) ih)
      (fun j => rfl) (by simp [List.replicate_succ])

theorem print_tabs_latched (n : Nat) (j : xjson) (h : j.error = true) : print_tabs n j = j := by
  induction n with
  | zero => rfl
  | succ n ih => simp [print_tabs, print_token_latched, h, ih]

theorem print_new_line_eq (j : xjson) :
    xjson_print_new_line j = print_tabs j.intendation.toNat (xjson_print_token j ['\n'] 1) := by
  unfold xjson_print_new_line
  cases he : j.error with
  | false => simp [print_token_intendation]
  | true => simp [print_token_latched, print_tabs_latched, he]

theorem WStep_print_new_line (d : Nat) :
    WStep true d d xjson_print_new_line (nl true d) := by
  have hc := WStep_comp (WStep_print_char true d '\n' (by decide)) (WStep_print_tabs true d d)
  refine ⟨?_, ?_, ?_⟩
  · intro j
    rw [print_new_line_eq]
    exact (WStep_comp (WStep_print_char true d '\n' (by decide))
      (WStep_print_tabs true d j.intendation.toNat)).1 j
  · intro j h
    rw [print_new_line_eq]
    exact (WStep_comp (WStep_print_char true d '\n' (by decide))
      (WStep_print_tabs true d j.intendation.toNat)).2.1 j h
  · intro j T hw he
    have hi : j.intendation.toNat = d := by rw [hw.2.2.2.1]; simp
    rw [print_new_line_eq, hi] at he ⊢
    simpa [nl] using hc.2.2 j T hw he

/-- The optional new line in front of a scalar or of a keyed container. -/
theorem WStep_nl (pp : Bool) (d : Nat) :
    WStep pp d d (fun j => if j.pretty_print then xjson_print_new_line j else j) (nl pp d) := by
  refine ⟨?_, ?_, ?_⟩
  · intro j; beta_reduce; split
    · exact (WStep_print_new_line d).1 j
    · rfl
  · intro j h; beta_reduce; split
    · exact (WStep_print_new_line d).2.1 j h
    · exact h
  · intro j T hw he
    have hp := hw.2.2.1
    cases pp with
    | false => simp only [hp, Bool.false_eq_true, if_false] at he ⊢; simpa [nl] using hw
    | true =>
      simp only [hp, if_true] at he ⊢
      exact (WStep_print_new_line d).2.2 j T hw he

theorem WStep_key (pp : Bool) (d : Nat) (key : Option (List Char)) :
    WStep pp d d
      (fun j => match key with
        | some k => xjson_print_key j k
        | none => j) (key_text key) := by
  cases key with
  | none => exact WStep_id pp d
  | some k => exact WStep_print_key pp d k

/-- The `sprintf` of a scalar accessor and the comma after it. -/
theorem WStep_value (pp : Bool) (d : Nat) (text : List Char) :
    WStep pp d d
      (fun j => xjson_print_token
        { j with
          mem := store_bytes j.mem j.current (text ++ ['\x00'])
          current := j.current + text.length } [','] 1) (text ++ [',']) := by
  refine ⟨?_, ?_, ?_⟩
  · intro j; beta_reduce; rw [print_token_mode]
  · intro j h; beta_reduce; rw [print_token_latched _ _ _ (by exact h)]; exact h
  · intro j T ⟨hm, he, hp, hi, hc, ht, hcap⟩ hr
    beta_reduce at hr ⊢
    unfold xjson_print_token at hr ⊢
    simp only [he, Bool.false_eq_true, if_false] at hr ⊢
    by_cases hov : j.current + text.length + 1 > j.end_
    · simp [hov] at hr
    · simp only [hov, if_false]
      have hk : strncpy_bytes [','] 1 = [','] := by decide
      rw [hk]
      refine ⟨hm, rfl, hp, hi, by simp [hc]; omega, ?_, by simpa [store_bytes_length] using hcap⟩
      simp only
      have h1 := store_bytes_take (text ++ ['\x00']) j.mem T.length
        (by simp only [List.length_append, List.length_singleton]; omega)
      rw [ht] at h1
      have h2 : (store_bytes j.mem T.length (text ++ ['\x00'])).take (T ++ text).length
          = T ++ text := by
        apply take_of_take_eq _ _ ['\x00']
        simpa [List.length_append, Nat.add_assoc] using h1
      have h3 := store_bytes_take [','] (store_bytes j.mem T.length (text ++ ['\x00']))
        (T ++ text).length
        (by simp only [store_bytes_length, List.length_append, List.length_singleton]; omega)
      rw [h2] at h3
      rw [hc]
      simpa [List.length_append, Nat.add_assoc] using h3

theorem WStep_write_scalar (pp : Bool) (d : Nat) (key : Option (List Char)) (text : List Char) :
    WStep pp d d (fun j => write_scalar j key text)
      (nl pp d ++ key_text key ++ text ++ [',']) :=
  WStep_congr (WStep_comp (WStep_comp (WStep_nl pp d) (WStep_key pp d key)) (WStep_value pp d text))
    (fun j => by cases key <;> rfl) (by simp)

/-! ### Write mode: containers -/

theorem object_begin_write_eq (j : xjson) (key : Option (List Char))
    (hm : j.mode = XJSON_STATE_WRITE) :
    xjson_object_begin j key = some (if j.error then j else write_begin '{' key j) := by
  unfold xjson_object_begin write_begin
  cases he : j.error <;> simp [hm]

theorem array_begin_write_eq (j : xjson) (key : Option (List Char))
    (hm : j.mode = XJSON_STATE_WRITE) :
    xjson_array_begin j key = some (if j.error then j else write_begin '[' key j) := by
  unfold xjson_array_begin write_begin
  cases he : j.error <;> simp [hm]

theorem object_end_write_eq (j : xjson) (hm : j.mode = XJSON_STATE_WRITE) :
    xjson_object_end j = if j.error then j else terminate_root (write_end '{' '}' j) := by
  unfold xjson_object_end write_end retract terminate_root
  cases he : j.error
  · simp only [hm, reduceCtorEq, Bool.false_eq_true, if_false]
  · simp

theorem array_end_write_eq (j : xjson) (hm : j.mode = XJSON_STATE_WRITE) :
    xjson_array_end j = if j.error then j else write_end '[' ']' j := by
  unfold xjson_array_end write_end retract
  cases he : j.error
  · simp only [hm, reduceCtorEq, Bool.false_eq_true, if_false]
  · simp

theorem WStep_indent (pp : Bool) (d : Nat) :
    WStep pp d (d + 1) (fun j => { j with intendation := j.intendation + 1 }) [] := by
  refine ⟨fun _ => rfl, fun _ h => h, ?_⟩
  intro j T ⟨hm, he, hp, hi, hc, ht, hcap⟩ _
  refine ⟨hm, he, hp, ?_, by simpa using hc, by simpa using ht, hcap⟩
  simp [hi]

theorem WStep_write_begin (pp : Bool) (d : Nat) (c : Char) (hc : c ≠ '\x00')
    (key : Option (List Char)) :
    WStep pp d (d + 1) (write_begin c key) (key_nl pp d key ++ key_text key ++ [c]) := by
  have hk : WStep pp d d
      (fun j => match key with
        | some k => xjson_print_key (if j.pretty_print then xjson_print_new_line j else j) k
        | none => j) (key_nl pp d key ++ key_text key) := by
    cases key with
    | none => exact WStep_id pp d
    | some k =>
      exact WStep_congr (WStep_comp (WStep_nl pp d) (WStep_print_key pp d k))
        (fun j => rfl) rfl
  exact WStep_congr (WStep_comp (WStep_comp hk (WStep_print_char pp d c hc)) (WStep_indent pp d))
    (fun j => rfl) (by simp)

theorem load_of_take (mem T : List Char) (i : Nat) (h : mem.take T.length = T)
    (hi : i < T.length) : load mem i = T.getD i '\x00' := by
  unfold load
  rw [List.getD_eq_getElem?_getD, List.getD_eq_getElem?_getD]
  conv_rhs => rw [← h]
  rw [List.getElem?_take_of_lt hi]

theorem retract_mode (c : Char) (j : xjson) : (retract c j).mode = j.mode := by
  unfold retract; split <;> rfl

theorem retract_error (c : Char) (j : xjson) : (retract c j).error = j.error := by
  unfold retract; split <;> rfl

theorem retract_wr (pp : Bool) (d : Nat) (c : Char) (T0 B : List Char) (j : xjson)
    (hw : Wr j (T0 ++ c :: B) pp (d + 1)) (hB : B = [] ∨ ∃ B', B = B' ++ [','])
    (hc : c ≠ ',') : Wr (retract c j) (T0 ++ c :: B.dropLast) pp d := by
  obtain ⟨hm, he, hp, hi, hcur, ht, hcap⟩ := hw
  have hint : j.intendation - 1 = (d : Int) := by rw [hi]; push_cast; omega
  rcases hB with hB | ⟨B', hB⟩
  · subst hB
    have hl : load j.mem (j.current - 1) = c := by
      rw [load_of_take j.mem _ _ ht (by rw [hcur]; simp), hcur]
      simp
    unfold retract
    rw [if_pos hl]
    refine ⟨hm, he, hp, hint, ?_, by simpa using ht, hcap⟩
    simp [hcur]
  · subst hB
    have hl : load j.mem (j.current - 1) = ',' := by
      rw [load_of_take j.mem _ _ ht (by rw [hcur]; simp), hcur]
      have : (T0 ++ c :: (B' ++ [','])).length - 1 = (T0 ++ c :: B').length := by simp
      rw [this, show T0 ++ c :: (B' ++ [',']) = (T0 ++ c :: B') ++ [','] by simp]
      simp only [List.getD_eq_getElem?_getD]
      rw [List.getElem?_append_right (Nat.le_refl _)]
      simp
    unfold retract
    rw [if_neg (by rw [hl]; exact fun h => hc h.symm)]
    have hd : (B' ++ [',']).dropLast = B' := by simp
    rw [hd]
    refine ⟨hm, he, hp, hint, by simp [hcur], ?_, hcap⟩
    simp only
    apply take_of_take_eq _ _ [',']
    simpa using ht

theorem write_end_mode (c c' : Char) (j : xjson) : (write_end c c' j).mode = j.mode := by
  unfold write_end
  simp only [print_token_mode]
  rw [(WStep_nl false 0).1, retract_mode]

theorem write_end_wr (pp : Bool) (d : Nat) (c c' : Char) (T0 B : List Char) (j : xjson)
    (hw : Wr j (T0 ++ c :: B) pp (d + 1)) (hB : B = [] ∨ ∃ B', B = B' ++ [','])
    (hc : c ≠ ',') (hc' : c' ≠ '\x00') (he : (write_end c c' j).error = false) :
    Wr (write_end c c' j) (T0 ++ c :: B.dropLast ++ nl pp d ++ [c', ',']) pp d := by
  have hs := WStep_comp (WStep_comp (WStep_nl pp d) (WStep_print_char pp d c' hc'))
    (WStep_print_char pp d ',' (by decide))
  have := hs.2.2 (retract c j) _ (retract_wr pp d c T0 B j hw hB hc) he
  simpa [write_end, List.append_assoc] using this

theorem terminate_root_nested (pp : Bool) (d : Nat) (T : List Char) (j : xjson)
    (hw : Wr j T pp d) (hd : 1 ≤ d) : terminate_root j = j := by
  unfold terminate_root
  rw [if_neg]
  rw [hw.2.2.2.1]
  intro h
  have := h.1
  omega

theorem terminate_root_wr (pp : Bool) (T : List Char) (j : xjson)
    (hw : Wr j (T ++ [',']) pp 0) :
    Wr (terminate_root j) T pp 0 ∧ load (terminate_root j).mem (terminate_root j).current = '\x00' := by
  obtain ⟨hm, he, hp, hi, hcur, ht, hcap⟩ := hw
  unfold terminate_root
  rw [if_pos ⟨by simpa using hi, hm⟩]
  have hlen : T.length < j.mem.length := by
    have := congrArg List.length ht
    simp at this
    omega
  have hc1 : j.current - 1 = T.length := by simp [hcur]
  refine ⟨⟨hm, he, hp, hi, hc1, ?_, by simpa [store] using hcap⟩, ?_⟩
  · simp only [hc1, store]
    rw [List.set_eq_take_append_cons_drop, if_pos hlen, List.take_append_eq_append_take]
    simp only [List.take_take, Nat.min_self, List.length_take, Nat.min_eq_left (Nat.le_of_lt hlen),
      Nat.sub_self, List.take_zero, List.append_nil]
    apply take_of_take_eq _ _ [',']
    exact ht
  · simp only [hc1, store, load]
    rw [List.getD_eq_getElem?_getD, List.getElem?_set_self hlen]
    rfl

theorem tail_append (X R : List Char) (h : R = [] ∨ ∃ B', R = B' ++ [',']) :
    ∃ B', X ++ [','] ++ R = B' ++ [','] := by
  rcases h with h | ⟨B', h⟩
  · exact ⟨X, by simp [h]⟩
  · exact ⟨X ++ [','] ++ B', by simp [h]⟩

theorem render_tail (pp : Bool) : ∀ (t : Trav) (d : Nat),
    render pp d t = [] ∨ ∃ B', render pp d t = B' ++ [','] := by
  intro t
  induction t with
  | done => intro d; left; rfl
  | int key type val rest ih =>
    intro d; right
    obtain ⟨B', h⟩ := tail_append (nl pp d ++ key_text key ++ fmt_int (int_cast type val)) _ (ih d)
    exact ⟨B', by simp only [render]; exact h⟩
  | float key val rest ih =>
    intro d; right
    obtain ⟨B', h⟩ := tail_append (nl pp d ++ key_text key ++ fmt_f val) _ (ih d)
    exact ⟨B', by simp only [render]; exact h⟩
  | double key val rest ih =>
    intro d; right
    obtain ⟨B', h⟩ := tail_append (nl pp d ++ key_text key ++ fmt_f val) _ (ih d)
    exact ⟨B', by simp only [render]; exact h⟩
  | bool key val rest ih =>
    intro d; right
    obtain ⟨B', h⟩ := tail_append (nl pp d ++ key_text key ++ bool_text val) _ (ih d)
    exact ⟨B', by simp only [render]; exact h⟩
  | string key str rest ih =>
    intro d; right
    obtain ⟨B', h⟩ := tail_append (nl pp d ++ key_text key ++ ('"' :: cstr str ++ ['"'])) _ (ih d)
    exact ⟨B', by simp only [render]; exact h⟩
  | object key body rest _ ih =>
    intro d; right
    obtain ⟨B', h⟩ := tail_append (key_nl pp d key ++ key_text key ++ ['{']
      ++ (render pp (d + 1) body).dropLast ++ nl pp d ++ ['}']) _ (ih d)
    exact ⟨B', by simp only [render]; simpa [List.append_assoc] using h⟩
  | array key body rest _ ih =>
    intro d; right
    obtain ⟨B', h⟩ := tail_append (key_nl pp d key ++ key_text key ++ ['[']
      ++ (render pp (d + 1) body).dropLast ++ nl pp d ++ [']']) _ (ih d)
    exact ⟨B', by simp only [render]; simpa [List.append_assoc] using h⟩

theorem terminate_root_mode (j : xjson) : (terminate_root j).mode = j.mode := by
  unfold terminate_root; split <;> rfl

theorem terminate_root_error (j : xjson) : (terminate_root j).error = j.error := by
  unfold terminate_root; split <;> rfl

theorem write_end_error_of_latched (c c' : Char) (j : xjson) (h : j.error = true) :
    (write_end c c' j).error = true := by
  unfold write_end
  have h1 : (retract c j).error = true := by rw [retract_error]; exact h
  have h2 := (WStep_nl false 0).2.1 _ h1
  rw [print_token_latched _ _ _ (by rw [print_token_latched _ _ _ h2]; exact h2),
    print_token_latched _ _ _ h2]
  exact h2

/-- `xjson_object_begin` in write mode. -/
theorem object_begin_write (pp : Bool) (j : xjson) (key : Option (List Char))
    (hm : j.mode = XJSON_STATE_WRITE) :
    ∃ j1, xjson_object_begin j key = some j1 ∧ j1.mode = XJSON_STATE_WRITE
      ∧ (j.error = true → j1.error = true)
      ∧ (∀ T d, Wr j T pp d → j1.error = false →
          Wr j1 (T ++ (key_nl pp d key ++ key_text key ++ ['{'])) pp (d + 1)) := by
  refine ⟨_, object_begin_write_eq j key hm, ?_, ?_, ?_⟩
  · split
    · exact hm
    · rw [(WStep_write_begin pp 0 '{' (by decide) key).1]; exact hm
  · intro h; rw [if_pos h]; exact h
  · intro T d hw he
    rw [if_neg (by rw [hw.2.1]; simp)] at he ⊢
    exact (WStep_write_begin pp d '{' (by decide) key).2.2 j T hw he

/-- `xjson_array_begin` in write mode. -/
theorem array_begin_write (pp : Bool) (j : xjson) (key : Option (List Char))
    (hm : j.mode = XJSON_STATE_WRITE) :
    ∃ j1, xjson_array_begin j key = some j1 ∧ j1.mode = XJSON_STATE_WRITE
      ∧ (j.error = true → j1.error = true)
      ∧ (∀ T d, Wr j T pp d → j1.error = false →
          Wr j1 (T ++ (key_nl pp d key ++ key_text key ++ ['['])) pp (d + 1)) := by
  refine ⟨_, array_begin_write_eq j key hm, ?_, ?_, ?_⟩
  · split
    · exact hm
    · rw [(WStep_write_begin pp 0 '[' (by decide) key).1]; exact hm
  · intro h; rw [if_pos h]; exact h
  · intro T d hw he
    rw [if_neg (by rw [hw.2.1]; simp)] at he ⊢
    exact (WStep_write_begin pp d '[' (by decide) key).2.2 j T hw he

/-- `xjson_object_end` in write mode, for a container that is not the root. -/
theorem object_end_write (pp : Bool) (j : xjson) (hm : j.mode = XJSON_STATE_WRITE) :
    (xjson_object_end j).mode = XJSON_STATE_WRITE
      ∧ (j.error = true → (xjson_object_end j).error = true)
      ∧ (∀ T0 B d, 1 ≤ d → Wr j (T0 ++ '{' :: B) pp (d + 1) →
          (B = [] ∨ ∃ B', B = B' ++ [',']) → (xjson_object_end j).error = false →
          Wr (xjson_object_end j) (T0 ++ '{' :: B.dropLast ++ nl pp d ++ ['}', ',']) pp d) := by
  rw [object_end_write_eq j hm]
  refine ⟨?_, ?_, ?_⟩
  · split
    · exact hm
    · rw [terminate_root_mode, write_end_mode]; exact hm
  · intro h; rw [if_pos h]; exact h
  · intro T0 B d hd hw hB he
    rw [if_neg (by rw [hw.2.1]; simp)] at he ⊢
    rw [terminate_root_error] at he
    have := write_end_wr pp d '{' '}' T0 B j hw hB (by decide) (by decide) he
    rw [terminate_root_nested pp d _ _ this hd]
    exact this

/-- `xjson_array_end` in write mode. -/
theorem array_end_write (pp : Bool) (j : xjson) (hm : j.mode = XJSON_STATE_WRITE) :
    (xjson_array_end j).mode = XJSON_STATE_WRITE
      ∧ (j.error = true → (xjson_array_end j).error = true)
      ∧ (∀ T0 B d, Wr j (T0 ++ '[' :: B) pp (d + 1) →
          (B = [] ∨ ∃ B', B = B' ++ [',']) → (xjson_array_end j).error = false →
          Wr (xjson_array_end j) (T0 ++ '[' :: B.dropLast ++ nl pp d ++ [']', ',']) pp d) := by
  rw [array_end_write_eq j hm]
  refine ⟨?_, ?_, ?_⟩
  · split
    · exact hm
    · rw [write_end_mode]; exact hm
  · intro h; rw [if_pos h]; exact h
  · intro T0 B d hw hB he
    rw [if_neg (by rw [hw.2.1]; simp)] at he ⊢
    exact write_end_wr pp d '[' ']' T0 B j hw hB (by decide) (by decide) he

/-! ### Write mode: traversals -/

theorem integer_write_eq (j : xjson) (key : Option (List Char)) (val : Int) (type : xjson_int_type)
    (hm : j.mode = XJSON_STATE_WRITE) :
    xjson_integer j key val type = some (write_scalar j key (fmt_int (int_cast type val)), val) := by
  simp [xjson_integer, hm]

theorem float_write_eq (j : xjson) (key : Option (List Char)) (val : fval)
    (hm : j.mode = XJSON_STATE_WRITE) :
    xjson_float j key val = some (write_scalar j key (fmt_f val), val) := by
  simp [xjson_float, hm]

theorem double_write_eq (j : xjson) (key : Option (List Char)) (val : fval)
    (hm : j.mode = XJSON_STATE_WRITE) :
    xjson_double j key val = some (write_scalar j key (fmt_f val), val) := by
  simp [xjson_double, hm]

theorem bool_write_eq (j : xjson) (key : Option (List Char)) (val : Bool)
    (hm : j.mode = XJSON_STATE_WRITE) :
    xjson_bool j key val = some (write_scalar j key (bool_text val), val) := by
  simp [xjson_bool, hm, bool_text]

theorem string_write_eq (j : xjson) (key : Option (List Char)) (str : List Char)
    (hm : j.mode = XJSON_STATE_WRITE) :
    xjson_string j key str = some (write_scalar j key ('"' :: cstr str ++ ['"']), str) := by
  simp [xjson_string, hm, cstr]

theorem loop_stops_write (lp : Option (Int × Int)) (t : Trav) (j : xjson)
    (hm : j.mode = XJSON_STATE_WRITE) (hl : lp_ok lp t) (hc : 1 ≤ t.count) :
    loop_stops lp j = false := by
  cases lp with
  | none => rfl
  | some p =>
    obtain ⟨i, n⟩ := p
    simp only [lp_ok] at hl
    simp only [loop_stops, xjson_array_reached_end, hm, reduceCtorEq, if_false, decide_eq_false_iff_not]
    omega

theorem lp_ok_next (lp : Option (Int × Int)) (t rest : Trav) (hl : lp_ok lp t)
    (hc : t.count = rest.count + 1) : lp_ok (loop_next lp) rest := by
  cases lp with
  | none => trivial
  | some p =>
    obtain ⟨i, n⟩ := p
    simp only [lp_ok, loop_next, Option.map] at hl ⊢
    rw [hl, hc]; push_cast; omega

theorem write_scalar_runs (pp : Bool) (j : xjson) (key : Option (List Char)) (text : List Char)
    (rest : Trav) (lp : Option (Int × Int)) (hm : j.mode = XJSON_STATE_WRITE)
    (ih : ∀ j, j.mode = XJSON_STATE_WRITE → WriteRuns pp rest lp j) :
    ∃ j', run rest lp (write_scalar j key text) = some (j', rest, true)
      ∧ j'.mode = XJSON_STATE_WRITE ∧ (j.error = true → j'.error = true)
      ∧ (∀ T d, 1 ≤ d → Wr j T pp d → j'.error = false →
          Wr j' (T ++ (nl pp d ++ key_text key ++ text ++ [','] ++ render pp d rest)) pp d) := by
  have hs := fun d => WStep_write_scalar pp d key text
  obtain ⟨j', hr, hm', hmono, hwr⟩ := ih (write_scalar j key text) (by rw [(hs 0).1]; exact hm)
  refine ⟨j', hr, hm', fun h => hmono ((hs 0).2.1 j h), ?_⟩
  intro T d hd hw he
  have he1 : (write_scalar j key text).error = false := by
    cases h : (write_scalar j key text).error with
    | false => rfl
    | true => rw [hmono h] at he; exact absurd he (by simp)
  have := hwr _ d hd ((hs d).2.2 j T hw he1) he
  simpa [List.append_assoc] using this

theorem error_false_of_mono {a b : Bool} (h : a = true → b = true) (hb : b = false) :
    a = false := by
  cases a with
  | false => rfl
  | true => rw [h rfl] at hb; exact absurd hb (by simp)

/-- A write traversal returns, leaves the caller's values as they are, runs
every loop body once per element, keeps a latched error, and, when it ends
without error, has appended `render` to the text in front of the cursor. -/
theorem run_write (pp : Bool) : ∀ (t : Trav) (lp : Option (Int × Int)) (j : xjson),
    j.mode = XJSON_STATE_WRITE → lp_ok lp t → WriteRuns pp t lp j := by
  intro t
  induction t with
  | done =>
    intro lp j hm hl
    refine ⟨j, ?_, hm, fun h => h, fun T d _ hw _ => by simpa [render] using hw⟩
    cases lp with
    | none => rfl
    | some p =>
      obtain ⟨i, n⟩ := p
      simp only [lp_ok, Trav.count] at hl
      simp [run, xjson_array_reached_end, hm, hl]
  | int key type val rest ih =>
    intro lp j hm hl
    have hl' := lp_ok_next lp _ rest hl rfl
    obtain ⟨j', hr, h⟩ := write_scalar_runs pp j key (fmt_int (int_cast type val)) rest
      (loop_next lp) hm (fun j hj => ih (loop_next lp) j hj hl')
    refine ⟨j', ?_, h⟩
    simp [run, loop_stops_write lp _ j hm hl (by simp [Trav.count]), integer_write_eq j key val type hm, hr]
  | float key val rest ih =>
    intro lp j hm hl
    have hl' := lp_ok_next lp _ rest hl rfl
    obtain ⟨j', hr, h⟩ := write_scalar_runs pp j key (fmt_f val) rest
      (loop_next lp) hm (fun j hj => ih (loop_next lp) j hj hl')
    refine ⟨j', ?_, h⟩
    simp [run, loop_stops_write lp _ j hm hl (by simp [Trav.count]), float_write_eq j key val hm, hr]
  | double key val rest ih =>
    intro lp j hm hl
    have hl' := lp_ok_next lp _ rest hl rfl
    obtain ⟨j', hr, h⟩ := write_scalar_runs pp j key (fmt_f val) rest
      (loop_next lp) hm (fun j hj => ih (loop_next lp) j hj hl')
    refine ⟨j', ?_, h⟩
    simp [run, loop_stops_write lp _ j hm hl (by simp [Trav.count]), double_write_eq j key val hm, hr]
  | bool key val rest ih =>
    intro lp j hm hl
    have hl' := lp_ok_next lp _ rest hl rfl
    obtain ⟨j', hr, h⟩ := write_scalar_runs pp j key (bool_text val) rest
      (loop_next lp) hm (fun j hj => ih (loop_next lp) j hj hl')
    refine ⟨j', ?_, h⟩
    simp [run, loop_stops_write lp _ j hm hl (by simp [Trav.count]), bool_write_eq j key val hm, hr]
  | string key str rest ih =>
    intro lp j hm hl
    have hl' := lp_ok_next lp _ rest hl rfl
    obtain ⟨j', hr, h⟩ := write_scalar_runs pp j key ('"' :: cstr str ++ ['"']) rest
      (loop_next lp) hm (fun j hj => ih (loop_next lp) j hj hl')
    refine ⟨j', ?_, h⟩
    simpa [run, loop_stops_write lp _ j hm hl (by simp [Trav.count]), string_write_eq j key str hm]
      using hr
  | object key body rest ihb ih =>
    intro lp j hm hl
    have hl' := lp_ok_next lp _ rest hl rfl
    obtain ⟨j1, hb1, hm1, hmono1, hwr1⟩ := object_begin_write pp j key hm
    obtain ⟨jb, hrb, hmb, hmonob, hwrb⟩ := ihb none j1 hm1 trivial
    obtain ⟨hm2, hmono2, hwr2⟩ := object_end_write pp jb hmb
    obtain ⟨j', hr, hm', hmono', hwr'⟩ := ih (loop_next lp) (xjson_object_end jb) hm2 hl'
    refine ⟨j', ?_, hm', fun h => hmono' (hmono2 (hmonob (hmono1 h))), ?_⟩
    · simp [run, loop_stops_write lp _ j hm hl (by simp [Trav.count]), hb1, hrb, hr]
    · intro T d hd hw he
      have he2 := error_false_of_mono hmono' he
      have heb := error_false_of_mono hmono2 he2
      have he1 := error_false_of_mono hmonob heb
      have hw1 := hwr1 T d hw he1
      have hwb := hwrb _ (d + 1) (by omega) hw1 heb
      have hw2 := hwr2 (T ++ (key_nl pp d key ++ key_text key)) (render pp (d + 1) body) d hd
        (by simpa [List.append_assoc] using hwb) (render_tail pp body (d + 1)) he2
      have := hwr' _ d hd hw2 he
      simpa [render, List.append_assoc] using this
  | array key body rest ihb ih =>
    intro lp j hm hl
    have hl' := lp_ok_next lp _ rest hl rfl
    obtain ⟨j1, hb1, hm1, hmono1, hwr1⟩ := array_begin_write pp j key hm
    obtain ⟨jb, hrb, hmb, hmonob, hwrb⟩ := ihb (some (0, (body.count : Int))) j1 hm1
      (by simp [lp_ok])
    obtain ⟨hm2, hmono2, hwr2⟩ := array_end_write pp jb hmb
    obtain ⟨j', hr, hm', hmono', hwr'⟩ := ih (loop_next lp) (xjson_array_end jb) hm2 hl'
    refine ⟨j', ?_, hm', fun h => hmono' (hmono2 (hmonob (hmono1 h))), ?_⟩
    · simp [run, loop_stops_write lp _ j hm hl (by simp [Trav.count]), hb1, hrb, hr]
    · intro T d hd hw he
      have he2 := error_false_of_mono hmono' he
      have heb := error_false_of_mono hmono2 he2
      have he1 := error_false_of_mono hmonob heb
      have hw1 := hwr1 T d hw he1
      have hwb := hwrb _ (d + 1) (by omega) hw1 heb
      have hw2 := hwr2 (T ++ (key_nl pp d key ++ key_text key)) (render pp (d + 1) body) d
        (by simpa [List.append_assoc] using hwb) (render_tail pp body (d + 1)) he2
      have := hwr' _ d hd hw2 he
      simpa [render, List.append_assoc] using this

/-! ### Write mode: one container, at the root or nested -/

theorem Wr_take {j : xjson} {T X : List Char} {pp : Bool} {d : Nat} (h : Wr j (T ++ X) pp d) :
    j.mem.take T.length = T :=
  take_of_take_eq _ _ X h.2.2.2.2.2.1

/-- Writing one object from a context at indentation `d`: the text `E` of the
object stands in front of the final cursor, followed by a comma when the
object is nested, and by a NUL on which the cursor stands when it is the root. -/
theorem object_write (pp : Bool) (key : Option (List Char)) (body : Trav) (j : xjson)
    (T : List Char) (d : Nat) (hw : Wr j T pp d) :
    ∃ j', run (.object key body .done) none j = some (j', .object key body .done, true)
      ∧ (j'.error = false →
        (1 ≤ d → Wr j' (T ++ key_nl pp d key ++ key_text key ++ '{' ::
            (render pp (d + 1) body).dropLast ++ nl pp d ++ ['}'] ++ [',']) pp d)
        ∧ (d = 0 → Wr j' (T ++ key_nl pp d key ++ key_text key ++ '{' ::
            (render pp (d + 1) body).dropLast ++ nl pp d ++ ['}']) pp d
          ∧ load j'.mem j'.current = '\x00')) := by
  have hm := hw.1
  obtain ⟨j1, hb1, hm1, hmono1, hwr1⟩ := object_begin_write pp j key hm
  obtain ⟨jb, hrb, hmb, hmonob, hwrb⟩ := run_write pp body none j1 hm1 trivial
  refine ⟨xjson_object_end jb, by simp [run, loop_stops, loop_next, hb1, hrb], ?_⟩
  intro he
  have heb : jb.error = false := by
    cases h : jb.error with
    | false => rfl
    | true => rw [object_end_write_eq jb hmb, if_pos h, h] at he; exact absurd he (by simp)
  have he1 := error_false_of_mono hmonob heb
  have hw1 := hwr1 T d hw he1
  have hwb := hwrb _ (d + 1) (by omega) hw1 heb
  rw [object_end_write_eq jb hmb, if_neg (by rw [heb]; simp)] at he ⊢
  rw [terminate_root_error] at he
  have hwe := write_end_wr pp d '{' '}' (T ++ (key_nl pp d key ++ key_text key))
    (render pp (d + 1) body) jb (by simpa [List.append_assoc] using hwb)
    (render_tail pp body (d + 1)) (by decide) (by decide) he
  constructor
  · intro hd
    rw [terminate_root_nested pp d _ _ hwe hd]
    simpa [List.append_assoc] using hwe
  · intro hd
    subst hd
    have := terminate_root_wr pp (T ++ key_nl pp 0 key ++ key_text key ++ '{' ::
      (render pp (0 + 1) body).dropLast ++ nl pp 0 ++ ['}']) (write_end '{' '}' jb)
      (by simpa [List.append_assoc] using hwe)
    exact this

/-- Writing one array from a context at indentation `d`: the text of the
array and a comma stand in front of the final cursor. -/
theorem array_write (pp : Bool) (key : Option (List Char)) (body : Trav) (j : xjson)
    (T : List Char) (d : Nat) (hw : Wr j T pp d) :
    ∃ j', run (.array key body .done) none j = some (j', .array key body .done, true)
      ∧ (j'.error = false →
        Wr j' (T ++ key_nl pp d key ++ key_text key ++ '[' ::
            (render pp (d + 1) body).dropLast ++ nl pp d ++ [']'] ++ [',']) pp d) := by
  have hm := hw.1
  obtain ⟨j1, hb1, hm1, hmono1, hwr1⟩ := array_begin_write pp j key hm
  obtain ⟨jb, hrb, hmb, hmonob, hwrb⟩ := run_write pp body (some (0, (body.count : Int))) j1 hm1
    (by simp [lp_ok])
  obtain ⟨hm2, hmono2, hwr2⟩ := array_end_write pp jb hmb
  refine ⟨xjson_array_end jb, by simp [run, loop_stops, loop_next, hb1, hrb], ?_⟩
  intro he
  have heb := error_false_of_mono hmono2 he
  have he1 := error_false_of_mono hmonob heb
  have hw1 := hwr1 T d hw he1
  have hwb := hwrb _ (d + 1) (by omega) hw1 heb
  have := hwr2 (T ++ (key_nl pp d key ++ key_text key)) (render pp (d + 1) body) d
    (by simpa [List.append_assoc] using hwb) (render_tail pp body (d + 1)) he
  simpa [List.append_assoc] using this

/-! ### The rendered text in the words of the specification -/

theorem dropLast_join_sep (c : Char) : ∀ xs : List (List Char),
    ((xs.map (fun x => x ++ [c])).flatten).dropLast = List.intercalate [c] xs := by
  intro xs
  induction xs with
  | nil => rfl
  | cons x xs ih =>
    cases xs with
    | nil => simp [List.intercalate]
    | cons y ys =>
      have hne : ((y :: ys).map (fun x => x ++ [c])).flatten ≠ [] := by simp
      rw [List.map_cons, List.flatten_cons, List.dropLast_append_of_ne_nil _ hne, ih]
      simp [List.intercalate, List.intersperse]

theorem render_eq_child_texts : ∀ (t : Trav) (d : Nat),
    render false d t = ((child_texts t).map (fun x => x ++ [','])).flatten := by
  intro t
  induction t with
  | done => intro d; rfl
  | int key type val rest ih => intro d; simp [render, child_texts, ih d, nl]
  | float key val rest ih => intro d; simp [render, child_texts, ih d, nl]
  | double key val rest ih => intro d; simp [render, child_texts, ih d, nl]
  | bool key val rest ih => intro d; simp [render, child_texts, ih d, nl]
  | string key str rest ih => intro d; simp [render, child_texts, ih d, nl]
  | object key body rest ihb ih =>
    intro d
    simp only [render, child_texts, ih d, ihb (d + 1), dropLast_join_sep]
    cases key <;> simp [nl, key_nl]
  | array key body rest ihb ih =>
    intro d
    simp only [render, child_texts, ih d, ihb (d + 1), dropLast_join_sep]
    cases key <;> simp [nl, key_nl]

/-! ### A write context in the words of `Wr` -/

theorem Wr_of_context (j : xjson) (hm : j.mode = XJSON_STATE_WRITE) (he : j.error = false)
    (hi : 0 ≤ j.intendation) (hc : j.current ≤ j.end_) (hcap : j.end_ ≤ j.mem.length) :
    Wr j (j.mem.take j.current) j.pretty_print j.intendation.toNat := by
  have hl : (j.mem.take j.current).length = j.current := by simp; omega
  refine ⟨hm, he, rfl, by simp [hi], hl.symm, by rw [hl], hcap⟩

/-! ### Read mode: the cursor primitives -/

theorem adv_zero (j : xjson) : adv j 0 = j := by
  cases j; rfl

theorem adv_adv (j : xjson) (a b : Nat) : adv (adv j a) b = adv j (a + b) := by
  simp [adv, Nat.add_assoc]

theorem ws_len_cons_space (c : Char) (L : List Char) (h : xjson_is_space c = true) :
    ws_len (c :: L) = 1 + ws_len L := by
  simp [ws_len, List.takeWhile_cons, h, Nat.add_comm]

theorem ws_len_cons_not_space (c : Char) (L : List Char) (h : xjson_is_space c = false) :
    ws_len (c :: L) = 0 := by
  simp [ws_len, List.takeWhile_cons, h]

theorem skip_ws_cons_not_space (c : Char) (L : List Char) (h : xjson_is_space c = false) :
    skip_ws (c :: L) = c :: L := by
  simp [skip_ws, List.dropWhile_cons, h]

theorem ws_len_le (L : List Char) : ws_len L ≤ L.length := by
  unfold ws_len
  exact (List.takeWhile_sublist _).length_le

theorem take_ws_append_skip (L : List Char) : L.take (ws_len L) ++ skip_ws L = L := by
  unfold ws_len skip_ws
  have h1 : L.takeWhile xjson_is_space ++ L.dropWhile xjson_is_space = L :=
    List.takeWhile_append_dropWhile _ _
  have h2 := congrArg (List.take (L.takeWhile xjson_is_space).length) h1
  rw [List.take_left] at h2
  rw [← h2]
  exact h1

theorem Rd_adv {j : xjson} {X L post : List Char} (h : Rd j (X ++ L) post) :
    Rd (adv j X.length) L post := by
  obtain ⟨hm, he, hmem, hend⟩ := h
  refine ⟨hm, he, ?_, ?_⟩
  · show j.mem.drop (j.current + X.length) = L ++ post
    rw [← List.drop_drop, hmem, List.append_assoc, List.drop_left]
  · show j.current + X.length + L.length = j.end_
    rw [← hend, List.length_append]; omega

theorem Rd_adv_n {j : xjson} {L post : List Char} (n : Nat) (h : Rd j L post) (hn : n ≤ L.length) :
    Rd (adv j n) (L.drop n) post := by
  have h' : Rd j (L.take n ++ L.drop n) post := by rw [List.take_append_drop]; exact h
  have := Rd_adv h'
  rwa [List.length_take, Nat.min_eq_left hn] at this

theorem load_drop (mem : List Char) (p : Nat) : load mem p = (mem.drop p).headD '\x00' := by
  unfold load
  rw [List.getD_eq_getElem?_getD]
  cases h : mem.drop p with
  | nil =>
    have : mem.length ≤ p := by simpa using h
    simp [List.getElem?_eq_none this]
  | cons c L =>
    have : (mem.drop p)[0]? = some c := by rw [h]; simp
    rw [List.getElem?_drop] at this
    simp at this
    simp [this]

theorem load_Rd {j : xjson} {c : Char} {L post : List Char} (h : Rd j (c :: L) post) :
    load j.mem j.current = c := by
  rw [load_drop, h.2.2.1]; rfl

/-- The loop of `xjson_consume` moves the cursor over the leading white space
of the text up to `end`. -/
theorem consume_loop_spec : ∀ (L : List Char) (fuel : Nat) (j : xjson) (post : List Char),
    j.mem.drop j.current = L ++ post → j.current + L.length = j.end_ → L.length ≤ fuel →
    (consume_loop fuel j).1 = adv j (ws_len L) := by
  intro L
  induction L with
  | nil =>
    intro fuel j post hmem hend _
    have : ws_len [] = 0 := rfl
    rw [this, adv_zero]
    cases fuel with
    | zero => rfl
    | succ fuel =>
      unfold consume_loop
      have he : j.current = j.end_ := by simpa using hend
      split
      · rfl
      · rfl
  | cons c L ih =>
    intro fuel j post hmem hend hf
    cases fuel with
    | zero => simp at hf
    | succ fuel =>
      unfold consume_loop
      have hl : load j.mem j.current = c := by rw [load_drop, hmem]; rfl
      rw [hl]
      simp only [List.length_cons] at hend hf
      by_cases hc : xjson_is_space c = true
      · rw [if_pos hc, if_neg (by omega)]
        have hmem' : (({ j with current := j.current + 1 } : xjson).mem).drop
            (({ j with current := j.current + 1 } : xjson).current) = L ++ post := by
          show j.mem.drop (j.current + 1) = L ++ post
          rw [← List.drop_drop, hmem]; rfl
        rw [ih fuel _ post hmem' (by show j.current + 1 + L.length = j.end_; omega) (by omega),
          ws_len_cons_space c L hc]
        simp [adv, Nat.add_assoc]
      · rw [if_neg hc, ws_len_cons_not_space c L (by simpa using hc), adv_zero]

theorem consume_Rd {j : xjson} {c : Char} {L post : List Char} (h : Rd j (c :: L) post) :
    (xjson_consume j).1 = adv j (1 + ws_len L) := by
  obtain ⟨hm, he, hmem, hend⟩ := h
  unfold xjson_consume
  simp only [List.length_cons] at hend
  rw [if_neg (by rw [he]; simp), if_neg (by omega)]
  have hlen : j.mem.length - j.current = (c :: L ++ post).length := by
    rw [← hmem, List.length_drop]
  have hmem' : (({ j with current := j.current + 1 } : xjson).mem).drop
      (({ j with current := j.current + 1 } : xjson).current) = L ++ post := by
    show j.mem.drop (j.current + 1) = L ++ post
    rw [← List.drop_drop, hmem]; rfl
  rw [consume_loop_spec L _ _ post hmem' (by show j.current + 1 + L.length = j.end_; omega)
    (by rw [hlen]; simp; omega)]
  simp [adv, Nat.add_assoc]

theorem consume_at_end (j : xjson) (h : j.current = j.end_) : (xjson_consume j).1 = j := by
  unfold xjson_consume
  split
  · rfl
  · rfl

/-- After a value: `if(xjson_is_space(*json->current)) xjson_consume(json);`. -/
theorem skip_Rd {j : xjson} {L post : List Char} (h : Rd j L post) :
    (if xjson_is_space (load j.mem j.current) then (xjson_consume j).1 else j)
      = adv j (ws_len L) := by
  cases L with
  | nil =>
    have he : j.current = j.end_ := by simpa using h.2.2.2
    have : ws_len [] = 0 := rfl
    rw [this, adv_zero, consume_at_end j he]
    simp
  | cons c L =>
    rw [load_Rd h]
    by_cases hc : xjson_is_space c = true
    · rw [if_pos hc, consume_Rd h, ws_len_cons_space c L hc]
    · rw [if_neg hc, ws_len_cons_not_space c L (by simpa using hc), adv_zero]

theorem expect_Rd {j : xjson} {c : Char} {L post : List Char} (h : Rd j (c :: L) post) :
    xjson_expect j c = adv j (1 + ws_len L) := by
  unfold xjson_expect
  rw [if_neg (by rw [h.2.1]; simp), load_Rd h, if_neg (by simp), consume_Rd h]

theorem try_hit_Rd {j : xjson} {c : Char} {L post : List Char} (h : Rd j (c :: L) post) :
    xjson_try j c = adv j (1 + ws_len L) := by
  unfold xjson_try
  rw [if_neg (by rw [h.2.1]; simp), load_Rd h, if_pos rfl, consume_Rd h]

theorem try_miss_Rd {j : xjson} {c c' : Char} {L post : List Char} (h : Rd j (c' :: L) post)
    (hc : c' ≠ c) : xjson_try j c = j := by
  unfold xjson_try
  rw [if_neg (by rw [h.2.1]; simp), load_Rd h, if_neg hc]

theorem try_end_Rd {j : xjson} {post : List Char} (h : Rd j [] post) (c : Char) :
    xjson_try j c = j := by
  unfold xjson_try
  rw [if_neg (by rw [h.2.1]; simp)]
  split
  · exact consume_at_end j (by simpa using h.2.2.2)
  · rfl

/-! ### Read mode: integers -/

theorem mem_split_of_Rd {j : xjson} {L post : List Char} (h : Rd j L post) (hL : L ≠ []) :
    j.mem = j.mem.take j.current ++ (L ++ post) ∧ (j.mem.take j.current).length = j.current := by
  have hmem := h.2.2.1
  constructor
  · rw [← hmem, List.take_append_drop]
  · have : j.current < j.mem.length := by
      by_contra hc
      have : j.mem.drop j.current = [] := by simp; omega
      rw [hmem] at this
      simp at this
      exact hL this.1
    simp; omega

/-- The clamp of `strtoll`. -/
theorem strtoll_clamp_in_range (n : Int) (hlo : LLONG_MIN ≤ n) (hhi : n ≤ LLONG_MAX) :
    (if n < 0 then max n LLONG_MIN else min n LLONG_MAX) = n := by
  split
  · exact max_eq_left hlo
  · exact min_eq_left hhi

/-- Reading the text of an integer that is followed, before `end`, by
something that is not a digit. -/
theorem parse_int_Rd {j : xjson} {n : Int} {S post : List Char}
    (h : Rd j (fmt_int n ++ S) post) (hS : ∀ c, (S ++ post).head? = some c → isdigit c = false)
    (out : Int) :
    xjson_expect_and_parse_int j out
      = (adv j ((fmt_int n).length + ws_len S),
          if n < 0 then max n LLONG_MIN else min n LLONG_MAX) := by
  have hne : fmt_int n ++ S ≠ [] := by
    have : fmt_int n ≠ [] := by
      unfold fmt_int; split
      · simp
      · exact fmt_nat_ne_nil _
    simp [this]
  obtain ⟨hsplit, hlen⟩ := mem_split_of_Rd h hne
  have hst : strtoll j.mem j.current
      = (if n < 0 then max n LLONG_MIN else min n LLONG_MAX, j.current + (fmt_int n).length) := by
    have := strtoll_fmt_int (j.mem.take j.current) (S ++ post) n hS
    rw [hlen, ← List.append_assoc (fmt_int n), ← hsplit] at this
    exact this
  unfold xjson_expect_and_parse_int
  rw [if_neg (by rw [h.2.1]; simp), hst]
  have hpos : 0 < (fmt_int n).length := by
    unfold fmt_int; split
    · simp
    · exact List.length_pos.mpr (fmt_nat_ne_nil _)
  simp only
  rw [if_neg (by omega)]
  have h1 : Rd (adv j (fmt_int n).length) S post := Rd_adv h
  have h2 := skip_Rd h1
  rw [adv_adv] at h2
  have : ({ j with current := j.current + (fmt_int n).length } : xjson) = adv j (fmt_int n).length :=
    rfl
  rw [this]
  split
  · rename_i hs
    have hs' : xjson_is_space (load (adv j (fmt_int n).length).mem
        (adv j (fmt_int n).length).current) = true := hs
    rw [if_pos hs'] at h2
    rw [h2]
  · rename_i hs
    have hs' : ¬ xjson_is_space (load (adv j (fmt_int n).length).mem
        (adv j (fmt_int n).length).current) = true := hs
    rw [if_neg hs'] at h2
    rw [h2]

theorem Rd_setup_read (mem : List Char) :
    Rd (xjson_setup_read (xjson_zero mem) 0 mem.length) mem [] := by
  refine ⟨rfl, rfl, ?_, ?_⟩
  · show mem.drop 0 = mem ++ []
    simp
  · show 0 + mem.length = 0 + mem.length
    rfl

theorem int_cast_spec (type : xjson_int_type) (n : Int) :
    if int_signed type = true then
      -(2 : Int) ^ (int_bits type - 1) ≤ int_cast type n
        ∧ int_cast type n < (2 : Int) ^ (int_bits type - 1)
        ∧ (int_cast type n - n) % (2 : Int) ^ int_bits type = 0
    else int_cast type n = n % (2 : Int) ^ int_bits type := by
  cases type <;> simp only [int_signed, int_bits, int_cast, Bool.false_eq_true, if_false, if_true]
    <;> norm_num <;> omega

/-! ### C10 -/

/-- C10: for every integer `n` of the signed 64-bit range and every integer
type, reading the decimal text of `n` (a buffer that holds exactly that text)
with the accessor of that type and a `NULL` key returns without error and
stores `int_cast type n`; for an unsigned type of width `W` that value is
`n mod 2^W`, for a signed type it is the value of `[-2^(W-1), 2^(W-1))`
congruent to `n` modulo `2^W`. -/
theorem c10_narrowing_on_read (type : xjson_int_type) (n : Int)
    (hlo : -9223372036854775808 ≤ n) (hhi : n ≤ 9223372036854775807) (val : Int) :
    (∃ j', xjson_integer (xjson_setup_read (xjson_zero (fmt_int n)) 0 (fmt_int n).length)
          none val type = some (j', int_cast type n)
        ∧ j'.error = false)
    ∧ (if int_signed type = true then
        -(2 : Int) ^ (int_bits type - 1) ≤ int_cast type n
          ∧ int_cast type n < (2 : Int) ^ (int_bits type - 1)
          ∧ (int_cast type n - n) % (2 : Int) ^ int_bits type = 0
      else int_cast type n = n % (2 : Int) ^ int_bits type) := by
  refine ⟨?_, int_cast_spec type n⟩
  have h0 := Rd_setup_read (fmt_int n)
  have h : Rd (xjson_setup_read (xjson_zero (fmt_int n)) 0 (fmt_int n).length)
      (fmt_int n ++ []) [] := by simpa using h0
  have hp := parse_int_Rd h (by simp) 0
  rw [strtoll_clamp_in_range n hlo hhi] at hp
  have hw : ws_len [] = 0 := rfl
  rw [hw, Nat.add_zero] at hp
  have h1 : Rd (adv (xjson_setup_read (xjson_zero (fmt_int n)) 0 (fmt_int n).length)
      (fmt_int n).length) [] [] := Rd_adv h
  refine ⟨adv (xjson_setup_read (xjson_zero (fmt_int n)) 0 (fmt_int n).length)
    (fmt_int n).length, ?_, h1.2.1⟩
  have hm : (xjson_setup_read (xjson_zero (fmt_int n)) 0 (fmt_int n).length).mode
      = XJSON_STATE_READ := rfl
  unfold xjson_integer
  rw [if_pos hm]
  simp only [read_key, Option.map_some', hp]
  rw [if_neg (by rw [h1.2.1]; simp), try_end_Rd h1]

/-- C10 at a concrete input: the text `-1` read with the u8 accessor (the
value stored is `int_cast XJSON_INT_TYPE_U8 (-1)`, that is 255). -/
theorem c10_narrowing_on_read_witness :
    ((-9223372036854775808 : Int) ≤ -1 ∧ (-1 : Int) ≤ 9223372036854775807)
    ∧ ((∃ j', xjson_integer (xjson_setup_read (xjson_zero (fmt_int (-1))) 0 (fmt_int (-1)).length)
            none 7 XJSON_INT_TYPE_U8 = some (j', int_cast XJSON_INT_TYPE_U8 (-1))
          ∧ j'.error = false)
      ∧ (if int_signed XJSON_INT_TYPE_U8 = true then
          -(2 : Int) ^ (int_bits XJSON_INT_TYPE_U8 - 1) ≤ int_cast XJSON_INT_TYPE_U8 (-1)
            ∧ int_cast XJSON_INT_TYPE_U8 (-1) < (2 : Int) ^ (int_bits XJSON_INT_TYPE_U8 - 1)
            ∧ (int_cast XJSON_INT_TYPE_U8 (-1) - (-1)) % (2 : Int) ^ int_bits XJSON_INT_TYPE_U8 = 0
        else int_cast XJSON_INT_TYPE_U8 (-1) = (-1) % (2 : Int) ^ int_bits XJSON_INT_TYPE_U8)) :=
  ⟨by decide, c10_narrowing_on_read XJSON_INT_TYPE_U8 (-1) (by decide) (by decide) 7⟩

/-! ### The frame of the operations -/

theorem Frame.refl (j : xjson) : Frame j j := ⟨rfl, rfl, rfl, rfl⟩

theorem Frame.trans {a b c : xjson} (h1 : Frame a b) (h2 : Frame b c) : Frame a c :=
  ⟨h2.1.trans h1.1, h2.2.1.trans h1.2.1, h2.2.2.1.trans h1.2.2.1, h2.2.2.2.trans h1.2.2.2⟩

theorem Frame_error (j : xjson) (m : List Char) : Frame j (xjson_error j m) := by
  unfold xjson_error; split <;> exact ⟨rfl, rfl, rfl, rfl⟩

theorem Frame_consume_loop : ∀ (fuel : Nat) (j : xjson), Frame j (consume_loop fuel j).1 := by
  intro fuel
  induction fuel with
  | zero => intro j; exact Frame.refl j
  | succ fuel ih =>
    intro j
    unfold consume_loop
    split
    · split
      · exact Frame.refl j
      · exact Frame.trans ⟨rfl, rfl, rfl, rfl⟩ (ih _)
    · exact Frame.refl j

theorem Frame_consume (j : xjson) : Frame j (xjson_consume j).1 := by
  unfold xjson_consume
  split
  · exact Frame.refl j
  · split
    · exact Frame.refl j
    · exact Frame.trans ⟨rfl, rfl, rfl, rfl⟩ (Frame_consume_loop _ _)

theorem Frame_try (j : xjson) (c : Char) : Frame j (xjson_try j c) := by
  unfold xjson_try
  split
  · exact Frame.refl j
  · split
    · exact Frame_consume j
    · exact Frame.refl j

theorem Frame_expect (j : xjson) (c : Char) : Frame j (xjson_expect j c) := by
  unfold xjson_expect
  split
  · exact Frame.refl j
  · split
    · exact Frame_error j _
    · exact Frame_consume j

theorem Frame_expect_token (j : xjson) (tok : List Char) (n : Nat) :
    Frame j (xjson_expect_token j tok n) := by
  unfold xjson_expect_token
  split
  · exact Frame.refl j
  · split
    · exact Frame_error j _
    · simp only
      split
      · exact Frame.trans ⟨rfl, rfl, rfl, rfl⟩ (Frame_consume _)
      · exact ⟨rfl, rfl, rfl, rfl⟩

theorem Frame_scan : ∀ (fuel : Nat) (j r : xjson), scan_to_quote fuel j = some r → Frame j r := by
  intro fuel
  induction fuel with
  | zero => intro j r h; simp [scan_to_quote] at h
  | succ fuel ih =>
    intro j r h
    unfold scan_to_quote at h
    split at h
    · cases h; exact Frame.refl j
    · simp only at h
      split at h
      · cases h; exact Frame_consume j
      · exact Frame.trans (Frame_consume j) (ih _ _ h)

theorem Frame_expect_key (j r : xjson) (k : List Char) (h : xjson_expect_key j k = some r) :
    Frame j r := by
  unfold xjson_expect_key at h
  simp only at h
  split at h
  · cases h; exact Frame_expect j _
  · split at h
    · exact absurd h (by simp)
    · rename_i j2 hs
      have h2 := Frame.trans (Frame_expect j '"') (Frame_scan _ _ _ hs)
      split at h
      · cases h; exact h2
      · split at h
        · cases h; exact Frame.trans h2 (Frame_error _ _)
        · cases h; exact Frame.trans h2 (Frame.trans (Frame_expect _ _) (Frame_expect _ _))

theorem Frame_parse_int (j : xjson) (out : Int) : Frame j (xjson_expect_and_parse_int j out).1 := by
  unfold xjson_expect_and_parse_int
  split
  · exact Frame.refl j
  · simp only
    split
    · exact Frame_error j _
    · split
      · exact Frame.trans ⟨rfl, rfl, rfl, rfl⟩ (Frame_consume _)
      · exact ⟨rfl, rfl, rfl, rfl⟩

theorem Frame_parse_double (j : xjson) (out : fval) :
    Frame j (xjson_expect_and_parse_double j out).1 := by
  unfold xjson_expect_and_parse_double
  split
  · exact Frame.refl j
  · simp only
    split
    · exact Frame_error j _
    · split
      · exact Frame.trans ⟨rfl, rfl, rfl, rfl⟩ (Frame_consume _)
      · exact ⟨rfl, rfl, rfl, rfl⟩

theorem Frame_parse_bool (j : xjson) (val : Bool) :
    Frame j (xjson_expect_and_parse_bool j val).1 := by
  unfold xjson_expect_and_parse_bool
  split
  · exact Frame.refl j
  · split
    · exact Frame_expect_token j _ _
    · split
      · exact Frame_expect_token j _ _
      · exact Frame_error j _

theorem Frame_parse_string (j : xjson) (str : List Char) (r : xjson × List Char)
    (h : xjson_expect_and_parse_string j str = some r) : Frame j r.1 := by
  unfold xjson_expect_and_parse_string at h
  simp only at h
  split at h
  · cases h; exact Frame_expect j _
  · split at h
    · exact absurd h (by simp)
    · rename_i j2 hs
      have h2 := Frame.trans (Frame_expect j '"') (Frame_scan _ _ _ hs)
      split at h
      · cases h; exact h2
      · cases h
        exact Frame.trans h2 (Frame.trans ⟨rfl, rfl, rfl, rfl⟩ (Frame_expect _ _))

theorem Frame_print_token (j : xjson) (tok : List Char) (n : Nat) :
    Frame j (xjson_print_token j tok n) := by
  unfold xjson_print_token
  split
  · exact Frame.refl j
  · simp only
    split
    · exact Frame.trans (Frame_error j _) ⟨rfl, rfl, rfl, rfl⟩
    · exact ⟨rfl, rfl, rfl, rfl⟩

theorem Frame_print_key (j : xjson) (k : List Char) : Frame j (xjson_print_key j k) := by
  unfold xjson_print_key
  split
  · exact Frame.refl j
  · exact Frame.trans (Frame.trans (Frame.trans (Frame_print_token _ _ _) (Frame_print_token _ _ _))
      (Frame_print_token _ _ _)) (Frame_print_token _ _ _)

theorem Frame_print_tabs : ∀ (n : Nat) (j : xjson), Frame j (print_tabs n j) := by
  intro n
  induction n with
  | zero => intro j; exact Frame.refl j
  | succ n ih => intro j; exact Frame.trans (Frame_print_token j _ _) (ih _)

theorem Frame_print_new_line (j : xjson) : Frame j (xjson_print_new_line j) := by
  unfold xjson_print_new_line
  split
  · exact Frame.refl j
  · exact Frame.trans (Frame_print_token j _ _) (Frame_print_tabs _ _)

theorem Frame_nl (j : xjson) :
    Frame j (if j.pretty_print then xjson_print_new_line j else j) := by
  split
  · exact Frame_print_new_line j
  · exact Frame.refl j

theorem Frame_write_scalar (j : xjson) (key : Option (List Char)) (text : List Char) :
    Frame j (write_scalar j key text) := by
  unfold write_scalar
  have h1 := Frame_nl j
  cases key with
  | none => exact Frame.trans (Frame.trans h1 ⟨rfl, rfl, rfl, rfl⟩) (Frame_print_token _ _ _)
  | some k =>
    exact Frame.trans (Frame.trans (Frame.trans h1 (Frame_print_key _ k)) ⟨rfl, rfl, rfl, rfl⟩)
      (Frame_print_token _ _ _)

theorem Frame_read_key (j r : xjson) (key : Option (List Char)) (h : read_key j key = some r) :
    Frame j r := by
  cases key with
  | none => cases h; exact Frame.refl j
  | some k => exact Frame_expect_key j r k h

theorem Frame_begin_read (j r : xjson) (key : Option (List Char)) (c : Char)
    (h : (match key with
      | some k =>
        (xjson_expect_key j k).map fun json1 =>
          { xjson_expect json1 c with intendation := (xjson_expect json1 c).intendation + 1 }
      | none =>
        some { xjson_expect j c with intendation := (xjson_expect j c).intendation + 1 }) = some r) :
    Frame j r := by
  cases key with
  | none =>
    cases h
    exact Frame.trans (Frame_expect j c) ⟨rfl, rfl, rfl, rfl⟩
  | some k =>
    simp only [Option.map_eq_some'] at h
    obtain ⟨j1, hk, hr⟩ := h
    subst hr
    exact Frame.trans (Frame_expect_key j j1 k hk) (Frame.trans (Frame_expect j1 c) ⟨rfl, rfl, rfl, rfl⟩)

theorem Frame_begin_write (j : xjson) (key : Option (List Char)) (c : Char) :
    Frame j (write_begin c key j) := by
  unfold write_begin
  cases key with
  | none => exact Frame.trans (Frame_print_token _ _ _) ⟨rfl, rfl, rfl, rfl⟩
  | some k =>
    exact Frame.trans (Frame.trans (Frame.trans (Frame_nl j) (Frame_print_key _ k))
      (Frame_print_token _ _ _)) ⟨rfl, rfl, rfl, rfl⟩

theorem Frame_object_begin (j r : xjson) (key : Option (List Char))
    (h : xjson_object_begin j key = some r) : Frame j r := by
  by_cases hm : j.mode = XJSON_STATE_READ
  · unfold xjson_object_begin at h
    split at h
    · cases h; exact Frame.refl j
    · exact Frame_begin_read j r key '{' h
  · have : xjson_object_begin j key = some (if j.error then j else write_begin '{' key j) := by
      unfold xjson_object_begin write_begin
      cases he : j.error <;> simp [hm]
    rw [this] at h
    cases h
    split
    · exact Frame.refl j
    · exact Frame_begin_write j key '{'

theorem Frame_array_begin (j r : xjson) (key : Option (List Char))
    (h : xjson_array_begin j key = some r) : Frame j r := by
  by_cases hm : j.mode = XJSON_STATE_READ
  · unfold xjson_array_begin at h
    split at h
    · cases h; exact Frame.refl j
    · exact Frame_begin_read j r key '[' h
  · have : xjson_array_begin j key = some (if j.error then j else write_begin '[' key j) := by
      unfold xjson_array_begin write_begin
      cases he : j.error <;> simp [hm]
    rw [this] at h
    cases h
    split
    · exact Frame.refl j
    · exact Frame_begin_write j key '['

theorem Frame_retract (c : Char) (j : xjson) : Frame j (retract c j) := by
  unfold retract; split <;> exact ⟨rfl, rfl, rfl, rfl⟩

theorem Frame_write_end (c c' : Char) (j : xjson) : Frame j (write_end c c' j) := by
  unfold write_end
  exact Frame.trans (Frame.trans (Frame.trans (Frame_retract c j) (Frame_nl _))
    (Frame_print_token _ _ _)) (Frame_print_token _ _ _)

theorem Frame_terminate_root (j : xjson) : Frame j (terminate_root j) := by
  unfold terminate_root; split
  · exact ⟨rfl, rfl, rfl, rfl⟩
  · exact Frame.refl j

theorem object_end_read_eq (j : xjson) (hm : j.mode = XJSON_STATE_READ) :
    xjson_object_end j
      = if j.error then j
        else xjson_try (xjson_expect { j with intendation := j.intendation - 1 } '}') ',' := by
  have h0 : Frame j ({ j with intendation := j.intendation - 1 } : xjson) := ⟨rfl, rfl, rfl, rfl⟩
  have h1 := Frame.trans (Frame.trans h0 (Frame_expect _ '}')) (Frame_try _ ',')
  unfold xjson_object_end
  split
  · rfl
  · simp only [hm, if_true]
    rw [if_neg]
    intro h
    have := h1.1
    rw [hm, h.2] at this
    cases this

theorem array_end_read_eq (j : xjson) (hm : j.mode = XJSON_STATE_READ) :
    xjson_array_end j
      = if j.error then j
        else xjson_try (xjson_expect { j with intendation := j.intendation - 1 } ']') ',' := by
  unfold xjson_array_end
  split
  · rfl
  · simp only [hm, if_true]

theorem Frame_object_end (j : xjson) : Frame j (xjson_object_end j) := by
  by_cases hm : j.mode = XJSON_STATE_READ
  · rw [object_end_read_eq j hm]
    have h0 : Frame j ({ j with intendation := j.intendation - 1 } : xjson) := ⟨rfl, rfl, rfl, rfl⟩
    split
    · exact Frame.refl j
    · exact Frame.trans (Frame.trans h0 (Frame_expect _ '}')) (Frame_try _ ',')
  · have : xjson_object_end j = if j.error then j else terminate_root (write_end '{' '}' j) := by
      unfold xjson_object_end write_end retract terminate_root
      cases he : j.error
      · simp only [hm, Bool.false_eq_true, if_false]
      · simp
    rw [this]
    split
    · exact Frame.refl j
    · exact Frame.trans (Frame_write_end _ _ j) (Frame_terminate_root _)

theorem Frame_array_end (j : xjson) : Frame j (xjson_array_end j) := by
  by_cases hm : j.mode = XJSON_STATE_READ
  · rw [array_end_read_eq j hm]
    have h0 : Frame j ({ j with intendation := j.intendation - 1 } : xjson) := ⟨rfl, rfl, rfl, rfl⟩
    split
    · exact Frame.refl j
    · exact Frame.trans (Frame.trans h0 (Frame_expect _ ']')) (Frame_try _ ',')
  · have : xjson_array_end j = if j.error then j else write_end '[' ']' j := by
      unfold xjson_array_end write_end retract
      cases he : j.error
      · simp only [hm, Bool.false_eq_true, if_false]
      · simp
    rw [this]
    split
    · exact Frame.refl j
    · exact Frame_write_end _ _ j

theorem Frame_integer (j : xjson) (key : Option (List Char)) (val : Int) (type : xjson_int_type)
    (r : xjson × Int) (h : xjson_integer j key val type = some r) : Frame j r.1 := by
  unfold xjson_integer at h
  split at h
  · simp only [Option.map_eq_some'] at h
    obtain ⟨j1, hk, hr⟩ := h
    subst hr
    have h1 := Frame.trans (Frame_read_key j j1 key hk) (Frame_parse_int j1 0)
    split
    · exact h1
    · exact Frame.trans h1 (Frame_try _ _)
  · cases h; exact Frame_write_scalar j key _

theorem Frame_float (j : xjson) (key : Option (List Char)) (val : fval)
    (r : xjson × fval) (h : xjson_float j key val = some r) : Frame j r.1 := by
  unfold xjson_float at h
  split at h
  · simp only [Option.map_eq_some'] at h
    obtain ⟨j1, hk, hr⟩ := h
    subst hr
    exact Frame.trans (Frame.trans (Frame_read_key j j1 key hk) (Frame_parse_double j1 _))
      (Frame_try _ _)
  · cases h; exact Frame_write_scalar j key _

theorem Frame_double (j : xjson) (key : Option (List Char)) (val : fval)
    (r : xjson × fval) (h : xjson_double j key val = some r) : Frame j r.1 := by
  unfold xjson_double at h
  split at h
  · simp only [Option.map_eq_some'] at h
    obtain ⟨j1, hk, hr⟩ := h
    subst hr
    exact Frame.trans (Frame.trans (Frame_read_key j j1 key hk) (Frame_parse_double j1 _))
      (Frame_try _ _)
  · cases h; exact Frame_write_scalar j key _

theorem Frame_bool (j : xjson) (key : Option (List Char)) (val : Bool)
    (r : xjson × Bool) (h : xjson_bool j key val = some r) : Frame j r.1 := by
  unfold xjson_bool at h
  split at h
  · simp only [Option.map_eq_some'] at h
    obtain ⟨j1, hk, hr⟩ := h
    subst hr
    exact Frame.trans (Frame.trans (Frame_read_key j j1 key hk) (Frame_parse_bool j1 _))
      (Frame_try _ _)
  · cases h; exact Frame_write_scalar j key _

theorem Frame_string (j : xjson) (key : Option (List Char)) (str : List Char)
    (r : xjson × List Char) (h : xjson_string j key str = some r) : Frame j r.1 := by
  unfold xjson_string at h
  split at h
  · simp only [Option.bind_eq_some, Option.map_eq_some'] at h
    obtain ⟨j1, hk, r1, hs, hr⟩ := h
    subst hr
    exact Frame.trans (Frame.trans (Frame_read_key j j1 key hk) (Frame_parse_string j1 str r1 hs))
      (Frame_try _ _)
  · cases h; exact Frame_write_scalar j key _

/-- No traversal changes the mode, the bounds of the buffer or the pretty printing flag. -/
theorem Frame_run : ∀ (t : Trav) (lp : Option (Int × Int)) (j : xjson) (r : xjson × Trav × Bool),
    run t lp j = some r → Frame j r.1 := by
  intro t
  induction t with
  | done => intro lp j r h; simp only [run, Option.some.injEq] at h; subst h; exact Frame.refl j
  | int key type val rest ih =>
    intro lp j r h
    simp only [run] at h
    split at h
    · cases h; exact Frame.refl j
    · simp only [Option.bind_eq_some, Option.map_eq_some'] at h
      obtain ⟨r1, h1, s, h2, hr⟩ := h
      subst hr
      exact Frame.trans (Frame_integer j key val type r1 h1) (ih _ _ s h2)
  | float key val rest ih =>
    intro lp j r h
    simp only [run] at h
    split at h
    · cases h; exact Frame.refl j
    · simp only [Option.bind_eq_some, Option.map_eq_some'] at h
      obtain ⟨r1, h1, s, h2, hr⟩ := h
      subst hr
      exact Frame.trans (Frame_float j key val r1 h1) (ih _ _ s h2)
  | double key val rest ih =>
    intro lp j r h
    simp only [run] at h
    split at h
    · cases h; exact Frame.refl j
    · simp only [Option.bind_eq_some, Option.map_eq_some'] at h
      obtain ⟨r1, h1, s, h2, hr⟩ := h
      subst hr
      exact Frame.trans (Frame_double j key val r1 h1) (ih _ _ s h2)
  | bool key val rest ih =>
    intro lp j r h
    simp only [run] at h
    split at h
    · cases h; exact Frame.refl j
    · simp only [Option.bind_eq_some, Option.map_eq_some'] at h
      obtain ⟨r1, h1, s, h2, hr⟩ := h
      subst hr
      exact Frame.trans (Frame_bool j key val r1 h1) (ih _ _ s h2)
  | string key str rest ih =>
    intro lp j r h
    simp only [run] at h
    split at h
    · cases h; exact Frame.refl j
    · simp only [Option.bind_eq_some, Option.map_eq_some'] at h
      obtain ⟨r1, h1, s, h2, hr⟩ := h
      subst hr
      exact Frame.trans (Frame_string j key str r1 h1) (ih _ _ s h2)
  | object key body rest ihb ih =>
    intro lp j r h
    simp only [run] at h
    split at h
    · cases h; exact Frame.refl j
    · simp only [Option.bind_eq_some, Option.map_eq_some'] at h
      obtain ⟨j1, h1, b, hb, s, h2, hr⟩ := h
      subst hr
      exact Frame.trans (Frame.trans (Frame.trans (Frame_object_begin j j1 key h1) (ihb _ _ b hb))
        (Frame_object_end _)) (ih _ _ s h2)
  | array key body rest ihb ih =>
    intro lp j r h
    simp only [run] at h
    split at h
    · cases h; exact Frame.refl j
    · simp only [Option.bind_eq_some, Option.map_eq_some'] at h
      obtain ⟨j1, h1, b, hb, s, h2, hr⟩ := h
      subst hr
      exact Frame.trans (Frame.trans (Frame.trans (Frame_array_begin j j1 key h1) (ihb _ _ b hb))
        (Frame_array_end _)) (ih _ _ s h2)

/-! ### Read mode: keys -/

theorem load_add (mem : List Char) (p i : Nat) :
    load mem (p + i) = (mem.drop p).getD i '\x00' := by
  unfold load
  rw [List.getD_eq_getElem?_getD, List.getD_eq_getElem?_getD, List.getElem?_drop]

theorem load_Rd_at {j : xjson} {X L post : List Char} {c : Char} (h : Rd j (X ++ c :: L) post) :
    load j.mem (j.current + X.length) = c :=
  load_Rd (Rd_adv h)

theorem key_ok_mem {k : List Char} (hk : key_ok k = true) {c : Char} (hc : c ∈ k) :
    c ≠ '"' ∧ xjson_is_space c = false ∧ c ≠ '\x00' := by
  unfold key_ok at hk
  rw [List.all_eq_true] at hk
  have := hk c hc
  simp only [Bool.and_eq_true, bne_iff_ne, ne_eq, Bool.not_eq_true'] at this
  exact ⟨this.1.1, this.1.2, this.2⟩

theorem cstr_of_key_ok {k : List Char} (hk : key_ok k = true) : cstr k = k := by
  unfold cstr
  rw [List.takeWhile_eq_self_iff]
  intro c hc
  simpa using (key_ok_mem hk hc).2.2

theorem ws_len_key {k L : List Char} (hk : key_ok k = true) : ws_len (k ++ '"' :: L) = 0 := by
  cases k with
  | nil => exact ws_len_cons_not_space _ _ (by decide)
  | cons c k => exact ws_len_cons_not_space _ _ (key_ok_mem hk (by simp)).2.1

theorem key_ok_tail {c : Char} {k : List Char} (hk : key_ok (c :: k) = true) : key_ok k = true := by
  unfold key_ok at hk ⊢
  simp only [List.all_cons, Bool.and_eq_true] at hk
  exact hk.2

/-- The scan for the closing quote walks over a key. -/
theorem scan_Rd : ∀ (k : List Char) (fuel : Nat) (j : xjson) (L post : List Char),
    key_ok k = true → k.length < fuel → Rd j (k ++ '"' :: L) post →
    scan_to_quote fuel j = some (adv j k.length) := by
  intro k
  induction k with
  | nil =>
    intro fuel j L post _ hf h
    cases fuel with
    | zero => omega
    | succ fuel =>
      unfold scan_to_quote
      rw [load_Rd (c := '"') (by simpa using h), if_pos rfl]
      simp [adv_zero]
  | cons c k ih =>
    intro fuel j L post hk hf h
    cases fuel with
    | zero => omega
    | succ fuel =>
      have hc := key_ok_mem hk (c := c) (by simp)
      have h' : Rd j (c :: (k ++ '"' :: L)) post := by simpa using h
      unfold scan_to_quote
      rw [load_Rd h', if_neg hc.1]
      simp only
      rw [consume_Rd h', ws_len_key (key_ok_tail hk)]
      have h1 : Rd (adv j (1 + 0)) (k ++ '"' :: L) post := by
        have := Rd_adv (X := [c]) (L := k ++ '"' :: L) (by simpa using h)
        simpa using this
      rw [if_neg (by rw [h1.2.1]; simp)]
      rw [ih fuel _ L post (key_ok_tail hk) (by simpa using hf) h1, adv_adv]
      simp only [List.length_cons]
      congr 2
      omega

theorem memcmp_eq_self (k mem rest : List Char) (p : Nat) (hk : key_ok k = true)
    (hm : mem.drop p = k ++ rest) : memcmp_eq k mem p k.length = true := by
  unfold memcmp_eq
  rw [List.all_eq_true]
  intro i hi
  have hi' : i < k.length := by simpa using hi
  have hc : cstr_byte k i = k.getD i '\x00' := by
    unfold cstr_byte
    have := cstr_of_key_ok hk
    unfold cstr at this
    rw [this]
  rw [hc, load_add, hm]
  simp [List.getD_eq_getElem?_getD, List.getElem?_append_left hi']

/-- `xjson_expect_key` on the text of the key it is given. -/
theorem expect_key_Rd {j : xjson} {k L post : List Char} (hk : key_ok k = true)
    (h : Rd j ('"' :: (k ++ '"' :: ':' :: L)) post) :
    xjson_expect_key j k = some (adv j (k.length + 3 + ws_len L))
      ∧ Rd (adv j (k.length + 3 + ws_len L)) (skip_ws L) post := by
  have h1 : Rd (adv j 1) (k ++ '"' :: ':' :: L) post := by
    have := Rd_adv (X := ['"']) (L := k ++ '"' :: ':' :: L) (by simpa using h)
    simpa using this
  have h2 : Rd (adv (adv j 1) k.length) ('"' :: ':' :: L) post := Rd_adv h1
  have h3 : Rd (adv (adv (adv j 1) k.length) 1) (':' :: L) post := by
    have := Rd_adv (X := ['"']) (L := ':' :: L) (by simpa using h2)
    simpa using this
  have h4 : Rd (adv (adv (adv (adv j 1) k.length) 1) (1 + ws_len L)) (skip_ws L) post := by
    have h3' : Rd (adv (adv (adv j 1) k.length) 1) ((':' :: L.take (ws_len L)) ++ skip_ws L) post := by
      rw [List.cons_append, take_ws_append_skip]; exact h3
    have := Rd_adv h3'
    simpa [List.length_take, Nat.min_eq_left (ws_len_le L), Nat.add_comm] using this
  have hadv : adv (adv (adv (adv j 1) k.length) 1) (1 + ws_len L) = adv j (k.length + 3 + ws_len L) := by
    simp only [adv_adv]; congr 1; omega
  refine ⟨?_, by rw [← hadv]; exact h4⟩
  unfold xjson_expect_key
  have he1 : xjson_expect j '"' = adv j 1 := by
    rw [expect_Rd h, ws_len_key hk]
  simp only [he1]
  rw [if_neg (by rw [h1.2.1]; simp)]
  have hfuel : k.length < scan_fuel (adv j 1) := by
    have := h1.2.2.2
    simp only [scan_fuel, List.length_append, List.length_cons] at this ⊢
    omega
  rw [scan_Rd k _ _ _ post hk hfuel h1]
  simp only
  rw [if_neg (by rw [h2.2.1]; simp)]
  have hlen : (adv (adv j 1) k.length).current - (adv j 1).current = k.length := by
    simp [adv]
  have hmc : memcmp_eq k (adv (adv j 1) k.length).mem (adv j 1).current k.length = true :=
    memcmp_eq_self k (adv j 1).mem (('"' :: ':' :: L) ++ post) (adv j 1).current hk
      (by rw [h1.2.2.1, List.append_assoc])
  rw [hlen, hmc]
  simp only [Bool.not_true, Bool.false_eq_true, if_false]
  have hw : ws_len (':' :: L) = 0 := ws_len_cons_not_space _ _ (by decide)
  rw [expect_Rd h2, hw, expect_Rd h3, hadv]

/-! ### Read mode: values and separators -/

theorem ws_len_ws_append {W : List Char} (hW : ∀ c ∈ W, xjson_is_space c = true)
    (c : Char) (S : List Char) (hc : xjson_is_space c = false) :
    ws_len (W ++ c :: S) = W.length := by
  unfold ws_len
  rw [List.takeWhile_append_of_pos hW]
  simp [List.takeWhile_cons, hc]

theorem skip_ws_ws_append {W : List Char} (hW : ∀ c ∈ W, xjson_is_space c = true)
    (Y : List Char) : skip_ws (W ++ Y) = skip_ws Y := by
  unfold skip_ws
  induction W with
  | nil => rfl
  | cons w W ih =>
    have hw := hW w (by simp)
    simp only [List.cons_append, List.dropWhile_cons, hw, if_true]
    exact ih (fun c hc => hW c (by simp [hc]))

theorem nl_space (pp : Bool) (d : Nat) : ∀ c ∈ nl pp d, xjson_is_space c = true := by
  intro c hc
  unfold nl at hc
  split at hc
  · simp only [List.mem_cons, List.mem_replicate] at hc
    rcases hc with hc | ⟨_, hc⟩ <;> (subst hc; decide)
  · simp at hc

theorem key_nl_space (pp : Bool) (d : Nat) (key : Option (List Char)) :
    ∀ c ∈ key_nl pp d key, xjson_is_space c = true := by
  cases key with
  | none => intro c hc; simp [key_nl] at hc
  | some k => exact nl_space pp d

theorem dropLast_render_cons (IT R X : List Char) (hR : R = [] ∨ ∃ B, R = B ++ [',']) :
    (IT ++ [','] ++ R).dropLast ++ X = IT ++ sep_tail R X := by
  rcases hR with hR | ⟨B, hR⟩
  · subst hR; simp [sep_tail]
  · subst hR
    have : IT ++ [','] ++ (B ++ [',']) = (IT ++ [','] ++ B) ++ [','] := by simp
    rw [this, List.dropLast_concat]
    simp [sep_tail]

/-- After a value: the white space is skipped and one comma is consumed when
there is one; the cursor then stands on the next child, or on the closing delimiter. -/
theorem after_value {j : xjson} {R W S post : List Char} {cl : Char}
    (hR : R = [] ∨ ∃ B, R = B ++ [',']) (hW : ∀ c ∈ W, xjson_is_space c = true)
    (hcl1 : cl ≠ ',') (hcl2 : xjson_is_space cl = false)
    (h : Rd j (sep_tail R (W ++ cl :: S)) post) :
    ∃ k, xjson_try (adv j (ws_len (sep_tail R (W ++ cl :: S)))) ',' = adv j k
      ∧ Rd (adv j k) (skip_ws (R.dropLast ++ (W ++ cl :: S))) post := by
  rcases hR with hR | ⟨B, hR⟩
  · subst hR
    have hs : sep_tail [] (W ++ cl :: S) = W ++ cl :: S := by simp [sep_tail]
    rw [hs] at h ⊢
    rw [ws_len_ws_append hW cl S hcl2]
    have h1 : Rd (adv j W.length) (cl :: S) post := Rd_adv h
    refine ⟨W.length, try_miss_Rd h1 hcl1, ?_⟩
    simp only [List.dropLast_nil, List.nil_append]
    rw [skip_ws_ws_append hW, skip_ws_cons_not_space cl S hcl2]
    exact h1
  · subst hR
    have hs : sep_tail (B ++ [',']) (W ++ cl :: S) = ',' :: (B ++ (W ++ cl :: S)) := by
      simp [sep_tail]
    rw [hs] at h ⊢
    rw [ws_len_cons_not_space _ _ (by decide), adv_zero, try_hit_Rd h]
    refine ⟨1 + ws_len (B ++ (W ++ cl :: S)), rfl, ?_⟩
    have h' : Rd j ((',' :: (B ++ (W ++ cl :: S)).take (ws_len (B ++ (W ++ cl :: S))))
        ++ skip_ws (B ++ (W ++ cl :: S))) post := by
      rw [List.cons_append, take_ws_append_skip]; exact h
    have := Rd_adv h'
    have hl : (',' :: (B ++ (W ++ cl :: S)).take (ws_len (B ++ (W ++ cl :: S)))).length
        = 1 + ws_len (B ++ (W ++ cl :: S)) := by
      rw [List.length_cons, List.length_take, Nat.min_eq_left (ws_len_le _)]; omega
    rw [hl] at this
    rw [List.dropLast_concat]
    exact this

theorem fmt_int_head (n : Int) :
    ∃ c rest, fmt_int n = c :: rest ∧ (c = '-' ∨ isdigit c = true) := by
  unfold fmt_int
  split
  · exact ⟨'-', _, rfl, Or.inl rfl⟩
  · obtain ⟨c, rest, h⟩ := List.exists_cons_of_ne_nil (fmt_nat_ne_nil n.natAbs)
    exact ⟨c, rest, h, Or.inr (fmt_nat_digits n.natAbs c (by rw [h]; simp))⟩

theorem isspace_eq_is_space (c : Char) : xjson_is_space c = isspace c := rfl

theorem int_head_props {c : Char} (h : c = '-' ∨ isdigit c = true) :
    xjson_is_space c = false ∧ c ≠ ']' := by
  rcases h with h | h
  · subst h; exact ⟨by decide, by decide⟩
  · refine ⟨by rw [isspace_eq_is_space]; exact isspace_of_isdigit c h, ?_⟩
    intro hc; subst hc; revert h; decide

/-- `xjson_expect_token` on the token it is given. -/
theorem expect_token_Rd {j : xjson} {tok tail post : List Char} (h : Rd j (tok ++ tail) post) :
    xjson_expect_token j tok tok.length = adv j (tok.length + ws_len tail) := by
  have hmem := h.2.2.1
  have hmm : token_mismatch j tok tok.length = false := by
    unfold token_mismatch
    simp only [List.any_eq_false, List.mem_range]
    intro i hi
    rw [load_add, hmem]
    simp [List.getD_eq_getElem?_getD, List.getElem?_append_left, hi]
  have hs := skip_Rd (Rd_adv h)
  unfold xjson_expect_token
  rw [if_neg (by rw [h.2.1]; simp), hmm]
  simp only [Bool.false_eq_true, if_false]
  rw [← adv_adv, ← hs]
  rfl

/-- Reading the text of a boolean. -/
theorem parse_bool_Rd {j : xjson} {b : Bool} {tail post : List Char}
    (h : Rd j (bool_text b ++ tail) post) (val : Bool) :
    xjson_expect_and_parse_bool j val = (adv j ((bool_text b).length + ws_len tail), b) := by
  have he := h.2.1
  cases b with
  | true =>
    have h' : Rd j ('t' :: ("rue".toList ++ tail)) post := h
    have ht := @expect_token_Rd j "true".toList tail post h
    unfold xjson_expect_and_parse_bool
    rw [if_neg (by rw [he]; simp), load_Rd h', if_pos rfl]
    have ht' : xjson_expect_token j "true".toList 4
        = adv j ((bool_text true).length + ws_len tail) := ht
    rw [ht']
    have : (adv j ((bool_text true).length + ws_len tail)).error = false := he
    simp [this]
  | false =>
    have h' : Rd j ('f' :: ("alse".toList ++ tail)) post := h
    have ht := @expect_token_Rd j "false".toList tail post h
    unfold xjson_expect_and_parse_bool
    rw [if_neg (by rw [he]; simp), load_Rd h', if_neg (by decide), if_pos rfl]
    have ht' : xjson_expect_token j "false".toList 5
        = adv j ((bool_text false).length + ws_len tail) := ht
    rw [ht']
    have : (adv j ((bool_text false).length + ws_len tail)).error = false := he
    simp [this]

/-! ### Read mode: the children of a container -/

theorem skip_ws_of_ws_len_zero {Y : List Char} (h : ws_len Y = 0) : skip_ws Y = Y := by
  have := take_ws_append_skip Y
  rw [h] at this
  simpa using this

theorem loop_stops_Rd {j : xjson} {c : Char} {L post : List Char} (lp : Option (Int × Int))
    (h : Rd j (c :: L) post) (hc : c ≠ ']') : loop_stops lp j = false := by
  cases lp with
  | none => rfl
  | some p =>
    simp [loop_stops, xjson_array_reached_end, h.1, load_Rd h, hc, h.2.1]

theorem sep_tail_head (R W S : List Char) (cl : Char)
    (hW : ∀ c ∈ W, xjson_is_space c = true) (hcl : isdigit cl = false) :
    ∃ c T, sep_tail R (W ++ cl :: S) = c :: T ∧ isdigit c = false := by
  unfold sep_tail
  split
  · cases W with
    | nil => exact ⟨cl, S, rfl, hcl⟩
    | cons w W =>
      refine ⟨w, W ++ cl :: S, rfl, ?_⟩
      have hw := hW w (by simp)
      cases hd : isdigit w with
      | false => rfl
      | true =>
        have := isspace_of_isdigit w hd
        rw [← isspace_eq_is_space, hw] at this
        exact absurd this (by simp)
  · exact ⟨',', _, rfl, by decide⟩

/-- The text of a child starts with a byte that is neither white space nor `]`. -/
theorem item_head (key : Option (List Char)) (c0 : Char) (V : List Char)
    (h0 : xjson_is_space c0 = false ∧ c0 ≠ ']') :
    ∃ c Y, key_text key ++ c0 :: V = c :: Y ∧ xjson_is_space c = false ∧ c ≠ ']' := by
  cases key with
  | none => exact ⟨c0, V, rfl, h0⟩
  | some k => exact ⟨'"', _, rfl, by decide, by decide⟩

theorem read_key_Rd {j : xjson} {io : Bool} {key : Option (List Char)} {Y post : List Char}
    (hk : key_fits io key = true) (hY : ws_len Y = 0) (h : Rd j (key_text key ++ Y) post) :
    ∃ k, read_key j key = some (adv j k) ∧ Rd (adv j k) Y post := by
  cases key with
  | none => exact ⟨0, by rw [adv_zero]; rfl, by rw [adv_zero]; exact h⟩
  | some k =>
    have hko : key_ok k = true := by
      simp only [key_fits, Bool.and_eq_true] at hk
      exact hk.2
    have h' : Rd j ('"' :: (k ++ '"' :: ':' :: Y)) post := by
      simpa [key_text, cstr_of_key_ok hko] using h
    obtain ⟨h1, h2⟩ := expect_key_Rd hko h'
    rw [skip_ws_of_ws_len_zero hY] at h2
    exact ⟨_, h1, h2⟩

/-- An integer child in read mode: the loop guard in front of it is false, the
accessor returns without error, and the cursor is left on the next child or
on the closing delimiter. -/
theorem integer_item_Rd {j : xjson} {io : Bool} {key : Option (List Char)} {n : Int}
    {R W S post : List Char} {cl : Char} {Wn : List Char}
    (hk : key_fits io key = true) (hR : R = [] ∨ ∃ B, R = B ++ [','])
    (hWn : ∀ c ∈ Wn, xjson_is_space c = true)
    (hW : ∀ c ∈ W, xjson_is_space c = true) (hcl1 : cl ≠ ',') (hcl2 : xjson_is_space cl = false)
    (hcl3 : isdigit cl = false)
    (h : Rd j (skip_ws (Wn ++ (key_text key ++ (fmt_int n ++ sep_tail R (W ++ cl :: S))))) post)
    (lp : Option (Int × Int)) (val : Int) (type : xjson_int_type) :
    loop_stops lp j = false
      ∧ ∃ j1, xjson_integer j key val type
          = some (j1, int_cast type (if n < 0 then max n LLONG_MIN else min n LLONG_MAX))
        ∧ Rd j1 (skip_ws (R.dropLast ++ (W ++ cl :: S))) post := by
  obtain ⟨c0, V, hf, h0⟩ := fmt_int_head n
  obtain ⟨c, Y, hY, hc⟩ := item_head key c0 (V ++ sep_tail R (W ++ cl :: S)) (int_head_props h0)
  have hw0 : ws_len (fmt_int n ++ sep_tail R (W ++ cl :: S)) = 0 := by
    rw [hf]; exact ws_len_cons_not_space _ _ (int_head_props h0).1
  have hYeq : key_text key ++ (fmt_int n ++ sep_tail R (W ++ cl :: S)) = c :: Y := by
    rw [hf]; exact hY
  rw [skip_ws_ws_append hWn, hYeq, skip_ws_cons_not_space c Y hc.1] at h
  refine ⟨loop_stops_Rd lp h hc.2, ?_⟩
  rw [← hYeq] at h
  obtain ⟨k, hrk, h1⟩ := read_key_Rd hk hw0 h
  obtain ⟨ct, T, hT, hTd⟩ := sep_tail_head R W S cl hW hcl3
  have hp := parse_int_Rd h1 (by
    intro c hc'
    rw [hT] at hc'
    simp only [List.cons_append, List.head?_cons, Option.some.injEq] at hc'
    rw [← hc']; exact hTd) 0
  have h2 : Rd (adv (adv j k) (fmt_int n).length) (sep_tail R (W ++ cl :: S)) post := Rd_adv h1
  obtain ⟨k', htry, h3⟩ := after_value hR hW hcl1 hcl2 h2
  refine ⟨_, ?_, h3⟩
  unfold xjson_integer
  rw [if_pos h.1, hrk]
  simp only [Option.map_some', hp]
  rw [← adv_adv (adv j k)]
  rw [if_neg (by
    have : (adv (adv (adv j k) (fmt_int n).length) (ws_len (sep_tail R (W ++ cl :: S)))).error
      = false := h1.2.1
    rw [this]; simp)]
  rw [htry]

/-- A boolean child in read mode. -/
theorem bool_item_Rd {j : xjson} {io : Bool} {key : Option (List Char)} {b : Bool}
    {R W S post : List Char} {cl : Char} {Wn : List Char}
    (hk : key_fits io key = true) (hR : R = [] ∨ ∃ B, R = B ++ [','])
    (hWn : ∀ c ∈ Wn, xjson_is_space c = true)
    (hW : ∀ c ∈ W, xjson_is_space c = true) (hcl1 : cl ≠ ',') (hcl2 : xjson_is_space cl = false)
    (h : Rd j (skip_ws (Wn ++ (key_text key ++ (bool_text b ++ sep_tail R (W ++ cl :: S))))) post)
    (lp : Option (Int × Int)) (val : Bool) :
    loop_stops lp j = false
      ∧ ∃ j1, xjson_bool j key val = some (j1, b)
        ∧ Rd j1 (skip_ws (R.dropLast ++ (W ++ cl :: S))) post := by
  have hbh : ∃ c0 V, bool_text b = c0 :: V ∧ xjson_is_space c0 = false ∧ c0 ≠ ']' := by
    cases b
    · exact ⟨'f', "alse".toList, rfl, by decide, by decide⟩
    · exact ⟨'t', "rue".toList, rfl, by decide, by decide⟩
  obtain ⟨c0, V, hf, h0⟩ := hbh
  obtain ⟨c, Y, hY, hc⟩ := item_head key c0 (V ++ sep_tail R (W ++ cl :: S)) h0
  have hw0 : ws_len (bool_text b ++ sep_tail R (W ++ cl :: S)) = 0 := by
    rw [hf]; exact ws_len_cons_not_space _ _ h0.1
  have hYeq : key_text key ++ (bool_text b ++ sep_tail R (W ++ cl :: S)) = c :: Y := by
    rw [hf]; exact hY
  rw [skip_ws_ws_append hWn, hYeq, skip_ws_cons_not_space c Y hc.1] at h
  refine ⟨loop_stops_Rd lp h hc.2, ?_⟩
  rw [← hYeq] at h
  obtain ⟨k, hrk, h1⟩ := read_key_Rd hk hw0 h
  have hp := parse_bool_Rd h1 val
  have h2 : Rd (adv (adv j k) (bool_text b).length) (sep_tail R (W ++ cl :: S)) post := Rd_adv h1
  obtain ⟨k', htry, h3⟩ := after_value hR hW hcl1 hcl2 h2
  refine ⟨_, ?_, h3⟩
  unfold xjson_bool
  rw [if_pos h.1, hrk]
  simp only [Option.map_some', hp]
  rw [← adv_adv (adv j k), htry]

theorem Rd_consumed {j : xjson} {c : Char} {Y post : List Char} (h : Rd j (c :: Y) post) :
    Rd (adv j (1 + ws_len Y)) (skip_ws Y) post := by
  have h' : Rd j ((c :: Y.take (ws_len Y)) ++ skip_ws Y) post := by
    rw [List.cons_append, take_ws_append_skip]; exact h
  have := Rd_adv h'
  have hl : (c :: Y.take (ws_len Y)).length = 1 + ws_len Y := by
    rw [List.length_cons, List.length_take, Nat.min_eq_left (ws_len_le _)]; omega
  rw [hl] at this
  exact this

theorem Rd_intendation {j : xjson} {L post : List Char} (h : Rd j L post) (i : Int) :
    Rd { j with intendation := i } L post :=
  ⟨h.1, h.2.1, h.2.2.1, h.2.2.2⟩

/-- `xjson_object_begin` / `xjson_array_begin` in read mode, in front of the
text of a container: the loop guard is false and the cursor moves to the first
child, or to the closing delimiter. -/
theorem begin_Rd {j : xjson} {io : Bool} {key : Option (List Char)} {Wn Y post : List Char}
    (hk : key_fits io key = true) (hWn : ∀ c ∈ Wn, xjson_is_space c = true)
    (lp : Option (Int × Int)) :
    (Rd j (skip_ws (Wn ++ (key_text key ++ '{' :: Y))) post →
      loop_stops lp j = false
        ∧ ∃ j1, xjson_object_begin j key = some j1 ∧ Rd j1 (skip_ws Y) post)
    ∧ (Rd j (skip_ws (Wn ++ (key_text key ++ '[' :: Y))) post →
      loop_stops lp j = false
        ∧ ∃ j1, xjson_array_begin j key = some j1 ∧ Rd j1 (skip_ws Y) post) := by
  constructor
  · intro h
    obtain ⟨c, Y', hY, hc⟩ := item_head key '{' Y ⟨by decide, by decide⟩
    rw [skip_ws_ws_append hWn, hY, skip_ws_cons_not_space c Y' hc.1] at h
    refine ⟨loop_stops_Rd lp h hc.2, ?_⟩
    rw [← hY] at h
    cases key with
    | none =>
      have h0 : Rd j ('{' :: Y) post := h
      refine ⟨{ adv j (1 + ws_len Y) with intendation := (adv j (1 + ws_len Y)).intendation + 1 },
        ?_, Rd_intendation (Rd_consumed h0) _⟩
      unfold xjson_object_begin
      rw [if_neg (by rw [h.2.1]; simp), if_pos h.1]
      simp only
      rw [expect_Rd h0]
    | some k' =>
      obtain ⟨k, hrk, h1⟩ := read_key_Rd hk (ws_len_cons_not_space _ _ (by decide)) h
      refine ⟨{ adv (adv j k) (1 + ws_len Y) with
        intendation := (adv (adv j k) (1 + ws_len Y)).intendation + 1 }, ?_,
        Rd_intendation (Rd_consumed h1) _⟩
      unfold xjson_object_begin
      rw [if_neg (by rw [h.2.1]; simp), if_pos h.1]
      simp only [read_key] at hrk
      simp only [hrk, Option.map_some']
      rw [expect_Rd h1]
  · intro h
    obtain ⟨c, Y', hY, hc⟩ := item_head key '[' Y ⟨by decide, by decide⟩
    rw [skip_ws_ws_append hWn, hY, skip_ws_cons_not_space c Y' hc.1] at h
    refine ⟨loop_stops_Rd lp h hc.2, ?_⟩
    rw [← hY] at h
    cases key with
    | none =>
      have h0 : Rd j ('[' :: Y) post := h
      refine ⟨{ adv j (1 + ws_len Y) with intendation := (adv j (1 + ws_len Y)).intendation + 1 },
        ?_, Rd_intendation (Rd_consumed h0) _⟩
      unfold xjson_array_begin
      rw [if_neg (by rw [h.2.1]; simp), if_pos h.1]
      simp only
      rw [expect_Rd h0]
    | some k' =>
      obtain ⟨k, hrk, h1⟩ := read_key_Rd hk (ws_len_cons_not_space _ _ (by decide)) h
      refine ⟨{ adv (adv j k) (1 + ws_len Y) with
        intendation := (adv (adv j k) (1 + ws_len Y)).intendation + 1 }, ?_,
        Rd_intendation (Rd_consumed h1) _⟩
      unfold xjson_array_begin
      rw [if_neg (by rw [h.2.1]; simp), if_pos h.1]
      simp only [read_key] at hrk
      simp only [hrk, Option.map_some']
      rw [expect_Rd h1]

/-- `xjson_object_end` / `xjson_array_end` in read mode, on the closing delimiter. -/
theorem end_Rd {j : xjson} {R W S post : List Char} {cl : Char}
    (hR : R = [] ∨ ∃ B, R = B ++ [',']) (hW : ∀ c ∈ W, xjson_is_space c = true)
    (hcl1 : cl ≠ ',') (hcl2 : xjson_is_space cl = false) :
    (Rd j ('}' :: sep_tail R (W ++ cl :: S)) post →
      Rd (xjson_object_end j) (skip_ws (R.dropLast ++ (W ++ cl :: S))) post)
    ∧ (Rd j (']' :: sep_tail R (W ++ cl :: S)) post →
      Rd (xjson_array_end j) (skip_ws (R.dropLast ++ (W ++ cl :: S))) post) := by
  constructor
  · intro h
    have h' := Rd_intendation h (j.intendation - 1)
    have h1 : Rd (adv { j with intendation := j.intendation - 1 } 1)
        (sep_tail R (W ++ cl :: S)) post := Rd_adv (X := ['}']) h'
    obtain ⟨k, htry, h2⟩ := after_value hR hW hcl1 hcl2 h1
    rw [object_end_read_eq j h.1, if_neg (by rw [h.2.1]; simp), expect_Rd h', ← adv_adv, htry]
    exact h2
  · intro h
    have h' := Rd_intendation h (j.intendation - 1)
    have h1 : Rd (adv { j with intendation := j.intendation - 1 } 1)
        (sep_tail R (W ++ cl :: S)) post := Rd_adv (X := [']']) h'
    obtain ⟨k, htry, h2⟩ := after_value hR hW hcl1 hcl2 h1
    rw [array_end_read_eq j h.1, if_neg (by rw [h.2.1]; simp), expect_Rd h', ← adv_adv, htry]
    exact h2

theorem render_scalar_text (pp : Bool) (d : Nat) (key : Option (List Char)) (V R X : List Char)
    (hR : R = [] ∨ ∃ B, R = B ++ [',']) :
    (nl pp d ++ key_text key ++ V ++ [','] ++ R).dropLast ++ X
      = nl pp d ++ (key_text key ++ (V ++ sep_tail R X)) := by
  rw [dropLast_render_cons _ R X hR]
  simp [List.append_assoc]

theorem render_container_text (pp : Bool) (d : Nat) (key : Option (List Char)) (c c' : Char)
    (B R X : List Char) (hR : R = [] ∨ ∃ B, R = B ++ [',']) :
    (key_nl pp d key ++ key_text key ++ [c] ++ B ++ nl pp d ++ [c', ','] ++ R).dropLast ++ X
      = key_nl pp d key ++ (key_text key ++ c :: (B ++ (nl pp d ++ c' :: sep_tail R X))) := by
  have := dropLast_render_cons (key_nl pp d key ++ key_text key ++ [c] ++ B ++ nl pp d ++ [c']) R X hR
  have h2 : key_nl pp d key ++ key_text key ++ [c] ++ B ++ nl pp d ++ [c', ','] ++ R
      = key_nl pp d key ++ key_text key ++ [c] ++ B ++ nl pp d ++ [c'] ++ [','] ++ R := by
    simp [List.append_assoc]
  rw [h2, this]
  simp [List.append_assoc]

theorem loop_next_ne_none {lp : Option (Int × Int)} (h : loop_next lp ≠ none) : lp ≠ none := by
  cases lp with
  | none => exact absurd rfl h
  | some p => simp

/-- A read traversal over the text that a write traversal of `t` has
produced, with the same calls: it returns without error, runs every loop body
once per element, leaves `read_back t` in the caller's variables, and leaves
the cursor on the closing delimiter that follows the children. -/
theorem run_read (pp : Bool) : ∀ (t t0 : Trav) (io : Bool) (lp : Option (Int × Int)) (j : xjson)
    (d : Nat) (W S post : List Char) (cl : Char),
    wf_seq io t = true → same_calls t t0 = true → (∀ c ∈ W, xjson_is_space c = true) →
    cl ≠ ',' → xjson_is_space cl = false → isdigit cl = false → (lp ≠ none → cl = ']') →
    Rd j (skip_ws ((render pp d t).dropLast ++ (W ++ cl :: S))) post →
    ∃ j', run t0 lp j = some (j', read_back t, true) ∧ Rd j' (cl :: S) post := by
  intro t
  induction t with
  | done =>
    intro t0 io lp j d W S post cl _ hs hW hcl1 hcl2 _ hlp h
    cases t0 <;> simp only [same_calls, Bool.false_eq_true] at hs
    simp only [render, List.dropLast_nil, List.nil_append] at h
    rw [skip_ws_ws_append hW, skip_ws_cons_not_space cl S hcl2] at h
    refine ⟨j, ?_, h⟩
    cases lp with
    | none => rfl
    | some p =>
      have hc := hlp (by simp)
      subst hc
      simp [run, read_back, xjson_array_reached_end, h.1, load_Rd h]
  | int key type val rest ih =>
    intro t0 io lp j d W S post cl hwf hs hW hcl1 hcl2 hcl3 hlp h
    cases t0 <;> simp only [same_calls, Bool.false_eq_true] at hs
    rename_i key0 type0 val0 rest0
    simp only [Bool.and_eq_true, decide_eq_true_eq] at hs
    obtain ⟨⟨hkey, htype⟩, hrest⟩ := hs
    subst hkey htype
    simp only [wf_seq, Bool.and_eq_true] at hwf
    simp only [render] at h
    rw [render_scalar_text pp d key _ _ _ (render_tail pp rest d)] at h
    obtain ⟨hstop, j1, hacc, h1⟩ := integer_item_Rd hwf.1 (render_tail pp rest d) (nl_space pp d)
      hW hcl1 hcl2 hcl3 h lp val0 type
    obtain ⟨j', hr, h'⟩ := ih rest0 io (loop_next lp) j1 d W S post cl hwf.2 hrest hW hcl1 hcl2
      hcl3 (fun hn => hlp (loop_next_ne_none hn)) h1
    exact ⟨j', by simp [run, hstop, hacc, hr, read_back], h'⟩
  | float key val rest _ =>
    intro t0 io lp j d W S post cl hwf
    simp [wf_seq] at hwf
  | double key val rest _ =>
    intro t0 io lp j d W S post cl hwf
    simp [wf_seq] at hwf
  | bool key val rest ih =>
    intro t0 io lp j d W S post cl hwf hs hW hcl1 hcl2 hcl3 hlp h
    cases t0 <;> simp only [same_calls, Bool.false_eq_true] at hs
    rename_i key0 val0 rest0
    simp only [Bool.and_eq_true, decide_eq_true_eq] at hs
    obtain ⟨hkey, hrest⟩ := hs
    subst hkey
    simp only [wf_seq, Bool.and_eq_true] at hwf
    simp only [render] at h
    rw [render_scalar_text pp d key _ _ _ (render_tail pp rest d)] at h
    obtain ⟨hstop, j1, hacc, h1⟩ := bool_item_Rd hwf.1 (render_tail pp rest d) (nl_space pp d)
      hW hcl1 hcl2 h lp val0
    obtain ⟨j', hr, h'⟩ := ih rest0 io (loop_next lp) j1 d W S post cl hwf.2 hrest hW hcl1 hcl2
      hcl3 (fun hn => hlp (loop_next_ne_none hn)) h1
    exact ⟨j', by simp [run, hstop, hacc, hr, read_back], h'⟩
  | string key str rest _ =>
    intro t0 io lp j d W S post cl hwf
    simp [wf_seq] at hwf
  | object key body rest ihb ih =>
    intro t0 io lp j d W S post cl hwf hs hW hcl1 hcl2 hcl3 hlp h
    cases t0 <;> simp only [same_calls, Bool.false_eq_true] at hs
    rename_i key0 body0 rest0
    simp only [Bool.and_eq_true, decide_eq_true_eq] at hs
    obtain ⟨⟨hkey, hbody⟩, hrest⟩ := hs
    subst hkey
    simp only [wf_seq, Bool.and_eq_true] at hwf
    obtain ⟨⟨hk, hwb⟩, hwr⟩ := hwf
    simp only [render] at h
    rw [render_container_text pp d key '{' '}' _ _ _ (render_tail pp rest d)] at h
    obtain ⟨hstop, j1, hbeg, h1⟩ := (begin_Rd hk (key_nl_space pp d key) lp).1 h
    obtain ⟨jb, hrb, hb⟩ := ihb body0 true none j1 (d + 1) (nl pp d)
      (sep_tail (render pp d rest) (W ++ cl :: S)) post '}' hwb hbody (nl_space pp d)
      (by decide) (by decide) (by decide) (fun hn => absurd rfl hn) h1
    have h2 := (end_Rd (render_tail pp rest d) hW hcl1 hcl2).1 hb
    obtain ⟨j', hr, h'⟩ := ih rest0 io (loop_next lp) (xjson_object_end jb) d W S post cl hwr
      hrest hW hcl1 hcl2 hcl3 (fun hn => hlp (loop_next_ne_none hn)) h2
    exact ⟨j', by simp [run, hstop, hbeg, hrb, hr, read_back], h'⟩
  | array key body rest ihb ih =>
    intro t0 io lp j d W S post cl hwf hs hW hcl1 hcl2 hcl3 hlp h
    cases t0 <;> simp only [same_calls, Bool.false_eq_true] at hs
    rename_i key0 body0 rest0
    simp only [Bool.and_eq_true, decide_eq_true_eq] at hs
    obtain ⟨⟨hkey, hbody⟩, hrest⟩ := hs
    subst hkey
    simp only [wf_seq, Bool.and_eq_true] at hwf
    obtain ⟨⟨hk, hwb⟩, hwr⟩ := hwf
    simp only [render] at h
    rw [render_container_text pp d key '[' ']' _ _ _ (render_tail pp rest d)] at h
    obtain ⟨hstop, j1, hbeg, h1⟩ := (begin_Rd hk (key_nl_space pp d key) lp).2 h
    obtain ⟨jb, hrb, hb⟩ := ihb body0 false (some (0, (body0.count : Int))) j1 (d + 1) (nl pp d)
      (sep_tail (render pp d rest) (W ++ cl :: S)) post ']' hwb hbody (nl_space pp d)
      (by decide) (by decide) (by decide) (fun _ => rfl) h1
    have h2 := (end_Rd (render_tail pp rest d) hW hcl1 hcl2).2 hb
    obtain ⟨j', hr, h'⟩ := ih rest0 io (loop_next lp) (xjson_array_end jb) d W S post cl hwr
      hrest hW hcl1 hcl2 hcl3 (fun hn => hlp (loop_next_ne_none hn)) h2
    exact ⟨j', by simp [run, hstop, hbeg, hrb, hr, read_back], h'⟩

/-! ### Reading a root container -/

theorem root_object_read (pp : Bool) (body body0 : Trav) (j : xjson) (post : List Char)
    (hwf : wf_seq true body = true) (hs : same_calls body body0 = true)
    (h : Rd j ('{' :: ((render pp 1 body).dropLast ++ (nl pp 0 ++ ['}']))) post) :
    ∃ j', run (.object none body0 .done) none j
        = some (j', .object none (read_back body) .done, true)
      ∧ Rd j' [] post := by
  have h0 : Rd j (skip_ws ([] ++ (key_text none ++ '{' ::
      ((render pp 1 body).dropLast ++ (nl pp 0 ++ ['}']))))) post := by
    rw [show ([] : List Char) ++ (key_text none ++ '{' ::
      ((render pp 1 body).dropLast ++ (nl pp 0 ++ ['}'])))
        = '{' :: ((render pp 1 body).dropLast ++ (nl pp 0 ++ ['}'])) from rfl,
      skip_ws_cons_not_space _ _ (by decide)]
    exact h
  obtain ⟨_, j1, hbeg, h1⟩ := (@begin_Rd j false none [] _ post (by decide)
    (by simp) none).1 h0
  obtain ⟨jb, hrb, hb⟩ := run_read pp body body0 true none j1 1 (nl pp 0) [] post '}' hwf hs
    (nl_space pp 0) (by decide) (by decide) (by decide) (fun hn => absurd rfl hn) h1
  have hb' := Rd_intendation hb (jb.intendation - 1)
  have h2 : Rd (adv { jb with intendation := jb.intendation - 1 } 1) [] post :=
    Rd_adv (X := ['}']) hb'
  refine ⟨adv { jb with intendation := jb.intendation - 1 } 1, ?_, h2⟩
  have hend : xjson_object_end jb = adv { jb with intendation := jb.intendation - 1 } 1 := by
    rw [object_end_read_eq jb hb.1, if_neg (by rw [hb.2.1]; simp), expect_Rd hb']
    have : ws_len [] = 0 := rfl
    rw [this, try_end_Rd h2]
  simp [run, loop_stops, loop_next, hbeg, hrb, hend]

theorem root_array_read (pp : Bool) (body body0 : Trav) (j : xjson) (post : List Char)
    (hwf : wf_seq false body = true) (hs : same_calls body body0 = true)
    (h : Rd j ('[' :: ((render pp 1 body).dropLast ++ (nl pp 0 ++ [']', ',']))) post) :
    ∃ j', run (.array none body0 .done) none j
        = some (j', .array none (read_back body) .done, true)
      ∧ Rd j' [] post := by
  have h0 : Rd j (skip_ws ([] ++ (key_text none ++ '[' ::
      ((render pp 1 body).dropLast ++ (nl pp 0 ++ [']', ',']))))) post := by
    rw [show ([] : List Char) ++ (key_text none ++ '[' ::
      ((render pp 1 body).dropLast ++ (nl pp 0 ++ [']', ','])))
        = '[' :: ((render pp 1 body).dropLast ++ (nl pp 0 ++ [']', ','])) from rfl,
      skip_ws_cons_not_space _ _ (by decide)]
    exact h
  obtain ⟨_, j1, hbeg, h1⟩ := (@begin_Rd j false none [] _ post (by decide)
    (by simp) none).2 h0
  obtain ⟨jb, hrb, hb⟩ := run_read pp body body0 false (some (0, (body0.count : Int))) j1 1
    (nl pp 0) [','] post ']' hwf hs (nl_space pp 0) (by decide) (by decide) (by decide)
    (fun _ => rfl) h1
  have hb' := Rd_intendation hb (jb.intendation - 1)
  have h2 : Rd (adv { jb with intendation := jb.intendation - 1 } 1) [','] post :=
    Rd_adv (X := [']']) hb'
  have h3 : Rd (adv (adv { jb with intendation := jb.intendation - 1 } 1) 1) [] post :=
    Rd_adv (X := [',']) h2
  refine ⟨adv (adv { jb with intendation := jb.intendation - 1 } 1) 1, ?_, h3⟩
  have hend : xjson_array_end jb
      = adv (adv { jb with intendation := jb.intendation - 1 } 1) 1 := by
    rw [array_end_read_eq jb hb.1, if_neg (by rw [hb.2.1]; simp), expect_Rd hb']
    have : ws_len [','] = 0 := rfl
    rw [this, try_hit_Rd h2]
    rfl
  simp [run, loop_stops, loop_next, hbeg, hrb, hend]

theorem Wr_setup_write (pp : Bool) (mem : List Char) (len : Nat) (hlen : len ≤ mem.length) :
    Wr (xjson_setup_write (xjson_zero mem) pp 0 len) [] pp 0 := by
  refine ⟨rfl, rfl, rfl, rfl, rfl, by simp, ?_⟩
  show 0 + len ≤ mem.length
  omega

theorem Rd_of_written (mem E : List Char) (h : mem.take E.length = E) :
    Rd (xjson_setup_read (xjson_zero mem) 0 E.length) E (mem.drop E.length) := by
  refine ⟨rfl, rfl, ?_, rfl⟩
  show mem.drop 0 = E ++ mem.drop E.length
  have := List.take_append_drop E.length mem
  rw [h] at this
  rw [this]
  rfl

/-! ### C9 -/

theorem same_calls_done {t0 : Trav} (h : same_calls .done t0 = true) : t0 = .done := by
  cases t0 <;> simp [same_calls] at h
  rfl

/-- C9: for every well-nested traversal `t` (a root object or array; objects
with keyed children, arrays with unkeyed children under the loop guard,
integer and boolean scalars; keys without quote, white space or NUL), with or
without pretty printing, into any buffer whose declared capacity lies inside
it: the write traversal returns, and if it ends without error then the same
calls `t0` in read mode over the text written (from `start` to the final
cursor) return with error unset, every array loop having run its body exactly
once per element, and with the cursor at `end`.  The caller's variables then
hold `read_back t`. -/
theorem c9_symmetry (t t0 : Trav) (pp : Bool) (mem : List Char) (len : Nat)
    (hwf : wf_root t = true) (hs : same_calls t t0 = true) (hlen : len ≤ mem.length) :
    ∃ w, write_traversal t pp mem len = some (w, t, true)
      ∧ (w.error = false →
          ∃ r, write_then_read t t0 pp mem len = some (r, read_back t, true)
            ∧ r.error = false ∧ r.current = r.end_) := by
  have hw0 := Wr_setup_write pp mem len hlen
  unfold wf_root at hwf
  split at hwf
  · rename_i body
    obtain ⟨jw, hrun, hE⟩ := object_write pp none body _ [] 0 hw0
    refine ⟨jw, hrun, fun he => ?_⟩
    obtain ⟨hwr, _⟩ := (hE he).2 rfl
    have hstart : jw.start = 0 := (Frame_run _ _ _ _ hrun).2.1
    cases t0 <;> simp only [same_calls, Bool.false_eq_true] at hs
    rename_i key0 body0 rest0
    simp only [Bool.and_eq_true, decide_eq_true_eq] at hs
    obtain ⟨⟨hkey, hbody⟩, hrest⟩ := hs
    subst hkey
    have hrest0 := same_calls_done hrest
    subst hrest0
    have hEeq : ([] : List Char) ++ key_nl pp 0 none ++ key_text none ++ '{' ::
        (render pp (0 + 1) body).dropLast ++ nl pp 0 ++ ['}']
        = '{' :: ((render pp 1 body).dropLast ++ (nl pp 0 ++ ['}'])) := by
      simp [key_nl, key_text]
    rw [hEeq] at hwr
    have hrd := Rd_of_written jw.mem _ hwr.2.2.2.2.2.1
    obtain ⟨j', hr, h'⟩ := root_object_read pp body body0 _ _ hwf hbody hrd
    refine ⟨j', ?_, h'.2.1, by simpa using h'.2.2.2⟩
    unfold write_then_read write_traversal
    rw [hrun]
    simp only [Option.some_bind, read_traversal]
    rw [hstart, Nat.sub_zero, hwr.2.2.2.2.1, hr]
    rfl
  · rename_i body
    obtain ⟨jw, hrun, hE⟩ := array_write pp none body _ [] 0 hw0
    refine ⟨jw, hrun, fun he => ?_⟩
    have hwr := hE he
    have hstart : jw.start = 0 := (Frame_run _ _ _ _ hrun).2.1
    cases t0 <;> simp only [same_calls, Bool.false_eq_true] at hs
    rename_i key0 body0 rest0
    simp only [Bool.and_eq_true, decide_eq_true_eq] at hs
    obtain ⟨⟨hkey, hbody⟩, hrest⟩ := hs
    subst hkey
    have hrest0 := same_calls_done hrest
    subst hrest0
    have hEeq : ([] : List Char) ++ key_nl pp 0 none ++ key_text none ++ '[' ::
        (render pp (0 + 1) body).dropLast ++ nl pp 0 ++ [']'] ++ [',']
        = '[' :: ((render pp 1 body).dropLast ++ (nl pp 0 ++ [']', ','])) := by
      simp [key_nl, key_text]
    rw [hEeq] at hwr
    have hrd := Rd_of_written jw.mem _ hwr.2.2.2.2.2.1
    obtain ⟨j', hr, h'⟩ := root_array_read pp body body0 _ _ hwf hbody hrd
    refine ⟨j', ?_, h'.2.1, by simpa using h'.2.2.2⟩
    unfold write_then_read write_traversal
    rw [hrun]
    simp only [Option.some_bind, read_traversal]
    rw [hstart, Nat.sub_zero, hwr.2.2.2.2.1, hr]
    rfl
  · exact absurd hwf (by simp)

/-- C9 at a concrete input: `example_root`, pretty printed into a 64 byte
buffer, read back with the calls of `example_root_blank`. -/
theorem c9_symmetry_witness :
    (wf_root example_root = true ∧ same_calls example_root example_root_blank = true
      ∧ 64 ≤ (List.replicate 64 '#').length)
    ∧ ∃ w, write_traversal example_root true (List.replicate 64 '#') 64
        = some (w, example_root, true)
      ∧ (w.error = false →
          ∃ r, write_then_read example_root example_root_blank true (List.replicate 64 '#') 64
              = some (r, read_back example_root, true)
            ∧ r.error = false ∧ r.current = r.end_) :=
  ⟨by decide, c9_symmetry example_root example_root_blank true (List.replicate 64 '#') 64
    (by decide) (by decide) (by decide)⟩

/-! ### The array loop predicate, the cursor bounds, termination -/

/-- At `end` the cursor does not move and no error is raised: when the byte
there is not a double quote, the scan loop makes no progress, whatever the
number of iterations. -/
theorem scan_stuck : ∀ (fuel : Nat) (j : xjson), j.error = false → j.current = j.end_ →
    load j.mem j.current ≠ '"' → scan_to_quote fuel j = none := by
  intro fuel
  induction fuel with
  | zero => intro j _ _ _; rfl
  | succ n ih =>
    intro j he hc hq
    unfold scan_to_quote
    rw [if_neg hq]
    have h1 : xjson_consume j = (j, '\x00') := by
      unfold xjson_consume
      rw [he]
      simp [hc]
    simp only [h1, he]
    exact ih j he hc hq

/-- **C12** The cursor passes `end`.  Write mode, a 4 byte buffer declared with
its 4 bytes: after `object_begin(NULL)` and `u32(NULL)` with the value 123456
the cursor is at offset 8, past `end = 4`.  Read mode, a buffer declared with
the first byte of the memory `12`: `u8(NULL)` parses `12`, raises no error and
leaves the cursor at offset 2, past `end = 1`. -/
theorem c12_cursor_passes_end :
    (((xjson_object_begin (xjson_setup_write (xjson_zero (List.replicate 4 '#')) false 0 4)
        none).bind fun j => xjson_u32 j none 123456).map
      fun r => (r.1.start, r.1.current, r.1.end_)) = some (0, 8, 4)
    ∧ ((xjson_u8 (xjson_setup_read (xjson_zero "12".toList) 0 1) none 0).map
      fun r => (r.1.start, r.1.current, r.1.end_, r.1.error, r.2)) = some (0, 2, 1, false, 12) := by
  decide

/-- **C13** A read-mode accessor that does not return.  Over the document
`{"a`, after `object_begin(NULL)`, the scan of `xjson_expect_key` for the
closing quote of the key has not ended after any number of iterations, and
`u8("a")` does not return; over `{"a":"b` the same holds for the scan of
`xjson_expect_and_parse_string` in `string("a")`. -/
theorem c13_scan_never_ends :
    xjson_object_begin (xjson_setup_read (xjson_zero "\x7b\"a".toList) 0 3) none
        = some unterminated_key_context
      ∧ (∀ fuel, scan_to_quote fuel (xjson_expect unterminated_key_context '"') = none)
      ∧ xjson_expect_key unterminated_key_context ['a'] = none
      ∧ xjson_u8 unterminated_key_context (some ['a']) 0 = none
      ∧ xjson_expect_and_parse_string
          ((xjson_expect_key unterminated_string_context ['a']).getD unterminated_string_context) []
          = none
      ∧ xjson_string unterminated_string_context (some ['a']) [] = none := by
  refine ⟨by decide, ?_, by decide, by decide, by decide, by decide⟩
  intro fuel
  cases fuel with
  | zero => rfl
  | succ n =>
    have h0 : xjson_expect unterminated_key_context '"'
        = { unterminated_key_context with current := 2 } := by decide
    have h1 : (xjson_consume { unterminated_key_context with current := 2 }).1
        = { unterminated_key_context with current := 3 } := by decide
    rw [h0]
    unfold scan_to_quote
    rw [if_neg (by decide), h1]
    simp only []
    rw [if_neg (by decide)]
    exact scan_stuck n _ (by decide) (by decide) (by decide)

/-- **C19** The value `xjson_consume` returns at `end` is the byte stored at
`end`.  Over the memory `ab` declared with its first byte, from the cursor at
offset 0 (error unset, cursor below `end`) it stops at `end` and returns `b`,
not 0; over the memory `ac` it returns `c`; over the memory `a` followed by a
blank it returns 0. -/
theorem c19_consume_reads_end :
    (fun r : xjson × Char => (r.1.current, r.1.end_, r.1.error, r.2))
        (xjson_consume (xjson_setup_read (xjson_zero "ab".toList) 0 1)) = (1, 1, false, 'b')
      ∧ (fun r : xjson × Char => (r.1.current, r.1.end_, r.1.error, r.2))
        (xjson_consume (xjson_setup_read (xjson_zero "ac".toList) 0 1)) = (1, 1, false, 'c')
      ∧ (fun r : xjson × Char => (r.1.current, r.1.end_, r.1.error, r.2))
        (xjson_consume (xjson_setup_read (xjson_zero "a ".toList) 0 1)) = (1, 1, false, '\x00') := by
  decide

/-! ### Invalid integers, latched errors -/

theorem drop_length_takeWhile (p : Char → Bool) : ∀ l : List Char,
    l.drop (l.takeWhile p).length = l.dropWhile p := by
  intro l
  induction l with
  | nil => rfl
  | cons c l ih =>
    by_cases h : p c = true
    · rw [List.takeWhile_cons_of_pos h, List.dropWhile_cons_of_pos h]
      exact ih
    · rw [List.takeWhile_cons_of_neg h, List.dropWhile_cons_of_neg h]
      rfl

theorem SameIndent_refl (j : xjson) : SameIndent j j := rfl

theorem SameIndent_trans {a b c : xjson} (h1 : SameIndent a b) (h2 : SameIndent b c) :
    SameIndent a c :=
  Eq.trans h2 h1

theorem SameIndent_error (j : xjson) (m : List Char) : SameIndent j (xjson_error j m) := by
  unfold xjson_error; split <;> exact rfl

theorem SameIndent_consume_loop : ∀ (fuel : Nat) (j : xjson), SameIndent j (consume_loop fuel j).1 := by
  intro fuel
  induction fuel with
  | zero => intro j; exact SameIndent_refl j
  | succ fuel ih =>
    intro j
    unfold consume_loop
    split
    · split
      · exact SameIndent_refl j
      · exact SameIndent_trans rfl (ih _)
    · exact SameIndent_refl j

theorem SameIndent_consume (j : xjson) : SameIndent j (xjson_consume j).1 := by
  unfold xjson_consume
  split
  · exact SameIndent_refl j
  · split
    · exact SameIndent_refl j
    · exact SameIndent_trans rfl (SameIndent_consume_loop _ _)

theorem SameIndent_try (j : xjson) (c : Char) : SameIndent j (xjson_try j c) := by
  unfold xjson_try
  split
  · exact SameIndent_refl j
  · split
    · exact SameIndent_consume j
    · exact SameIndent_refl j

theorem SameIndent_expect (j : xjson) (c : Char) : SameIndent j (xjson_expect j c) := by
  unfold xjson_expect
  split
  · exact SameIndent_refl j
  · split
    · exact SameIndent_error j _
    · exact SameIndent_consume j

theorem SameIndent_expect_token (j : xjson) (tok : List Char) (n : Nat) :
    SameIndent j (xjson_expect_token j tok n) := by
  unfold xjson_expect_token
  split
  · exact SameIndent_refl j
  · split
    · exact SameIndent_error j _
    · simp only
      split
      · exact SameIndent_trans rfl (SameIndent_consume _)
      · exact rfl

theorem SameIndent_scan : ∀ (fuel : Nat) (j r : xjson), scan_to_quote fuel j = some r → SameIndent j r := by
  intro fuel
  induction fuel with
  | zero => intro j r h; simp [scan_to_quote] at h
  | succ fuel ih =>
    intro j r h
    unfold scan_to_quote at h
    split at h
    · cases h; exact SameIndent_refl j
    · simp only at h
      split at h
      · cases h; exact SameIndent_consume j
      · exact SameIndent_trans (SameIndent_consume j) (ih _ _ h)

theorem SameIndent_expect_key (j r : xjson) (k : List Char) (h : xjson_expect_key j k = some r) :
    SameIndent j r := by
  unfold xjson_expect_key at h
  simp only at h
  split at h
  · cases h; exact SameIndent_expect j _
  · split at h
    · exact absurd h (by simp)
    · rename_i j2 hs
      have h2 := SameIndent_trans (SameIndent_expect j '"') (SameIndent_scan _ _ _ hs)
      split at h
      · cases h; exact h2
      · split at h
        · cases h; exact SameIndent_trans h2 (SameIndent_error _ _)
        · cases h; exact SameIndent_trans h2 (SameIndent_trans (SameIndent_expect _ _) (SameIndent_expect _ _))

theorem SameIndent_parse_int (j : xjson) (out : Int) : SameIndent j (xjson_expect_and_parse_int j out).1 := by
  unfold xjson_expect_and_parse_int
  split
  · exact SameIndent_refl j
  · simp only
    split
    · exact SameIndent_error j _
    · split
      · exact SameIndent_trans rfl (SameIndent_consume _)
      · exact rfl

theorem SameIndent_parse_double (j : xjson) (out : fval) :
    SameIndent j (xjson_expect_and_parse_double j out).1 := by
  unfold xjson_expect_and_parse_double
  split
  · exact SameIndent_refl j
  · simp only
    split
    · exact SameIndent_error j _
    · split
      · exact SameIndent_trans rfl (SameIndent_consume _)
      · exact rfl

theorem SameIndent_parse_bool (j : xjson) (val : Bool) :
    SameIndent j (xjson_expect_and_parse_bool j val).1 := by
  unfold xjson_expect_and_parse_bool
  split
  · exact SameIndent_refl j
  · split
    · exact SameIndent_expect_token j _ _
    · split
      · exact SameIndent_expect_token j _ _
      · exact SameIndent_error j _

theorem SameIndent_parse_string (j : xjson) (str : List Char) (r : xjson × List Char)
    (h : xjson_expect_and_parse_string j str = some r) : SameIndent j r.1 := by
  unfold xjson_expect_and_parse_string at h
  simp only at h
  split at h
  · cases h; exact SameIndent_expect j _
  · split at h
    · exact absurd h (by simp)
    · rename_i j2 hs
      have h2 := SameIndent_trans (SameIndent_expect j '"') (SameIndent_scan _ _ _ hs)
      split at h
      · cases h; exact h2
      · cases h
        exact SameIndent_trans h2 (SameIndent_trans rfl (SameIndent_expect _ _))

theorem SameIndent_print_token (j : xjson) (tok : List Char) (n : Nat) :
    SameIndent j (xjson_print_token j tok n) := by
  unfold xjson_print_token
  split
  · exact SameIndent_refl j
  · simp only
    split
    · exact SameIndent_trans (SameIndent_error j _) rfl
    · exact rfl

theorem SameIndent_print_key (j : xjson) (k : List Char) : SameIndent j (xjson_print_key j k) := by
  unfold xjson_print_key
  split
  · exact SameIndent_refl j
  · exact SameIndent_trans (SameIndent_trans (SameIndent_trans (SameIndent_print_token _ _ _) (SameIndent_print_token _ _ _))
      (SameIndent_print_token _ _ _)) (SameIndent_print_token _ _ _)

theorem SameIndent_print_tabs : ∀ (n : Nat) (j : xjson), SameIndent j (print_tabs n j) := by
  intro n
  induction n with
  | zero => intro j; exact SameIndent_refl j
  | succ n ih => intro j; exact SameIndent_trans (SameIndent_print_token j _ _) (ih _)

theorem SameIndent_print_new_line (j : xjson) : SameIndent j (xjson_print_new_line j) := by
  unfold xjson_print_new_line
  split
  · exact SameIndent_refl j
  · exact SameIndent_trans (SameIndent_print_token j _ _) (SameIndent_print_tabs _ _)

theorem SameIndent_nl (j : xjson) :
    SameIndent j (if j.pretty_print then xjson_print_new_line j else j) := by
  split
  · exact SameIndent_print_new_line j
  · exact SameIndent_refl j

theorem SameIndent_write_scalar (j : xjson) (key : Option (List Char)) (text : List Char) :
    SameIndent j (write_scalar j key text) := by
  unfold write_scalar
  have h1 := SameIndent_nl j
  cases key with
  | none => exact SameIndent_trans (SameIndent_trans h1 rfl) (SameIndent_print_token _ _ _)
  | some k =>
    exact SameIndent_trans (SameIndent_trans (SameIndent_trans h1 (SameIndent_print_key _ k)) rfl)
      (SameIndent_print_token _ _ _)

theorem SameIndent_read_key (j r : xjson) (key : Option (List Char)) (h : read_key j key = some r) :
    SameIndent j r := by
  cases key with
  | none => cases h; exact SameIndent_refl j
  | some k => exact SameIndent_expect_key j r k h

theorem SameIndent_integer (j : xjson) (key : Option (List Char)) (val : Int) (type : xjson_int_type)
    (r : xjson × Int) (h : xjson_integer j key val type = some r) : SameIndent j r.1 := by
  unfold xjson_integer at h
  split at h
  · simp only [Option.map_eq_some'] at h
    obtain ⟨j1, hk, hr⟩ := h
    subst hr
    have h1 := SameIndent_trans (SameIndent_read_key j j1 key hk) (SameIndent_parse_int j1 0)
    split
    · exact h1
    · exact SameIndent_trans h1 (SameIndent_try _ _)
  · cases h; exact SameIndent_write_scalar j key _

theorem SameIndent_float (j : xjson) (key : Option (List Char)) (val : fval)
    (r : xjson × fval) (h : xjson_float j key val = some r) : SameIndent j r.1 := by
  unfold xjson_float at h
  split at h
  · simp only [Option.map_eq_some'] at h
    obtain ⟨j1, hk, hr⟩ := h
    subst hr
    exact SameIndent_trans (SameIndent_trans (SameIndent_read_key j j1 key hk) (SameIndent_parse_double j1 _))
      (SameIndent_try _ _)
  · cases h; exact SameIndent_write_scalar j key _

theorem SameIndent_double (j : xjson) (key : Option (List Char)) (val : fval)
    (r : xjson × fval) (h : xjson_double j key val = some r) : SameIndent j r.1 := by
  unfold xjson_double at h
  split at h
  · simp only [Option.map_eq_some'] at h
    obtain ⟨j1, hk, hr⟩ := h
    subst hr
    exact SameIndent_trans (SameIndent_trans (SameIndent_read_key j j1 key hk) (SameIndent_parse_double j1 _))
      (SameIndent_try _ _)
  · cases h; exact SameIndent_write_scalar j key _

theorem SameIndent_bool (j : xjson) (key : Option (List Char)) (val : Bool)
    (r : xjson × Bool) (h : xjson_bool j key val = some r) : SameIndent j r.1 := by
  unfold xjson_bool at h
  split at h
  · simp only [Option.map_eq_some'] at h
    obtain ⟨j1, hk, hr⟩ := h
    subst hr
    exact SameIndent_trans (SameIndent_trans (SameIndent_read_key j j1 key hk) (SameIndent_parse_bool j1 _))
      (SameIndent_try _ _)
  · cases h; exact SameIndent_write_scalar j key _

theorem SameIndent_string (j : xjson) (key : Option (List Char)) (str : List Char)
    (r : xjson × List Char) (h : xjson_string j key str = some r) : SameIndent j r.1 := by
  unfold xjson_string at h
  split at h
  · simp only [Option.bind_eq_some, Option.map_eq_some'] at h
    obtain ⟨j1, hk, r1, hs, hr⟩ := h
    subst hr
    exact SameIndent_trans (SameIndent_trans (SameIndent_read_key j j1 key hk) (SameIndent_parse_string j1 str r1 hs))
      (SameIndent_try _ _)
  · cases h; exact SameIndent_write_scalar j key _

theorem begin_read_intendation (j r : xjson) (key : Option (List Char)) (c : Char)
    (h : (match key with
      | some k =>
        (xjson_expect_key j k).map fun json1 =>
          { xjson_expect json1 c with intendation := (xjson_expect json1 c).intendation + 1 }
      | none =>
        some { xjson_expect j c with intendation := (xjson_expect j c).intendation + 1 }) = some r) :
    r.intendation = j.intendation + 1 := by
  cases key with
  | none =>
    cases h
    show (xjson_expect j c).intendation + 1 = _
    rw [SameIndent_expect j c]
  | some k =>
    simp only [Option.map_eq_some'] at h
    obtain ⟨j1, hk, hr⟩ := h
    subst hr
    show (xjson_expect j1 c).intendation + 1 = _
    rw [SameIndent_expect j1 c, SameIndent_expect_key j j1 k hk]

theorem begin_write_intendation (j : xjson) (key : Option (List Char)) (c : Char) :
    (write_begin c key j).intendation = j.intendation + 1 := by
  unfold write_begin
  cases key with
  | none =>
    show (xjson_print_token j [c] 1).intendation + 1 = _
    rw [SameIndent_print_token]
  | some k =>
    show (xjson_print_token _ [c] 1).intendation + 1 = _
    rw [SameIndent_print_token, SameIndent_print_key, SameIndent_nl]

/-- `xjson_object_begin`, entered without error, increments the indentation. -/
theorem object_begin_intendation (j r : xjson) (key : Option (List Char))
    (h : xjson_object_begin j key = some r) (he : j.error = false) :
    r.intendation = j.intendation + 1 := by
  by_cases hm : j.mode = XJSON_STATE_READ
  · unfold xjson_object_begin at h
    rw [he] at h
    simp only [Bool.false_eq_true, if_false, hm, if_true] at h
    exact begin_read_intendation j r key '{' h
  · have : xjson_object_begin j key = some (write_begin '{' key j) := by
      unfold xjson_object_begin write_begin
      simp [hm, he]
    rw [this] at h
    cases h
    exact begin_write_intendation j key '{'

/-- `xjson_array_begin`, entered without error, increments the indentation. -/
theorem array_begin_intendation (j r : xjson) (key : Option (List Char))
    (h : xjson_array_begin j key = some r) (he : j.error = false) :
    r.intendation = j.intendation + 1 := by
  by_cases hm : j.mode = XJSON_STATE_READ
  · unfold xjson_array_begin at h
    rw [he] at h
    simp only [Bool.false_eq_true, if_false, hm, if_true] at h
    exact begin_read_intendation j r key '[' h
  · have : xjson_array_begin j key = some (write_begin '[' key j) := by
      unfold xjson_array_begin write_begin
      simp [hm, he]
    rw [this] at h
    cases h
    exact begin_write_intendation j key '['

theorem write_end_intendation (c c' : Char) (j : xjson) :
    (write_end c c' j).intendation = j.intendation - 1 := by
  unfold write_end
  rw [SameIndent_print_token, SameIndent_print_token, SameIndent_nl]
  unfold retract
  split <;> rfl

theorem terminate_root_intendation (j : xjson) : (terminate_root j).intendation = j.intendation := by
  unfold terminate_root
  split <;> rfl

/-- `xjson_object_end`, entered without error, decrements the indentation. -/
theorem object_end_intendation (j : xjson) (he : j.error = false) :
    (xjson_object_end j).intendation = j.intendation - 1 := by
  by_cases hm : j.mode = XJSON_STATE_READ
  · rw [object_end_read_eq j hm, he]
    simp only [Bool.false_eq_true, if_false]
    rw [SameIndent_try, SameIndent_expect]
  · have : xjson_object_end j = terminate_root (write_end '{' '}' j) := by
      unfold xjson_object_end write_end retract terminate_root
      simp only [he, hm, Bool.false_eq_true, if_false]
    rw [this, terminate_root_intendation, write_end_intendation]

/-- `xjson_array_end`, entered without error, decrements the indentation. -/
theorem array_end_intendation (j : xjson) (he : j.error = false) :
    (xjson_array_end j).intendation = j.intendation - 1 := by
  by_cases hm : j.mode = XJSON_STATE_READ
  · rw [array_end_read_eq j hm, he]
    simp only [Bool.false_eq_true, if_false]
    rw [SameIndent_try, SameIndent_expect]
  · have : xjson_array_end j = write_end '[' ']' j := by
      unfold xjson_array_end write_end retract
      simp only [he, hm, Bool.false_eq_true, if_false]
    rw [this, write_end_intendation]

/-- One call, entered without error, changes the indentation by the change of
the nesting depth: plus one for a `begin`, minus one for an `end`, nothing for a scalar. -/
theorem step_intendation (j r : xjson) (op : Op) (h : step j op = some r) (he : j.error = false) :
    r.intendation = j.intendation + op.delta := by
  cases op with
  | object_begin key => exact object_begin_intendation j r key h he
  | object_end =>
    cases h
    rw [object_end_intendation j he]
    rfl
  | array_begin key => exact array_begin_intendation j r key h he
  | array_end =>
    cases h
    rw [array_end_intendation j he]
    rfl
  | integer key val type =>
    simp only [step, Option.map_eq_some'] at h
    obtain ⟨r1, h1, h2⟩ := h
    subst h2
    rw [SameIndent_integer j key val type r1 h1]
    exact (Int.add_zero _).symm
  | float key val =>
    simp only [step, Option.map_eq_some'] at h
    obtain ⟨r1, h1, h2⟩ := h
    subst h2
    rw [SameIndent_float j key val r1 h1]
    exact (Int.add_zero _).symm
  | double key val =>
    simp only [step, Option.map_eq_some'] at h
    obtain ⟨r1, h1, h2⟩ := h
    subst h2
    rw [SameIndent_double j key val r1 h1]
    exact (Int.add_zero _).symm
  | bool key val =>
    simp only [step, Option.map_eq_some'] at h
    obtain ⟨r1, h1, h2⟩ := h
    subst h2
    rw [SameIndent_bool j key val r1 h1]
    exact (Int.add_zero _).symm
  | string key str =>
    simp only [step, Option.map_eq_some'] at h
    obtain ⟨r1, h1, h2⟩ := h
    subst h2
    rw [SameIndent_string j key str r1 h1]
    exact (Int.add_zero _).symm

theorem steps_intendation : ∀ (ops : List Op) (j : xjson) (trace : List xjson),
    steps j ops = some trace → j.error = false → (∀ x ∈ trace, x.error = false) →
    trace.map (fun x => x.intendation) = depths j.intendation ops := by
  intro ops
  induction ops with
  | nil =>
    intro j trace h _ _
    cases h
    rfl
  | cons op ops ih =>
    intro j trace h he hall
    simp only [steps, Option.bind_eq_some, Option.map_eq_some'] at h
    obtain ⟨j1, h1, js, h2, h3⟩ := h
    subst h3
    have hj1 : j1.error = false := hall j1 (List.mem_cons_self _ _)
    have := ih j1 js h2 hj1 (fun x hx => hall x (List.mem_cons_of_mem _ hx))
    rw [List.map_cons, this, step_intendation j j1 op h1 he]
    rfl

theorem depths_nonneg : ∀ (ops : List Op) (d : Nat), well_nested d ops = true →
    ∀ x ∈ depths (d : Int) ops, 0 ≤ x := by
  intro ops
  induction ops with
  | nil => intro d _ x hx; cases hx
  | cons op ops ih =>
    intro d hw x hx
    cases op with
    | object_begin key =>
      simp only [depths, Op.delta, List.mem_cons] at hx
      rcases hx with hx | hx
      · omega
      · exact ih (d + 1) hw x (by simpa using hx)
    | array_begin key =>
      simp only [depths, Op.delta, List.mem_cons] at hx
      rcases hx with hx | hx
      · omega
      · exact ih (d + 1) hw x (by simpa using hx)
    | object_end =>
      simp only [well_nested, Bool.and_eq_true, decide_eq_true_eq] at hw
      simp only [depths, Op.delta, List.mem_cons] at hx
      have e : (d : Int) + -1 = ((d - 1 : Nat) : Int) := by omega
      rw [e] at hx
      rcases hx with hx | hx
      · omega
      · exact ih (d - 1) hw.2 x hx
    | array_end =>
      simp only [well_nested, Bool.and_eq_true, decide_eq_true_eq] at hw
      simp only [depths, Op.delta, List.mem_cons] at hx
      have e : (d : Int) + -1 = ((d - 1 : Nat) : Int) := by omega
      rw [e] at hx
      rcases hx with hx | hx
      · omega
      · exact ih (d - 1) hw.2 x hx
    | integer key val type =>
      simp only [depths, Op.delta, List.mem_cons, Int.add_zero] at hx
      rcases hx with hx | hx
      · omega
      · exact ih d hw x hx
    | float key val =>
      simp only [depths, Op.delta, List.mem_cons, Int.add_zero] at hx
      rcases hx with hx | hx
      · omega
      · exact ih d hw x hx
    | double key val =>
      simp only [depths, Op.delta, List.mem_cons, Int.add_zero] at hx
      rcases hx with hx | hx
      · omega
      · exact ih d hw x hx
    | bool key val =>
      simp only [depths, Op.delta, List.mem_cons, Int.add_zero] at hx
      rcases hx with hx | hx
      · omega
      · exact ih d hw x hx
    | string key str =>
      simp only [depths, Op.delta, List.mem_cons, Int.add_zero] at hx
      rcases hx with hx | hx
      · omega
      · exact ih d hw x hx

/-- **C14** A context without error at indentation 0 (as after the setup of a
zeroed context), in either mode, and a well-nested sequence of calls that runs
without latching an error: after each call the indentation is the nesting
depth, the number of containers opened and not yet closed (`depths`: each
`begin` adds one, each `end` subtracts one, a scalar accessor adds nothing).
Hence it is never negative, and it is 0 after a call exactly when every
container opened so far, the root included, is closed. -/
theorem c14_indentation (json : xjson) (ops : List Op) (trace : List xjson)
    (he : json.error = false) (hd : json.intendation = 0) (hw : well_nested 0 ops = true)
    (hr : steps json ops = some trace) (hall : ∀ x ∈ trace, x.error = false) :
    trace.map (fun x => x.intendation) = depths 0 ops
      ∧ (∀ x ∈ trace, 0 ≤ x.intendation)
      ∧ (∀ (op : Op) (j r : xjson), j.error = false → step j op = some r →
          r.intendation = j.intendation + op.delta) := by
  have h1 := steps_intendation ops json trace hr he hall
  rw [hd] at h1
  refine ⟨h1, ?_, fun op j r hj hs => step_intendation j r op hs hj⟩
  intro x hx
  have h2 : x.intendation ∈ trace.map (fun x => x.intendation) := List.mem_map_of_mem _ hx
  rw [h1] at h2
  exact depths_nonneg ops 0 hw _ h2
/-- **C14** (witness) The calls that read `{"a":1,"b":[true,-2],"c":{}}`:
the indentation after each of the nine calls. -/
theorem c14_indentation_witness :
    steps example_read_context example_ops = some example_trace
      ∧ example_trace.map (fun x => x.intendation) = [1, 1, 2, 2, 2, 1, 2, 1, 0]
      ∧ (∀ x ∈ example_trace, 0 ≤ x.intendation) :=
  have h := c14_indentation example_read_context example_ops example_trace (by decide) (by decide)
    (by decide) (by decide) (by decide)
  ⟨by decide, h.1.trans (by decide), h.2.1⟩

/-! ### The scans of `strtoll` and `strtod` -/

theorem takeWhile_append_head (p : Char → Bool) (A T : List Char)
    (hT : ∀ c, T.head? = some c → p c = false) : (A ++ T).takeWhile p = A.takeWhile p := by
  induction A with
  | nil =>
    cases T with
    | nil => rfl
    | cons c T => simp [List.takeWhile_cons, hT c rfl]
  | cons a A ih =>
    by_cases h : p a = true
    · rw [List.cons_append, List.takeWhile_cons_of_pos h, List.takeWhile_cons_of_pos h, ih]
    · rw [List.cons_append, List.takeWhile_cons_of_neg h, List.takeWhile_cons_of_neg h]

/-- The result of `strtoll` depends on the text from `nptr` on only. -/
theorem strtoll_drop (mem : List Char) (p : Nat) :
    strtoll mem p = ((strtoll (mem.drop p) 0).1, p + (strtoll (mem.drop p) 0).2) := by
  unfold strtoll
  simp only [List.drop_zero]
  split_ifs <;> first | rfl | (refine Prod.ext rfl ?_; simp only; omega)

/-- What follows a text that `strtoll` scans does not change the result when
it does not start with a digit. -/
theorem strtoll_append (c : Char) (V T : List Char) (hc : isspace c = false)
    (hT : ∀ x, T.head? = some x → isdigit x = false) :
    strtoll (c :: (V ++ T)) 0 = strtoll (c :: V) 0 := by
  unfold strtoll
  have h1 : (c :: (V ++ T)).takeWhile isspace = [] := by
    rw [List.takeWhile_cons_of_neg (by simp [hc])]
  have h2 : (c :: V).takeWhile isspace = [] := by
    rw [List.takeWhile_cons_of_neg (by simp [hc])]
  simp only [List.drop_zero, h1, h2, List.length_nil, List.head?_cons]
  by_cases hs : (some c == some '-' || some c == some '+') = true
  · simp only [hs, if_true, List.drop_succ_cons, List.drop_zero]
    rw [takeWhile_append_head isdigit V T hT]
  · simp only [hs, List.drop_zero, Bool.false_eq_true, if_false]
    have := takeWhile_append_head isdigit (c :: V) T hT
    rw [List.cons_append] at this
    rw [this]

theorem strtod_eq (mem : List Char) (nptr : Nat) :
    strtod mem nptr =
      (let s := mem.drop nptr
      let ws := s.takeWhile isspace
      let s1 := s.drop ws.length
      let neg := s1.head? == some '-'
      let signlen := if s1.head? == some '-' || s1.head? == some '+' then 1 else 0
      let s2 := s1.drop signlen
      let ip := s2.takeWhile isdigit
      let s3 := s2.drop ip.length
      let fp := if s3.head? == some '.' then (s3.drop 1).takeWhile isdigit else []
      let pointlen := if s3.head? == some '.' then 1 else 0
      if ip.isEmpty && fp.isEmpty then (⟨false, 0, 0⟩, nptr)
      else
        let s4 := s3.drop (pointlen + fp.length)
        let e10 : Int := (strtod_exp s4).1 - (fp.length : Int)
        let d := digits_val (ip ++ fp)
        (fround 53 neg (d * 10 ^ e10.toNat) (10 ^ (-e10).toNat),
          nptr + ws.length + signlen + ip.length + pointlen + fp.length + (strtod_exp s4).2)) := by
  simp only [strtod, strtod_exp]

theorem pair_shift {α : Type} (c : Prop) [Decidable c] (a b : α) (p w sl il pl fl el : Nat) :
    (if c then (a, p) else (b, p + w + sl + il + pl + fl + el))
      = ((if c then (a, 0) else (b, 0 + w + sl + il + pl + fl + el)).1,
          p + (if c then (a, 0) else (b, 0 + w + sl + il + pl + fl + el)).2) := by
  split
  · rfl
  · refine Prod.ext rfl ?_
    simp only
    omega

theorem strtod_drop (mem : List Char) (p : Nat) :
    strtod mem p = ((strtod (mem.drop p) 0).1, p + (strtod (mem.drop p) 0).2) := by
  rw [strtod_eq, strtod_eq]
  simp only [List.drop_zero]
  exact pair_shift _ _ _ _ _ _ _ _ _ _

theorem strtod_exp_append (V4 T : List Char)
    (hT : ∀ x, T.head? = some x → isdigit x = false ∧ x ≠ 'e' ∧ x ≠ 'E')
    (hV : (strtod_exp V4).2 = V4.length) : strtod_exp (V4 ++ T) = strtod_exp V4 := by
  cases V4 with
  | nil =>
    unfold strtod_exp
    cases T with
    | nil => rfl
    | cons x T =>
      have := hT x rfl
      simp [this.2.1, this.2.2]
  | cons x V4 =>
    cases V4 with
    | nil =>
      exfalso
      unfold strtod_exp at hV
      simp at hV
    | cons y V4 =>
      unfold strtod_exp
      simp only [List.cons_append, List.drop_succ_cons, List.drop_zero, List.head?_cons]
      by_cases hs : (some y == some '-' || some y == some '+') = true
      · simp only [hs, if_true, List.drop_succ_cons, List.drop_zero]
        rw [takeWhile_append_head isdigit V4 T (fun x hx => (hT x hx).1)]
      · simp only [hs, List.drop_zero, Bool.false_eq_true, if_false]
        have := takeWhile_append_head isdigit (y :: V4) T (fun x hx => (hT x hx).1)
        rw [List.cons_append] at this
        rw [this]

theorem drop_append_le (A T : List Char) (n : Nat) (h : n ≤ A.length) :
    (A ++ T).drop n = A.drop n ++ T := by
  rw [List.drop_append_eq_append_drop]
  have : n - A.length = 0 := by omega
  rw [this, List.drop_zero]

theorem head?_append_ne (A T : List Char) (x : Char) (hT : ∀ c, T.head? = some c → c ≠ x) :
    ((A ++ T).head? == some x) = (A.head? == some x) := by
  cases A with
  | nil =>
    cases T with
    | nil => rfl
    | cons c T =>
      have := hT c rfl
      simp [this]
  | cons a A => rfl

/-- What follows a text that `strtod` scans to its end does not change the
result when it does not start with a digit, a point or an exponent letter. -/
theorem strtod_append (c : Char) (V T : List Char) (hc : isspace c = false)
    (hT : ∀ x, T.head? = some x → isdigit x = false ∧ x ≠ '.' ∧ x ≠ 'e' ∧ x ≠ 'E')
    (hV : (strtod (c :: V) 0).2 = (c :: V).length) :
    strtod (c :: (V ++ T)) 0 = strtod (c :: V) 0 := by
  have hTd : ∀ x, T.head? = some x → isdigit x = false := fun x hx => (hT x hx).1
  have h1 : (c :: (V ++ T)).takeWhile isspace = [] := by
    rw [List.takeWhile_cons_of_neg (by simp [hc])]
  have h2 : (c :: V).takeWhile isspace = [] := by
    rw [List.takeWhile_cons_of_neg (by simp [hc])]
  rw [strtod_eq] at hV ⊢
  rw [strtod_eq]
  simp only [List.drop_zero, h1, h2, List.length_nil, List.head?_cons] at hV ⊢
  generalize hsl : (if (some c == some '-' || some c == some '+') = true then 1 else 0) = sl at hV ⊢
  have hsl1 : sl ≤ 1 := by
    rw [← hsl]; split <;> omega
  have hd2 : (c :: (V ++ T)).drop sl = (c :: V).drop sl ++ T := by
    rw [← List.cons_append]
    exact drop_append_le _ _ _ (by simp; omega)
  rw [hd2, takeWhile_append_head isdigit _ T hTd]
  generalize hV2 : (c :: V).drop sl = V2 at hV ⊢
  generalize hip : V2.takeWhile isdigit = ip at hV ⊢
  have hipl : ip.length ≤ V2.length := by
    rw [← hip]; exact (List.takeWhile_sublist _).length_le
  rw [drop_append_le V2 T _ hipl]
  generalize hV3 : V2.drop ip.length = V3 at hV ⊢
  rw [head?_append_ne V3 T '.' (fun x hx => (hT x hx).2.1)]
  have hfp : (if (V3.head? == some '.') = true then ((V3 ++ T).drop 1).takeWhile isdigit else [])
      = (if (V3.head? == some '.') = true then (V3.drop 1).takeWhile isdigit else []) := by
    split
    · rename_i hp
      have : 1 ≤ V3.length := by
        cases V3 with
        | nil => simp at hp
        | cons a b => simp
      rw [drop_append_le V3 T 1 this, takeWhile_append_head isdigit _ T hTd]
    · rfl
  rw [hfp]
  generalize hfpd : (if (V3.head? == some '.') = true then (V3.drop 1).takeWhile isdigit else []) = fp
    at hV ⊢
  generalize hpl : (if (V3.head? == some '.') = true then 1 else 0) = pl at hV ⊢
  have hle : pl + fp.length ≤ V3.length := by
    rw [← hpl, ← hfpd]
    split
    · cases V3 with
      | nil => simp at *
      | cons a b =>
        have := (List.takeWhile_sublist isdigit (l := b)).length_le
        simp only [List.drop_succ_cons, List.drop_zero, List.length_cons]
        omega
    · simp
  rw [drop_append_le V3 T _ hle]
  by_cases hem : (ip.isEmpty && fp.isEmpty) = true
  · simp only [hem, if_true]
  · simp only [hem] at hV ⊢
    simp only [Bool.false_eq_true, if_false] at hV ⊢
    have hl2 : (c :: V).length = sl + V2.length := by
      rw [← hV2, List.length_drop]
      simp only [List.length_cons]
      omega
    have hl3 : V2.length = ip.length + V3.length := by
      rw [← hV3, List.length_drop]; omega
    have hl4 : V3.length = pl + fp.length + (V3.drop (pl + fp.length)).length := by
      rw [List.length_drop]; omega
    have hex : (strtod_exp (V3.drop (pl + fp.length))).2 = (V3.drop (pl + fp.length)).length := by
      rw [hl2, hl3] at hV
      omega
    rw [strtod_exp_append _ T (fun x hx => ⟨(hT x hx).1, (hT x hx).2.2⟩) hex]
/-! ### Reading a document: white space, separators, keys -/

theorem blank_mem {W : List Char} (h : blank W = true) : ∀ c ∈ W, xjson_is_space c = true := by
  unfold blank at h
  rw [List.all_eq_true] at h
  exact h

theorem ws_len_blank {W : List Char} (hW : ∀ c ∈ W, xjson_is_space c = true) :
    ws_len W = W.length := by
  unfold ws_len
  rw [List.takeWhile_eq_self_iff.mpr hW]

theorem ws_len_blank_append {W N : List Char} (hW : ∀ c ∈ W, xjson_is_space c = true)
    (hN : ∀ c, N.head? = some c → xjson_is_space c = false) : ws_len (W ++ N) = W.length := by
  cases N with
  | nil => rw [List.append_nil]; exact ws_len_blank hW
  | cons c N => exact ws_len_ws_append hW c N (hN c rfl)

theorem skip_ws_blank_append {W N : List Char} (hW : ∀ c ∈ W, xjson_is_space c = true)
    (hN : ∀ c, N.head? = some c → xjson_is_space c = false) : skip_ws (W ++ N) = N := by
  rw [skip_ws_ws_append hW]
  cases N with
  | nil => rfl
  | cons c N => exact skip_ws_cons_not_space c N (hN c rfl)

theorem skip_ws_eq_drop (s : List Char) : skip_ws s = s.drop (ws_len s) :=
  (drop_length_takeWhile xjson_is_space s).symm

theorem Rd_skip {j : xjson} {L post : List Char} (h : Rd j L post) :
    Rd (adv j (ws_len L)) (skip_ws L) post := by
  rw [skip_ws_eq_drop]
  exact Rd_adv_n _ h (ws_len_le L)

/-- The optional comma after a child: `xjson_try(json, ',')` with the cursor
behind the white space that follows the child. -/
theorem sep_Rd {j : xjson} {w1 w2 N post : List Char} {comma : Bool}
    (h1 : blank w1 = true) (h2 : blank w2 = true)
    (hN : ∀ c, N.head? = some c → xjson_is_space c = false ∧ c ≠ ',')
    (h : Rd j (skip_ws (sep_doc w1 comma w2 ++ N)) post) :
    ∃ j1, xjson_try j ',' = j1 ∧ Rd j1 N post := by
  have hN' : ∀ c, N.head? = some c → xjson_is_space c = false := fun c hc => (hN c hc).1
  cases comma with
  | false =>
    have e : sep_doc w1 false w2 ++ N = (w1 ++ w2) ++ N := by simp [sep_doc]
    have hb : ∀ c ∈ w1 ++ w2, xjson_is_space c = true := by
      intro c hc
      rcases List.mem_append.mp hc with hc | hc
      · exact blank_mem h1 c hc
      · exact blank_mem h2 c hc
    rw [e, skip_ws_blank_append hb hN'] at h
    refine ⟨j, ?_, h⟩
    cases N with
    | nil => exact try_end_Rd h ','
    | cons c N => exact try_miss_Rd h (hN c rfl).2
  | true =>
    have e : sep_doc w1 true w2 ++ N = w1 ++ (',' :: (w2 ++ N)) := by simp [sep_doc]
    rw [e, skip_ws_ws_append (blank_mem h1), skip_ws_cons_not_space _ _ (by decide)] at h
    refine ⟨adv j (1 + ws_len (w2 ++ N)), try_hit_Rd h, ?_⟩
    rw [ws_len_blank_append (blank_mem h2) hN']
    have := Rd_adv (X := ',' :: w2) (L := N) (by simpa using h)
    simpa [Nat.add_comm] using this

/-- `xjson_expect_key` on the text of the key it is given, with white space
after the closing quote and after the colon. -/
theorem expect_key_doc {j : xjson} {k wq L post : List Char} (hk : key_ok k = true)
    (hq : ∀ c ∈ wq, xjson_is_space c = true)
    (h : Rd j ('"' :: (k ++ '"' :: (wq ++ ':' :: L))) post) :
    ∃ j1, xjson_expect_key j k = some j1 ∧ Rd j1 (skip_ws L) post := by
  have h1 : Rd (adv j 1) (k ++ '"' :: (wq ++ ':' :: L)) post := by
    have := Rd_adv (X := ['"']) (L := k ++ '"' :: (wq ++ ':' :: L)) (by simpa using h)
    simpa using this
  have h2 : Rd (adv (adv j 1) k.length) ('"' :: (wq ++ ':' :: L)) post := Rd_adv h1
  have hwq : ws_len (wq ++ ':' :: L) = wq.length := ws_len_ws_append hq ':' L (by decide)
  have h3 : Rd (adv (adv (adv j 1) k.length) (1 + wq.length)) (':' :: L) post := by
    have := Rd_adv (X := '"' :: wq) (L := ':' :: L) (by simpa using h2)
    simpa [Nat.add_comm] using this
  have h4 := Rd_consumed h3
  refine ⟨_, ?_, h4⟩
  unfold xjson_expect_key
  have he1 : xjson_expect j '"' = adv j 1 := by
    rw [expect_Rd h, ws_len_key hk]
  simp only [he1]
  rw [if_neg (by rw [h1.2.1]; simp)]
  have hfuel : k.length < scan_fuel (adv j 1) := by
    have := h1.2.2.2
    simp only [scan_fuel, List.length_append, List.length_cons] at this ⊢
    omega
  rw [scan_Rd k _ _ _ post hk hfuel h1]
  simp only
  rw [if_neg (by rw [h2.2.1]; simp)]
  have hlen : (adv (adv j 1) k.length).current - (adv j 1).current = k.length := by
    simp [adv]
  have hmc : memcmp_eq k (adv (adv j 1) k.length).mem (adv j 1).current k.length = true :=
    memcmp_eq_self k (adv j 1).mem (('"' :: (wq ++ ':' :: L)) ++ post) (adv j 1).current hk
      (by rw [h1.2.2.1, List.append_assoc])
  rw [hlen, hmc]
  simp only [Bool.not_true, Bool.false_eq_true, if_false]
  rw [expect_Rd h2, hwq, expect_Rd h3]

/-- The optional key in front of a child. -/
theorem read_key_doc {j : xjson} {io : Bool} {key : Option (List Char)} {wq wc Y post : List Char}
    (hk : key_fits io key = true) (hq : blank wq = true) (hc : blank wc = true)
    (hY : ∀ c, Y.head? = some c → xjson_is_space c = false)
    (h : Rd j (key_doc key wq wc ++ Y) post) :
    ∃ j1, read_key j key = some j1 ∧ Rd j1 Y post := by
  cases key with
  | none => exact ⟨j, rfl, h⟩
  | some k =>
    have hko : key_ok k = true := by
      simp only [key_fits, Bool.and_eq_true] at hk
      exact hk.2
    have h' : Rd j ('"' :: (k ++ '"' :: (wq ++ ':' :: (wc ++ Y)))) post := by
      simpa [key_doc] using h
    obtain ⟨j1, h1, h2⟩ := expect_key_doc hko (blank_mem hq) h'
    rw [skip_ws_blank_append (blank_mem hc) hY] at h2
    exact ⟨j1, h1, h2⟩

theorem key_doc_head (key : Option (List Char)) (wq wc : List Char) (c0 : Char) (V : List Char)
    (h0 : c0 ≠ ']') :
    ∃ c Y, key_doc key wq wc ++ c0 :: V = c :: Y ∧ c ≠ ']' := by
  cases key with
  | none => exact ⟨c0, V, rfl, h0⟩
  | some k => exact ⟨'"', _, rfl, by decide⟩

/-! ### Reading a document: values -/

theorem starts_number_head {V : List Char} (h : starts_number V = true) :
    ∃ c V', V = c :: V' ∧ isspace c = false ∧ c ≠ ']' ∧ c ≠ ',' ∧ c ≠ '"' := by
  cases V with
  | nil => simp [starts_number] at h
  | cons c V =>
    refine ⟨c, V, rfl, ?_⟩
    simp only [starts_number, Bool.or_eq_true, beq_iff_eq] at h
    rcases h with ((h | h) | h) | h
    · refine ⟨isspace_of_isdigit c h, ?_, ?_, ?_⟩ <;>
        (intro hc; rw [hc] at h; revert h; decide)
    · subst h; decide
    · subst h; decide
    · subst h; decide

theorem Rd_split {j : xjson} {c : Char} {V T post : List Char} (h : Rd j (c :: V ++ T) post) :
    j.mem.drop j.current = c :: (V ++ (T ++ post)) := by
  rw [h.2.2.1]
  simp

/-- `xjson_expect_and_parse_int` on the text of an integer. -/
theorem parse_int_doc {j : xjson} {V T post : List Char} (hV : is_int_text V = true)
    (h : Rd j (V ++ T) post) (hT : ∀ x, (T ++ post).head? = some x → isdigit x = false)
    (out : Int) :
    ∃ j1, xjson_expect_and_parse_int j out = (j1, (strtoll V 0).1) ∧ Rd j1 (skip_ws T) post := by
  simp only [is_int_text, Bool.and_eq_true, decide_eq_true_eq] at hV
  obtain ⟨c, V', hcV, hc, _⟩ := starts_number_head hV.1
  subst hcV
  have hst : strtoll j.mem j.current
      = ((strtoll (c :: V') 0).1, j.current + (c :: V').length) := by
    rw [strtoll_drop, Rd_split h, strtoll_append c V' (T ++ post) hc hT, hV.2]
  have h1 : Rd (adv j (c :: V').length) T post := Rd_adv h
  refine ⟨adv (adv j (c :: V').length) (ws_len T), ?_, Rd_skip h1⟩
  unfold xjson_expect_and_parse_int
  rw [if_neg (by rw [h.2.1]; simp), hst]
  simp only
  rw [if_neg (by simp only [List.length_cons]; omega)]
  have h2 := skip_Rd h1
  have e : ({ j with current := j.current + (c :: V').length } : xjson) = adv j (c :: V').length :=
    rfl
  rw [e]
  split
  · rename_i hs
    have hs' : xjson_is_space (load (adv j (c :: V').length).mem
        (adv j (c :: V').length).current) = true := hs
    rw [if_pos hs'] at h2
    rw [h2]
  · rename_i hs
    have hs' : ¬ xjson_is_space (load (adv j (c :: V').length).mem
        (adv j (c :: V').length).current) = true := hs
    rw [if_neg hs'] at h2
    rw [← h2]

/-- `xjson_expect_and_parse_double` on the text of a number. -/
theorem parse_double_doc {j : xjson} {V T post : List Char} (hV : is_float_text V = true)
    (h : Rd j (V ++ T) post)
    (hT : ∀ x, (T ++ post).head? = some x → isdigit x = false ∧ x ≠ '.' ∧ x ≠ 'e' ∧ x ≠ 'E')
    (out : fval) :
    ∃ j1, xjson_expect_and_parse_double j out = (j1, (strtod V 0).1) ∧ Rd j1 (skip_ws T) post := by
  simp only [is_float_text, Bool.and_eq_true, decide_eq_true_eq] at hV
  obtain ⟨c, V', hcV, hc, _⟩ := starts_number_head hV.1
  subst hcV
  have hst : strtod j.mem j.current
      = ((strtod (c :: V') 0).1, j.current + (c :: V').length) := by
    rw [strtod_drop, Rd_split h, strtod_append c V' (T ++ post) hc hT hV.2, hV.2]
  have h1 : Rd (adv j (c :: V').length) T post := Rd_adv h
  refine ⟨adv (adv j (c :: V').length) (ws_len T), ?_, Rd_skip h1⟩
  unfold xjson_expect_and_parse_double
  rw [if_neg (by rw [h.2.1]; simp), hst]
  simp only
  rw [if_neg (by simp only [List.length_cons]; omega)]
  have h2 := skip_Rd h1
  have e : ({ j with current := j.current + (c :: V').length } : xjson) = adv j (c :: V').length :=
    rfl
  rw [e]
  split
  · rename_i hs
    have hs' : xjson_is_space (load (adv j (c :: V').length).mem
        (adv j (c :: V').length).current) = true := hs
    rw [if_pos hs'] at h2
    rw [h2]
  · rename_i hs
    have hs' : ¬ xjson_is_space (load (adv j (c :: V').length).mem
        (adv j (c :: V').length).current) = true := hs
    rw [if_neg hs'] at h2
    rw [← h2]

theorem bool_text_spec {V : List Char} (h : is_bool_text V = true) :
    V = bool_text (decide (V = "true".toList)) := by
  simp only [is_bool_text, Bool.or_eq_true, decide_eq_true_eq] at h
  rcases h with h | h
  · subst h; decide
  · subst h; decide

/-- `xjson_expect_and_parse_bool` on `true` or `false`. -/
theorem parse_bool_doc {j : xjson} {V T post : List Char} (hV : is_bool_text V = true)
    (h : Rd j (V ++ T) post) (val : Bool) :
    ∃ j1, xjson_expect_and_parse_bool j val = (j1, decide (V = "true".toList))
      ∧ Rd j1 (skip_ws T) post := by
  have hb := bool_text_spec hV
  have h' : Rd j (bool_text (decide (V = "true".toList)) ++ T) post := by
    rw [← hb]; exact h
  have h1 : Rd (adv j (bool_text (decide (V = "true".toList))).length) T post := Rd_adv h'
  refine ⟨_, parse_bool_Rd h' val, ?_⟩
  rw [← adv_adv]
  exact Rd_skip h1

theorem string_text_spec {V : List Char} (h : is_string_text V = true) :
    ∃ s, V = '"' :: (s ++ ['"']) ∧ (∀ c ∈ s, c ≠ '"') ∧ (V.drop 1).dropLast = s := by
  unfold is_string_text at h
  split at h
  · rename_i r
    split at h
    · rename_i b hb
      have hr : r = b.reverse ++ ['"'] := by
        have := congrArg List.reverse hb
        simpa using this
      refine ⟨b.reverse, by rw [hr], ?_, by rw [hr]; simp⟩
      intro c hc
      rw [List.all_eq_true] at h
      have := h c (List.mem_reverse.mp hc)
      simpa using this
    · exact absurd h (by simp)
  · exact absurd h (by simp)

theorem ws_len_quote (s T : List Char) : ws_len (s ++ '"' :: T) = ws_len s := by
  unfold ws_len
  rw [takeWhile_append_head xjson_is_space s ('"' :: T) (by
    intro c hc
    simp only [List.head?_cons, Option.some.injEq] at hc
    subst hc
    decide)]

/-- The scan for the closing quote of a string: white space inside the string
is skipped by `xjson_consume` together with the byte in front of it. -/
theorem scan_str : ∀ (n : Nat) (s : List Char) (fuel : Nat) (j : xjson) (L post : List Char),
    s.length ≤ n → (∀ c ∈ s, c ≠ '"') → s.length < fuel → Rd j (s ++ '"' :: L) post →
    scan_to_quote fuel j = some (adv j s.length) := by
  intro n
  induction n with
  | zero =>
    intro s fuel j L post hn _ hf h
    have hs : s = [] := List.length_eq_zero.mp (by omega)
    subst hs
    cases fuel with
    | zero => simp at hf
    | succ fuel =>
      unfold scan_to_quote
      rw [load_Rd (c := '"') (by simpa using h), if_pos rfl]
      simp [adv_zero]
  | succ n ih =>
    intro s fuel j L post hn hq hf h
    cases s with
    | nil =>
      cases fuel with
      | zero => simp at hf
      | succ fuel =>
        unfold scan_to_quote
        rw [load_Rd (c := '"') (by simpa using h), if_pos rfl]
        simp [adv_zero]
    | cons c r =>
      cases fuel with
      | zero => simp at hf
      | succ fuel =>
        have hc : c ≠ '"' := hq c (by simp)
        have h' : Rd j (c :: (r ++ '"' :: L)) post := by simpa using h
        have hw : ws_len (r ++ '"' :: L) ≤ r.length := by
          rw [ws_len_quote]; exact ws_len_le r
        have h1 : Rd (adv j (1 + ws_len (r ++ '"' :: L)))
            (r.drop (ws_len (r ++ '"' :: L)) ++ '"' :: L) post := by
          have := Rd_adv_n (1 + ws_len (r ++ '"' :: L)) h' (by
            simp only [List.length_cons, List.length_append]; omega)
          rw [Nat.add_comm 1, List.drop_succ_cons, drop_append_le r _ _ hw] at this
          rw [Nat.add_comm 1]
          exact this
        unfold scan_to_quote
        rw [load_Rd h', if_neg hc]
        simp only
        rw [consume_Rd h']
        rw [if_neg (by rw [h1.2.1]; simp)]
        rw [ih (r.drop (ws_len (r ++ '"' :: L))) fuel _ L post
          (by rw [List.length_drop]; simp only [List.length_cons] at hn; omega)
          (fun x hx => hq x (List.mem_cons_of_mem _ (List.mem_of_mem_drop hx)))
          (by rw [List.length_drop]; simp only [List.length_cons] at hf; omega) h1, adv_adv]
        congr 2
        rw [List.length_drop]
        simp only [List.length_cons]
        omega

theorem range_getD_append (X Y : List Char) :
    (List.range X.length).map (fun i => (X ++ Y).getD i '\x00') = X := by
  apply List.ext_getElem
  · simp
  · intro i h1 h2
    simp only [List.getElem_map, List.getElem_range, List.getD_eq_getElem?_getD]
    rw [List.getElem?_append_left h2, List.getElem?_eq_getElem h2]
    rfl

theorem load_bytes_Rd {j : xjson} {X L post : List Char} (h : Rd j (X ++ L) post) :
    load_bytes j.mem j.current X.length = X := by
  unfold load_bytes
  simp only [load_add]
  rw [h.2.2.1, List.append_assoc]
  exact range_getD_append X (L ++ post)

theorem Rd_allocs {j : xjson} {L post : List Char} (h : Rd j L post) (a : List (List Char)) :
    Rd { j with allocs := a } L post :=
  ⟨h.1, h.2.1, h.2.2.1, h.2.2.2⟩

/-- `xjson_expect_and_parse_string` on a string in quotes: the string handed
to the allocator is what stands between the quotes without its leading white space. -/
theorem parse_string_doc {j : xjson} {s T post : List Char} (hs : ∀ c ∈ s, c ≠ '"')
    (h : Rd j ('"' :: (s ++ '"' :: T)) post) (str : List Char) :
    ∃ j1, xjson_expect_and_parse_string j str = some (j1, skip_ws s)
      ∧ Rd j1 (skip_ws T) post := by
  have hw : ws_len (s ++ '"' :: T) = ws_len s := ws_len_quote s T
  have hwl : ws_len s ≤ s.length := ws_len_le s
  have h1 : Rd (adv j (1 + ws_len s)) (skip_ws s ++ '"' :: T) post := by
    have := Rd_adv_n (1 + ws_len s) h (by
      simp only [List.length_cons, List.length_append]; omega)
    rw [Nat.add_comm 1, List.drop_succ_cons, drop_append_le s _ _ hwl, ← skip_ws_eq_drop] at this
    rw [Nat.add_comm 1]
    exact this
  have h2 : Rd (adv (adv j (1 + ws_len s)) (skip_ws s).length) ('"' :: T) post := Rd_adv h1
  have hsk : ∀ c ∈ skip_ws s, c ≠ '"' := by
    intro c hc
    rw [skip_ws_eq_drop] at hc
    exact hs c (List.mem_of_mem_drop hc)
  have hfuel : (skip_ws s).length < scan_fuel (adv j (1 + ws_len s)) := by
    have := h1.2.2.2
    simp only [scan_fuel, List.length_append, List.length_cons] at this ⊢
    omega
  have hscan := scan_str _ (skip_ws s) _ _ T post (Nat.le_refl _) hsk hfuel h1
  have hspan : load_bytes (adv (adv j (1 + ws_len s)) (skip_ws s).length).mem
      (adv j (1 + ws_len s)).current (skip_ws s).length = skip_ws s := load_bytes_Rd h1
  have hlen : (adv (adv j (1 + ws_len s)) (skip_ws s).length).current
      - (adv j (1 + ws_len s)).current = (skip_ws s).length := by
    simp [adv]
  have h3 := Rd_allocs h2 ((adv (adv j (1 + ws_len s)) (skip_ws s).length).allocs ++ [skip_ws s])
  refine ⟨_, ?_, Rd_consumed h3⟩
  unfold xjson_expect_and_parse_string
  have he1 : xjson_expect j '"' = adv j (1 + ws_len s) := by
    rw [expect_Rd h, hw]
  simp only [he1]
  rw [if_neg (by rw [h1.2.1]; simp), hscan]
  simp only
  rw [if_neg (by rw [h2.2.1]; simp)]
  unfold string_allocator
  simp only [hlen, hspan]
  rw [expect_Rd h3]
/-! ### Reading a document: children -/

theorem not_space_of_isspace {c : Char} (h : isspace c = false) : xjson_is_space c = false := h

/-- An integer child: the loop guard in front of it is false, the accessor
returns the value of its text without error, and the cursor is left on what
follows the separator. -/
theorem int_item_doc {j : xjson} {io : Bool} {key : Option (List Char)}
    {wq wc V w1 w2 N post : List Char} {comma : Bool}
    (hk : key_fits io key = true) (hq : blank wq = true) (hc : blank wc = true)
    (h1 : blank w1 = true) (h2 : blank w2 = true) (hV : is_int_text V = true)
    (hN : ∀ c, N.head? = some c → xjson_is_space c = false ∧ c ≠ ',')
    (hT : ∀ x, ((sep_doc w1 comma w2 ++ N) ++ post).head? = some x → isdigit x = false)
    (h : Rd j (key_doc key wq wc ++ (V ++ (sep_doc w1 comma w2 ++ N))) post)
    (lp : Option (Int × Int)) (val : Int) (type : xjson_int_type) :
    loop_stops lp j = false
      ∧ ∃ j1, xjson_integer j key val type = some (j1, int_cast type (strtoll V 0).1)
        ∧ Rd j1 N post := by
  have hsn : starts_number V = true := by
    simp only [is_int_text, Bool.and_eq_true] at hV
    exact hV.1
  obtain ⟨c0, V', hcV, hc0, hb, _, _⟩ := starts_number_head hsn
  obtain ⟨c, Y, hY, hcb⟩ := key_doc_head key wq wc c0 (V' ++ (sep_doc w1 comma w2 ++ N)) hb
  have hYeq : key_doc key wq wc ++ (V ++ (sep_doc w1 comma w2 ++ N)) = c :: Y := by
    rw [hcV]; exact hY
  have hstop : loop_stops lp j = false := by
    rw [hYeq] at h
    exact loop_stops_Rd lp h hcb
  refine ⟨hstop, ?_⟩
  obtain ⟨j1, hrk, hr1⟩ := read_key_doc hk hq hc (by
    intro x hx
    rw [hcV] at hx
    simp only [List.cons_append, List.head?_cons, Option.some.injEq] at hx
    rw [← hx]; exact hc0) h
  obtain ⟨j2, hp, hr2⟩ := parse_int_doc hV hr1 hT 0
  obtain ⟨j3, htry, hr3⟩ := sep_Rd h1 h2 hN hr2
  refine ⟨j3, ?_, hr3⟩
  unfold xjson_integer
  rw [if_pos h.1, hrk]
  simp only [Option.map_some', hp]
  rw [if_neg (by rw [hr2.2.1]; simp), htry]

/-- A `float` child. -/
theorem float_item_doc {j : xjson} {io : Bool} {key : Option (List Char)}
    {wq wc V w1 w2 N post : List Char} {comma : Bool}
    (hk : key_fits io key = true) (hq : blank wq = true) (hc : blank wc = true)
    (h1 : blank w1 = true) (h2 : blank w2 = true) (hV : is_float_text V = true)
    (hN : ∀ c, N.head? = some c → xjson_is_space c = false ∧ c ≠ ',')
    (hT : ∀ x, ((sep_doc w1 comma w2 ++ N) ++ post).head? = some x →
      isdigit x = false ∧ x ≠ '.' ∧ x ≠ 'e' ∧ x ≠ 'E')
    (h : Rd j (key_doc key wq wc ++ (V ++ (sep_doc w1 comma w2 ++ N))) post)
    (lp : Option (Int × Int)) (val : fval) :
    loop_stops lp j = false
      ∧ ∃ j1, xjson_float j key val = some (j1, double_to_float (strtod V 0).1)
        ∧ Rd j1 N post := by
  have hsn : starts_number V = true := by
    simp only [is_float_text, Bool.and_eq_true] at hV
    exact hV.1
  obtain ⟨c0, V', hcV, hc0, hb, _, _⟩ := starts_number_head hsn
  obtain ⟨c, Y, hY, hcb⟩ := key_doc_head key wq wc c0 (V' ++ (sep_doc w1 comma w2 ++ N)) hb
  have hYeq : key_doc key wq wc ++ (V ++ (sep_doc w1 comma w2 ++ N)) = c :: Y := by
    rw [hcV]; exact hY
  have hstop : loop_stops lp j = false := by
    rw [hYeq] at h
    exact loop_stops_Rd lp h hcb
  refine ⟨hstop, ?_⟩
  obtain ⟨j1, hrk, hr1⟩ := read_key_doc hk hq hc (by
    intro x hx
    rw [hcV] at hx
    simp only [List.cons_append, List.head?_cons, Option.some.injEq] at hx
    rw [← hx]; exact hc0) h
  obtain ⟨j2, hp, hr2⟩ := parse_double_doc hV hr1 hT ⟨false, 0, 0⟩
  obtain ⟨j3, htry, hr3⟩ := sep_Rd h1 h2 hN hr2
  refine ⟨j3, ?_, hr3⟩
  unfold xjson_float
  rw [if_pos h.1, hrk]
  simp only [Option.map_some', hp, htry, hr2.2.1]
  rfl

/-- A `double` child. -/
theorem double_item_doc {j : xjson} {io : Bool} {key : Option (List Char)}
    {wq wc V w1 w2 N post : List Char} {comma : Bool}
    (hk : key_fits io key = true) (hq : blank wq = true) (hc : blank wc = true)
    (h1 : blank w1 = true) (h2 : blank w2 = true) (hV : is_float_text V = true)
    (hN : ∀ c, N.head? = some c → xjson_is_space c = false ∧ c ≠ ',')
    (hT : ∀ x, ((sep_doc w1 comma w2 ++ N) ++ post).head? = some x →
      isdigit x = false ∧ x ≠ '.' ∧ x ≠ 'e' ∧ x ≠ 'E')
    (h : Rd j (key_doc key wq wc ++ (V ++ (sep_doc w1 comma w2 ++ N))) post)
    (lp : Option (Int × Int)) (val : fval) :
    loop_stops lp j = false
      ∧ ∃ j1, xjson_double j key val = some (j1, (strtod V 0).1) ∧ Rd j1 N post := by
  have hsn : starts_number V = true := by
    simp only [is_float_text, Bool.and_eq_true] at hV
    exact hV.1
  obtain ⟨c0, V', hcV, hc0, hb, _, _⟩ := starts_number_head hsn
  obtain ⟨c, Y, hY, hcb⟩ := key_doc_head key wq wc c0 (V' ++ (sep_doc w1 comma w2 ++ N)) hb
  have hYeq : key_doc key wq wc ++ (V ++ (sep_doc w1 comma w2 ++ N)) = c :: Y := by
    rw [hcV]; exact hY
  have hstop : loop_stops lp j = false := by
    rw [hYeq] at h
    exact loop_stops_Rd lp h hcb
  refine ⟨hstop, ?_⟩
  obtain ⟨j1, hrk, hr1⟩ := read_key_doc hk hq hc (by
    intro x hx
    rw [hcV] at hx
    simp only [List.cons_append, List.head?_cons, Option.some.injEq] at hx
    rw [← hx]; exact hc0) h
  obtain ⟨j2, hp, hr2⟩ := parse_double_doc hV hr1 hT val
  obtain ⟨j3, htry, hr3⟩ := sep_Rd h1 h2 hN hr2
  refine ⟨j3, ?_, hr3⟩
  unfold xjson_double
  rw [if_pos h.1, hrk]
  simp only [Option.map_some', hp, htry]

/-- A boolean child. -/
theorem bool_item_doc {j : xjson} {io : Bool} {key : Option (List Char)}
    {wq wc V w1 w2 N post : List Char} {comma : Bool}
    (hk : key_fits io key = true) (hq : blank wq = true) (hc : blank wc = true)
    (h1 : blank w1 = true) (h2 : blank w2 = true) (hV : is_bool_text V = true)
    (hN : ∀ c, N.head? = some c → xjson_is_space c = false ∧ c ≠ ',')
    (h : Rd j (key_doc key wq wc ++ (V ++ (sep_doc w1 comma w2 ++ N))) post)
    (lp : Option (Int × Int)) (val : Bool) :
    loop_stops lp j = false
      ∧ ∃ j1, xjson_bool j key val = some (j1, decide (V = "true".toList)) ∧ Rd j1 N post := by
  have hbh : ∃ c0 V', V = c0 :: V' ∧ xjson_is_space c0 = false ∧ c0 ≠ ']' := by
    simp only [is_bool_text, Bool.or_eq_true, decide_eq_true_eq] at hV
    rcases hV with hV | hV
    · exact ⟨'t', "rue".toList, hV, by decide, by decide⟩
    · exact ⟨'f', "alse".toList, hV, by decide, by decide⟩
  obtain ⟨c0, V', hcV, hc0, hb⟩ := hbh
  obtain ⟨c, Y, hY, hcb⟩ := key_doc_head key wq wc c0 (V' ++ (sep_doc w1 comma w2 ++ N)) hb
  have hYeq : key_doc key wq wc ++ (V ++ (sep_doc w1 comma w2 ++ N)) = c :: Y := by
    rw [hcV]; exact hY
  have hstop : loop_stops lp j = false := by
    rw [hYeq] at h
    exact loop_stops_Rd lp h hcb
  refine ⟨hstop, ?_⟩
  obtain ⟨j1, hrk, hr1⟩ := read_key_doc hk hq hc (by
    intro x hx
    rw [hcV] at hx
    simp only [List.cons_append, List.head?_cons, Option.some.injEq] at hx
    rw [← hx]; exact hc0) h
  obtain ⟨j2, hp, hr2⟩ := parse_bool_doc hV hr1 val
  obtain ⟨j3, htry, hr3⟩ := sep_Rd h1 h2 hN hr2
  refine ⟨j3, ?_, hr3⟩
  unfold xjson_bool
  rw [if_pos h.1, hrk]
  simp only [Option.map_some', hp, htry]

/-- A string child. -/
theorem string_item_doc {j : xjson} {io : Bool} {key : Option (List Char)}
    {wq wc V w1 w2 N post : List Char} {comma : Bool}
    (hk : key_fits io key = true) (hq : blank wq = true) (hc : blank wc = true)
    (h1 : blank w1 = true) (h2 : blank w2 = true) (hV : is_string_text V = true)
    (hN : ∀ c, N.head? = some c → xjson_is_space c = false ∧ c ≠ ',')
    (h : Rd j (key_doc key wq wc ++ (V ++ (sep_doc w1 comma w2 ++ N))) post)
    (lp : Option (Int × Int)) (str : List Char) :
    loop_stops lp j = false
      ∧ ∃ j1, xjson_string j key str = some (j1, skip_ws (V.drop 1).dropLast)
        ∧ Rd j1 N post := by
  obtain ⟨s, hVs, hs, hds⟩ := string_text_spec hV
  obtain ⟨c, Y, hY, hcb⟩ := key_doc_head key wq wc '"' (s ++ ['"'] ++ (sep_doc w1 comma w2 ++ N))
    (by decide)
  have hVT : V ++ (sep_doc w1 comma w2 ++ N) = '"' :: (s ++ '"' :: (sep_doc w1 comma w2 ++ N)) := by
    rw [hVs]; simp
  have hYeq : key_doc key wq wc ++ (V ++ (sep_doc w1 comma w2 ++ N)) = c :: Y := by
    rw [hVs]; rw [← hY]; simp
  have hstop : loop_stops lp j = false := by
    rw [hYeq] at h
    exact loop_stops_Rd lp h hcb
  refine ⟨hstop, ?_⟩
  rw [hVT] at h
  obtain ⟨j1, hrk, hr1⟩ := read_key_doc hk hq hc (by
    intro x hx
    simp only [List.head?_cons, Option.some.injEq] at hx
    rw [← hx]; decide) h
  obtain ⟨j2, hp, hr2⟩ := parse_string_doc hs hr1 str
  obtain ⟨j3, htry, hr3⟩ := sep_Rd h1 h2 hN hr2
  refine ⟨j3, ?_, hr3⟩
  unfold xjson_string
  rw [if_pos h.1, hrk]
  simp only [Option.some_bind, hp, Option.map_some', htry, hds]

/-- The `begin` call of a container child. -/
theorem begin_doc {j : xjson} {io : Bool} {key : Option (List Char)} {wq wc wo Y post : List Char}
    (hk : key_fits io key = true) (hq : blank wq = true) (hc : blank wc = true)
    (ho : blank wo = true) (hY : ∀ c, Y.head? = some c → xjson_is_space c = false)
    (lp : Option (Int × Int)) :
    (Rd j (key_doc key wq wc ++ ('{' :: (wo ++ Y))) post →
      loop_stops lp j = false ∧ ∃ j1, xjson_object_begin j key = some j1 ∧ Rd j1 Y post)
    ∧ (Rd j (key_doc key wq wc ++ ('[' :: (wo ++ Y))) post →
      loop_stops lp j = false ∧ ∃ j1, xjson_array_begin j key = some j1 ∧ Rd j1 Y post) := by
  constructor
  · intro h
    obtain ⟨c, Y', hYeq, hcb⟩ := key_doc_head key wq wc '{' (wo ++ Y) (by decide)
    have hstop : loop_stops lp j = false := by
      rw [hYeq] at h
      exact loop_stops_Rd lp h hcb
    refine ⟨hstop, ?_⟩
    obtain ⟨j1, hrk, hr1⟩ := read_key_doc hk hq hc (by
      intro x hx
      simp only [List.head?_cons, Option.some.injEq] at hx
      rw [← hx]; decide) h
    have hr2 := Rd_consumed hr1
    rw [skip_ws_blank_append (blank_mem ho) hY] at hr2
    refine ⟨_, ?_, Rd_intendation hr2 ((adv j1 (1 + ws_len (wo ++ Y))).intendation + 1)⟩
    unfold xjson_object_begin
    rw [if_neg (by rw [h.2.1]; simp), if_pos h.1]
    cases key with
    | none =>
      cases hrk
      simp only
      rw [expect_Rd hr1]
    | some k =>
      simp only [read_key] at hrk
      simp only [hrk, Option.map_some']
      rw [expect_Rd hr1]
  · intro h
    obtain ⟨c, Y', hYeq, hcb⟩ := key_doc_head key wq wc '[' (wo ++ Y) (by decide)
    have hstop : loop_stops lp j = false := by
      rw [hYeq] at h
      exact loop_stops_Rd lp h hcb
    refine ⟨hstop, ?_⟩
    obtain ⟨j1, hrk, hr1⟩ := read_key_doc hk hq hc (by
      intro x hx
      simp only [List.head?_cons, Option.some.injEq] at hx
      rw [← hx]; decide) h
    have hr2 := Rd_consumed hr1
    rw [skip_ws_blank_append (blank_mem ho) hY] at hr2
    refine ⟨_, ?_, Rd_intendation hr2 ((adv j1 (1 + ws_len (wo ++ Y))).intendation + 1)⟩
    unfold xjson_array_begin
    rw [if_neg (by rw [h.2.1]; simp), if_pos h.1]
    cases key with
    | none =>
      cases hrk
      simp only
      rw [expect_Rd hr1]
    | some k =>
      simp only [read_key] at hrk
      simp only [hrk, Option.map_some']
      rw [expect_Rd hr1]

/-- The `end` call of a container child, on the closing delimiter. -/
theorem end_doc {j : xjson} {w1 w2 N post : List Char} {comma : Bool}
    (h1 : blank w1 = true) (h2 : blank w2 = true)
    (hN : ∀ c, N.head? = some c → xjson_is_space c = false ∧ c ≠ ',') :
    (Rd j ('}' :: (sep_doc w1 comma w2 ++ N)) post → Rd (xjson_object_end j) N post)
    ∧ (Rd j (']' :: (sep_doc w1 comma w2 ++ N)) post → Rd (xjson_array_end j) N post) := by
  constructor
  · intro h
    have h' := Rd_intendation h (j.intendation - 1)
    obtain ⟨j3, htry, hr3⟩ := sep_Rd h1 h2 hN (Rd_consumed h')
    rw [object_end_read_eq j h.1, if_neg (by rw [h.2.1]; simp), expect_Rd h', htry]
    exact hr3
  · intro h
    have h' := Rd_intendation h (j.intendation - 1)
    obtain ⟨j3, htry, hr3⟩ := sep_Rd h1 h2 hN (Rd_consumed h')
    rw [array_end_read_eq j h.1, if_neg (by rw [h.2.1]; simp), expect_Rd h', htry]
    exact hr3
/-! ### Reading a document: the traversal -/

/-- The text of a document that fits a sequence of calls is empty, or starts
with a byte that is neither white space, nor a comma, nor a closing bracket. -/
theorem doc_head : ∀ (D : Doc) (t : Trav) (io : Bool), fits io t D = true →
    D.text = [] ∨ ∃ c T, D.text = c :: T ∧ xjson_is_space c = false ∧ c ≠ ',' ∧ c ≠ ']' := by
  intro D t io h
  cases D with
  | done => exact Or.inl rfl
  | val key wq wc V w1 comma w2 rest =>
    right
    cases key with
    | some k => exact ⟨'"', _, rfl, by decide, by decide, by decide⟩
    | none =>
      have hV : ∃ c V', V = c :: V' ∧ xjson_is_space c = false ∧ c ≠ ',' ∧ c ≠ ']' := by
        cases t <;> simp only [fits, Bool.and_eq_true, Bool.false_eq_true] at h
        · have hsn : starts_number V = true := by
            have := h.1.2
            simp only [is_int_text, Bool.and_eq_true] at this
            exact this.1
          obtain ⟨c, V', e, h1, h2, h3, _⟩ := starts_number_head hsn
          exact ⟨c, V', e, h1, h3, h2⟩
        · have hsn : starts_number V = true := by
            have := h.1.2
            simp only [is_float_text, Bool.and_eq_true] at this
            exact this.1
          obtain ⟨c, V', e, h1, h2, h3, _⟩ := starts_number_head hsn
          exact ⟨c, V', e, h1, h3, h2⟩
        · have hsn : starts_number V = true := by
            have := h.1.2
            simp only [is_float_text, Bool.and_eq_true] at this
            exact this.1
          obtain ⟨c, V', e, h1, h2, h3, _⟩ := starts_number_head hsn
          exact ⟨c, V', e, h1, h3, h2⟩
        · have := h.1.2
          simp only [is_bool_text, Bool.or_eq_true, decide_eq_true_eq] at this
          rcases this with hV | hV
          · exact ⟨'t', "rue".toList, hV, by decide, by decide, by decide⟩
          · exact ⟨'f', "alse".toList, hV, by decide, by decide, by decide⟩
        · obtain ⟨s, hVs, _, _⟩ := string_text_spec h.1.2
          exact ⟨'"', _, hVs, by decide, by decide, by decide⟩
      obtain ⟨c, V', e, hc⟩ := hV
      exact ⟨c, _, by rw [Doc.text, e]; rfl, hc⟩
  | box key wq wc a wo body w1 comma w2 rest =>
    right
    cases key with
    | some k => exact ⟨'"', _, rfl, by decide, by decide, by decide⟩
    | none =>
      cases a
      · exact ⟨'{', _, rfl, by decide, by decide, by decide⟩
      · exact ⟨'[', _, rfl, by decide, by decide, by decide⟩

theorem next_head {D : Doc} {t : Trav} {io : Bool} {F : List Char} (h : fits io t D = true)
    (hF : ∀ c, F.head? = some c → xjson_is_space c = false ∧ c ≠ ',') :
    ∀ c, (D.text ++ F).head? = some c → xjson_is_space c = false ∧ c ≠ ',' := by
  intro c hc
  rcases doc_head D t io h with e | ⟨x, T, e, h1, h2, _⟩
  · rw [e] at hc
    exact hF c hc
  · rw [e] at hc
    simp only [List.cons_append, List.head?_cons, Option.some.injEq] at hc
    rw [← hc]
    exact ⟨h1, h2⟩

theorem tail_head {A F post : List Char} (hA : no_number_tail A = true)
    (hF : ∀ c, (F ++ post).head? = some c → isdigit c = false ∧ c ≠ '.' ∧ c ≠ 'e' ∧ c ≠ 'E') :
    ∀ c, ((A ++ F) ++ post).head? = some c → isdigit c = false ∧ c ≠ '.' ∧ c ≠ 'e' ∧ c ≠ 'E' := by
  intro c hc
  cases A with
  | nil => exact hF c hc
  | cons a A =>
    simp only [List.cons_append, List.head?_cons, Option.some.injEq] at hc
    subst hc
    have hA' := hA
    simp [no_number_tail] at hA'
    exact ⟨hA'.1.1.1, hA'.1.1.2, hA'.1.2, hA'.2⟩

theorem closer_head (a : Bool) (X : List Char) :
    (∀ c, (closer a :: X).head? = some c → xjson_is_space c = false ∧ c ≠ ',')
      ∧ ∀ post c, ((closer a :: X) ++ post).head? = some c →
          isdigit c = false ∧ c ≠ '.' ∧ c ≠ 'e' ∧ c ≠ 'E' := by
  constructor
  · intro c hc
    simp only [List.head?_cons, Option.some.injEq] at hc
    subst hc
    cases a <;> decide
  · intro post c hc
    simp only [List.cons_append, List.head?_cons, Option.some.injEq] at hc
    subst hc
    cases a <;> decide

/-- A read traversal over a document that fits its calls, whatever the white
space and the commas of the document: it returns without error, runs every
loop body once per element, leaves the values `decode` in the variables of
the caller, and leaves the cursor behind the children. -/
theorem read_doc : ∀ (D : Doc) (t0 : Trav) (io : Bool) (lp : Option (Int × Int)) (j : xjson)
    (F post : List Char),
    fits io t0 D = true → D.ok = true →
    (∀ c, F.head? = some c → xjson_is_space c = false ∧ c ≠ ',') →
    (∀ c, (F ++ post).head? = some c → isdigit c = false ∧ c ≠ '.' ∧ c ≠ 'e' ∧ c ≠ 'E') →
    (lp ≠ none → ∃ S, F = ']' :: S) →
    Rd j (D.text ++ F) post →
    ∃ j', run t0 lp j = some (j', decode t0 D, true) ∧ Rd j' F post := by
  intro D
  induction D with
  | done =>
    intro t0 io lp j F post hf _ _ _ hlp h
    cases t0 <;> simp only [fits, Bool.false_eq_true] at hf
    refine ⟨j, ?_, h⟩
    cases lp with
    | none => rfl
    | some p =>
      obtain ⟨S, hS⟩ := hlp (by simp)
      subst hS
      have h' : Rd j (']' :: S) post := h
      simp [run, decode, xjson_array_reached_end, h.1, load_Rd h']
  | val key wq wc V w1 comma w2 rest ih =>
    intro t0 io lp j F post hf hok hF hFd hlp h
    simp only [Doc.ok, Bool.and_eq_true, Bool.or_eq_true, Bool.not_eq_true'] at hok
    obtain ⟨⟨⟨⟨⟨hq, hc⟩, h1⟩, h2⟩, hnt⟩, hokr⟩ := hok
    have htext : (Doc.val key wq wc V w1 comma w2 rest).text ++ F
        = key_doc key wq wc ++ (V ++ (sep_doc w1 comma w2 ++ (rest.text ++ F))) := by
      simp only [Doc.text, List.append_assoc]
    rw [htext] at h
    have hlp' : loop_next lp ≠ none → ∃ S, F = ']' :: S := fun hn => hlp (loop_next_ne_none hn)
    have hT : starts_number V = true → ∀ x,
        ((sep_doc w1 comma w2 ++ (rest.text ++ F)) ++ post).head? = some x →
          isdigit x = false ∧ x ≠ '.' ∧ x ≠ 'e' ∧ x ≠ 'E' := by
      intro hsn x hx
      rcases hnt with hnt | hnt
      · rw [hsn] at hnt; exact absurd hnt (by simp)
      · rw [← List.append_assoc (sep_doc w1 comma w2)] at hx
        exact tail_head hnt hFd x hx
    cases t0 <;> simp only [fits, Bool.and_eq_true, decide_eq_true_eq, Bool.false_eq_true] at hf
    · rename_i key0 type0 val0 rest0
      obtain ⟨⟨⟨hk, hkey⟩, hV⟩, hfr⟩ := hf
      subst hkey
      have hsn : starts_number V = true := by
        simp only [is_int_text, Bool.and_eq_true] at hV
        exact hV.1
      obtain ⟨hstop, j1, hacc, hr1⟩ := int_item_doc hk hq hc h1 h2 hV (next_head hfr hF)
        (fun x hx => (hT hsn x hx).1) h lp val0 type0
      obtain ⟨j', hr, h'⟩ := ih rest0 io (loop_next lp) j1 F post hfr hokr hF hFd hlp' hr1
      exact ⟨j', by simp [run, hstop, hacc, hr, decode], h'⟩
    · rename_i key0 val0 rest0
      obtain ⟨⟨⟨hk, hkey⟩, hV⟩, hfr⟩ := hf
      subst hkey
      have hsn : starts_number V = true := by
        simp only [is_float_text, Bool.and_eq_true] at hV
        exact hV.1
      obtain ⟨hstop, j1, hacc, hr1⟩ := float_item_doc hk hq hc h1 h2 hV (next_head hfr hF)
        (hT hsn) h lp val0
      obtain ⟨j', hr, h'⟩ := ih rest0 io (loop_next lp) j1 F post hfr hokr hF hFd hlp' hr1
      exact ⟨j', by simp [run, hstop, hacc, hr, decode], h'⟩
    · rename_i key0 val0 rest0
      obtain ⟨⟨⟨hk, hkey⟩, hV⟩, hfr⟩ := hf
      subst hkey
      have hsn : starts_number V = true := by
        simp only [is_float_text, Bool.and_eq_true] at hV
        exact hV.1
      obtain ⟨hstop, j1, hacc, hr1⟩ := double_item_doc hk hq hc h1 h2 hV (next_head hfr hF)
        (hT hsn) h lp val0
      obtain ⟨j', hr, h'⟩ := ih rest0 io (loop_next lp) j1 F post hfr hokr hF hFd hlp' hr1
      exact ⟨j', by simp [run, hstop, hacc, hr, decode], h'⟩
    · rename_i key0 val0 rest0
      obtain ⟨⟨⟨hk, hkey⟩, hV⟩, hfr⟩ := hf
      subst hkey
      obtain ⟨hstop, j1, hacc, hr1⟩ := bool_item_doc hk hq hc h1 h2 hV (next_head hfr hF)
        h lp val0
      obtain ⟨j', hr, h'⟩ := ih rest0 io (loop_next lp) j1 F post hfr hokr hF hFd hlp' hr1
      exact ⟨j', by simp [run, hstop, hacc, hr, decode], h'⟩
    · rename_i key0 val0 rest0
      obtain ⟨⟨⟨hk, hkey⟩, hV⟩, hfr⟩ := hf
      subst hkey
      obtain ⟨hstop, j1, hacc, hr1⟩ := string_item_doc hk hq hc h1 h2 hV (next_head hfr hF)
        h lp val0
      obtain ⟨j', hr, h'⟩ := ih rest0 io (loop_next lp) j1 F post hfr hokr hF hFd hlp' hr1
      exact ⟨j', by simp [run, hstop, hacc, hr, decode], h'⟩
  | box key wq wc a wo body w1 comma w2 rest ihb ih =>
    intro t0 io lp j F post hf hok hF hFd hlp h
    simp only [Doc.ok, Bool.and_eq_true] at hok
    obtain ⟨⟨⟨⟨⟨⟨hq, hc⟩, ho⟩, h1⟩, h2⟩, hokb⟩, hokr⟩ := hok
    have htext : (Doc.box key wq wc a wo body w1 comma w2 rest).text ++ F
        = key_doc key wq wc ++ (opener a :: (wo ++ (body.text ++
            (closer a :: (sep_doc w1 comma w2 ++ (rest.text ++ F)))))) := by
      simp only [Doc.text, List.append_assoc, List.cons_append]
    rw [htext] at h
    have hlp' : loop_next lp ≠ none → ∃ S, F = ']' :: S := fun hn => hlp (loop_next_ne_none hn)
    have hcl := closer_head a (sep_doc w1 comma w2 ++ (rest.text ++ F))
    cases t0 <;> simp only [fits, Bool.and_eq_true, decide_eq_true_eq, Bool.false_eq_true,
      Bool.not_eq_true'] at hf
    · rename_i key0 body0 rest0
      obtain ⟨⟨⟨⟨hk, hkey⟩, ha⟩, hfb⟩, hfr⟩ := hf
      subst hkey ha
      obtain ⟨hstop, j1, hbeg, hr1⟩ := (begin_doc hk hq hc ho
        (fun c hc' => (next_head hfb hcl.1 c hc').1) lp).1 h
      obtain ⟨jb, hrb, hb⟩ := ihb body0 true none j1 _ post hfb hokb hcl.1 (hcl.2 post)
        (fun hn => absurd rfl hn) hr1
      have h2' := (end_doc h1 h2 (next_head hfr hF)).1 hb
      obtain ⟨j', hr, h'⟩ := ih rest0 io (loop_next lp) (xjson_object_end jb) F post hfr hokr hF
        hFd hlp' h2'
      exact ⟨j', by simp [run, hstop, hbeg, hrb, hr, decode], h'⟩
    · rename_i key0 body0 rest0
      obtain ⟨⟨⟨⟨hk, hkey⟩, ha⟩, hfb⟩, hfr⟩ := hf
      subst hkey ha
      obtain ⟨hstop, j1, hbeg, hr1⟩ := (begin_doc hk hq hc ho
        (fun c hc' => (next_head hfb hcl.1 c hc').1) lp).2 h
      obtain ⟨jb, hrb, hb⟩ := ihb body0 false (some (0, (body0.count : Int))) j1 _ post hfb hokb
        hcl.1 (hcl.2 post) (fun _ => ⟨_, rfl⟩) hr1
      have h2' := (end_doc h1 h2 (next_head hfr hF)).2 hb
      obtain ⟨j', hr, h'⟩ := ih rest0 io (loop_next lp) (xjson_array_end jb) F post hfr hokr hF
        hFd hlp' h2'
      exact ⟨j', by simp [run, hstop, hbeg, hrb, hr, decode], h'⟩

/-! ### Whitespace and separators -/

theorem fits_squeeze : ∀ (D : Doc) (t : Trav) (io : Bool), fits io t D.squeeze = fits io t D := by
  intro D
  induction D with
  | done => intro t io; rfl
  | val key wq wc V w1 comma w2 rest ih =>
    intro t io
    cases t <;> simp only [Doc.squeeze, fits, ih]
  | box key wq wc a wo body w1 comma w2 rest ihb ih =>
    intro t io
    cases t <;> simp only [Doc.squeeze, fits, ih, ihb]

theorem decode_squeeze : ∀ (D : Doc) (t : Trav), decode t D.squeeze = decode t D := by
  intro D
  induction D with
  | done => intro t; rfl
  | val key wq wc V w1 comma w2 rest ih =>
    intro t
    cases t <;> simp only [Doc.squeeze, decode, ih]
  | box key wq wc a wo body w1 comma w2 rest ihb ih =>
    intro t
    cases t <;> simp only [Doc.squeeze, decode, ih, ihb]

theorem fits_bare : ∀ (D : Doc) (t : Trav) (io : Bool), fits io t D.bare = fits io t D := by
  intro D
  induction D with
  | done => intro t io; rfl
  | val key wq wc V w1 comma w2 rest ih =>
    intro t io
    cases t <;> simp only [Doc.bare, fits, ih]
  | box key wq wc a wo body w1 comma w2 rest ihb ih =>
    intro t io
    cases t <;> simp only [Doc.bare, fits, ih, ihb]

theorem decode_bare : ∀ (D : Doc) (t : Trav), decode t D.bare = decode t D := by
  intro D
  induction D with
  | done => intro t; rfl
  | val key wq wc V w1 comma w2 rest ih =>
    intro t
    cases t <;> simp only [Doc.bare, decode, ih]
  | box key wq wc a wo body w1 comma w2 rest ihb ih =>
    intro t
    cases t <;> simp only [Doc.bare, decode, ih, ihb]

/-- A read traversal over the text of a document that fits its calls: it
returns with the error unset, every array loop having run once per element,
with the cursor at `end` and the values `decode` in the variables of the caller. -/
theorem read_document (D : Doc) (t0 : Trav) (hf : fits false t0 D = true) (hok : D.ok = true) :
    ∃ r, read_traversal t0 D.text D.text.length = some (r, decode t0 D, true)
      ∧ r.error = false ∧ r.current = r.end_ := by
  have h0 : Rd (xjson_setup_read (xjson_zero D.text) 0 D.text.length) (D.text ++ []) [] := by
    rw [List.append_nil]
    exact Rd_setup_read D.text
  obtain ⟨r, hr, h⟩ := read_doc D t0 false none _ [] [] hf hok
    (fun c hc => by simp at hc) (fun c hc => by simp at hc) (fun hn => absurd rfl hn) h0
  refine ⟨r, hr, h.2.1, ?_⟩
  have := h.2.2.2
  simpa using this

/-- **C15** A document `D` whose white space is white space and in which no
number is directly followed by a digit, a point or an exponent letter, and its
compact form `D.squeeze` (the same keys, values, nesting and commas, without
any white space, likewise without a number directly followed by such a byte):
`D` is the compact document with runs of white space inserted after structural
tokens, after the closing quote of keys and after values.  A read traversal
whose calls fit the compact document decodes both texts: it returns, with the
error unset and every loop run once per element, and leaves the same values
in the variables of the caller. -/
theorem c15_whitespace_insensitive (D : Doc) (t0 : Trav)
    (hf : fits false t0 D.squeeze = true) (hc : D.squeeze.ok = true) (hok : D.ok = true) :
    ∃ r r', read_traversal t0 D.squeeze.text D.squeeze.text.length
          = some (r, decode t0 D.squeeze, true)
      ∧ r.error = false
      ∧ read_traversal t0 D.text D.text.length = some (r', decode t0 D.squeeze, true)
      ∧ r'.error = false := by
  obtain ⟨r, hr, he, _⟩ := read_document D.squeeze t0 hf hc
  obtain ⟨r', hr', he', _⟩ := read_document D t0 (by rw [← fits_squeeze]; exact hf) hok
  rw [← decode_squeeze] at hr'
  exact ⟨r, r', hr, he, hr', he'⟩

/-- **C20** (the claim as stated fails) The document `[1,2]` read with
`array_begin(NULL)`, the loop over `u8(NULL)` into two variables, `array_end`:
no error, the variables hold 1 and 2.  After deleting the comma that follows
the value 1 the document is `[12]`: the same calls end without error, the first
variable holds 12 and the second is not written. -/
theorem c20_adjacent_numbers :
    (read_traversal (two_u8 0 0) "[1,2]".toList 5).map (fun r => (r.1.error, r.2.1))
        = some (false, two_u8 1 2)
      ∧ (read_traversal (two_u8 0 0) "[12]".toList 4).map (fun r => (r.1.error, r.2.1))
        = some (false, two_u8 12 0) := by
  decide

/-- **C20** (amended) Two documents with the same keys, values and nesting
(`D.bare = D'.bare`), whatever their commas and white space: each child may or
may not be followed by a comma, the last child of a container included.  The
numbers of the documents are written in decimal notation (`Doc.decimal`; the
two documents have the same values), and in both documents the white space is
white space and no number is directly followed by a digit, a point or an
exponent letter.  A read traversal whose calls fit decodes both texts: it
returns, with the error unset and every loop run once per element, and leaves
the same values in the variables of the caller.  (Other notations are left
out: the scan of numbers is modelled for decimal notation, and a number in
hexadecimal notation is continued by other bytes than these, such as the `f`
of `false`.) -/
theorem c20_optional_commas (D D' : Doc) (t0 : Trav) (hb : D.bare = D'.bare)
    (hdec : D.decimal = true)
    (hf : fits false t0 D = true) (hok : D.ok = true) (hok' : D'.ok = true) :
    ∃ r r', read_traversal t0 D.text D.text.length = some (r, decode t0 D, true)
      ∧ r.error = false
      ∧ read_traversal t0 D'.text D'.text.length = some (r', decode t0 D, true)
      ∧ r'.error = false := by
  have hf' : fits false t0 D' = true := by
    rw [← fits_bare, ← hb, fits_bare]; exact hf
  have hd : decode t0 D' = decode t0 D := by
    rw [← decode_bare D', ← hb, decode_bare]
  obtain ⟨r, hr, he, _⟩ := read_document D t0 hf hok
  obtain ⟨r', hr', he', _⟩ := read_document D' t0 hf' hok'
  rw [hd] at hr'
  exact ⟨r, r', hr, he, hr', he'⟩


/-- **C15** (witness) The document of `sample.c`, its text `json_sample`, and
its compact form, read with the calls of `main`. -/
theorem c15_whitespace_insensitive_witness :
    sample_doc.text = sample_text
      ∧ fits false sample_calls sample_doc.squeeze = true
      ∧ ∃ r r', read_traversal sample_calls sample_doc.squeeze.text sample_doc.squeeze.text.length
            = some (r, decode sample_calls sample_doc.squeeze, true)
        ∧ r.error = false
        ∧ read_traversal sample_calls sample_doc.text sample_doc.text.length
            = some (r', decode sample_calls sample_doc.squeeze, true)
        ∧ r'.error = false :=
  ⟨by decide, by decide,
    c15_whitespace_insensitive sample_doc sample_calls (by decide) (by decide) (by decide)⟩

/-- **C20** (witness) The documents `{"a":1,"b":2}` and `{"a":1 "b":2}` of the
claim, and `{"a":1,"b":2,}` with a comma after the last child. -/
theorem c20_optional_commas_witness :
    (two_fields_doc true [] false).text = "\x7b\"a\":1,\"b\":2\x7d".toList
      ∧ (two_fields_doc false [' '] false).text = "\x7b\"a\":1 \"b\":2\x7d".toList
      ∧ (two_fields_doc true [] true).text = "\x7b\"a\":1,\"b\":2,\x7d".toList
      ∧ decode (two_fields 0 0) (two_fields_doc true [] false) = two_fields 1 2
      ∧ (∃ r r', read_traversal (two_fields 0 0) (two_fields_doc true [] false).text
              (two_fields_doc true [] false).text.length
            = some (r, decode (two_fields 0 0) (two_fields_doc true [] false), true)
          ∧ r.error = false
          ∧ read_traversal (two_fields 0 0) (two_fields_doc false [' '] false).text
              (two_fields_doc false [' '] false).text.length
            = some (r', decode (two_fields 0 0) (two_fields_doc true [] false), true)
          ∧ r'.error = false) :=
  ⟨by decide, by decide, by decide, by decide,
    c20_optional_commas (two_fields_doc true [] false) (two_fields_doc false [' '] false)
      (two_fields 0 0) (by decide) (by decide) (by decide) (by decide) (by decide)⟩

/-! ### The boolean accessor -/

theorem is_bool_text_bool_text (b : Bool) :
    is_bool_text (bool_text b) = true ∧ decide (bool_text b = "true".toList) = b := by
  cases b <;> decide

/-- **C21** The boolean accessor.  Read mode, cursor on the literal `true` or
`false` (the text of `b`), followed by white space, an optional comma with
white space after it, and then `N`: the accessor returns `b`, with the error
unset and the cursor on `N`.  Read mode with the error unset and a byte at the
cursor that is neither `t` nor `f`: the accessor raises the error with the
message `Unexpected token whilst parsing bool.` and returns the value of the
caller.  Write mode: the accessor returns, and when it ends without error it
has appended the optional new line and key, the text `true` or `false` of the
value, and a comma.  A boolean field written and read back has the value
written, whatever the variable of the reader held. -/
theorem c21_bool_accessor (json : xjson) (val : Bool) :
    (∀ (b : Bool) (w1 w2 N post : List Char) (comma : Bool),
        blank w1 = true → blank w2 = true →
        (∀ c, N.head? = some c → xjson_is_space c = false ∧ c ≠ ',') →
        Rd json (bool_text b ++ (sep_doc w1 comma w2 ++ N)) post →
        ∃ j1, xjson_bool json none val = some (j1, b) ∧ j1.error = false ∧ Rd j1 N post)
      ∧ (json.mode = XJSON_STATE_READ → json.error = false →
          load json.mem json.current ≠ 't' → load json.mem json.current ≠ 'f' →
          xjson_bool json none val = some (xjson_error json msg_unexpected_bool, val)
            ∧ (xjson_error json msg_unexpected_bool).error = true
            ∧ msg_unexpected_bool = "Unexpected token whilst parsing bool.".toList)
      ∧ (∀ (T : List Char) (pp : Bool) (d : Nat) (key : Option (List Char)), Wr json T pp d →
          ∃ j1, xjson_bool json key val = some (j1, val)
            ∧ (j1.error = false →
              Wr j1 (T ++ (nl pp d ++ key_text key ++ bool_text val ++ [','])) pp d))
      ∧ (∀ b0 : Bool,
          (write_then_read (bool_doc val) (bool_doc b0) false (List.replicate 16 '#') 16).map
            (fun r => (r.1.error, r.2.1)) = some (false, bool_doc val)) := by
  refine ⟨?_, ?_, ?_, ?_⟩
  · intro b w1 w2 N post comma h1 h2 hN h
    have hb := is_bool_text_bool_text b
    obtain ⟨_, j1, hacc, hr⟩ := @bool_item_doc json false none [] [] (bool_text b) w1 w2 N post
      comma rfl rfl rfl h1 h2 hb.1 hN h none val
    rw [hb.2] at hacc
    exact ⟨j1, hacc, hr.2.1, hr⟩
  · intro hm he ht hf
    refine ⟨?_, xjson_error_error _ _, rfl⟩
    unfold xjson_bool read_key xjson_expect_and_parse_bool
    rw [if_pos hm]
    simp only [Option.map_some', he, Bool.false_eq_true, if_false, ht, hf]
    unfold xjson_try
    rw [if_pos (xjson_error_error _ _)]
  · intro T pp d key hw
    refine ⟨_, bool_write_eq json key val hw.1, ?_⟩
    intro he
    have := (WStep_write_scalar pp d key (bool_text val)).2.2 json T hw he
    simpa [List.append_assoc] using this
  · intro b0
    cases val <;> cases b0 <;> decide

/-- **C21** (witness) The read context over `[true , false]` with the cursor
on `true`: the accessor returns true and leaves the cursor on `false`. -/
theorem c21_bool_accessor_witness :
    Rd bool_read_context (bool_text true ++ (sep_doc [' '] true [' '] ++ "false]".toList)) []
      ∧ ∃ j1, xjson_bool bool_read_context none false = some (j1, true) ∧ j1.error = false
        ∧ Rd j1 "false]".toList [] :=
  ⟨⟨by decide, by decide, by decide, by decide⟩,
    (c21_bool_accessor bool_read_context false).1 true [' '] [' '] "false]".toList [] true
      (by decide) (by decide) (by intro c hc; cases hc; decide)
      ⟨by decide, by decide, by decide, by decide⟩⟩

/-! ### The byte in front of the cursor in write mode -/

theorem error_mem (j : xjson) (m : List Char) : (xjson_error j m).mem = j.mem := by
  unfold xjson_error; split <;> rfl

theorem Cap_of_eq {j r : xjson} (h : Cap j) (he : r.end_ = j.end_)
    (hl : r.mem.length = j.mem.length) : Cap r := by
  unfold Cap at h ⊢
  rw [he, hl]; exact h

theorem print_token_len (j : xjson) (tok : List Char) (n : Nat) :
    (xjson_print_token j tok n).mem.length = j.mem.length := by
  unfold xjson_print_token
  split
  · rfl
  · simp only
    rw [store_bytes_length]
    split
    · rw [error_mem]
    · rfl

theorem Cap_print_token {j : xjson} (h : Cap j) (tok : List Char) (n : Nat) :
    Cap (xjson_print_token j tok n) :=
  Cap_of_eq h (Frame_print_token j tok n).2.2.1 (print_token_len j tok n)

theorem Cap_print_key {j : xjson} (h : Cap j) (k : List Char) : Cap (xjson_print_key j k) := by
  unfold xjson_print_key
  split
  · exact h
  · exact Cap_print_token (Cap_print_token (Cap_print_token (Cap_print_token h _ _) _ _) _ _) _ _

theorem Cap_print_tabs : ∀ (n : Nat) (j : xjson), Cap j → Cap (print_tabs n j) := by
  intro n
  induction n with
  | zero => intro j h; exact h
  | succ n ih => intro j h; exact ih _ (Cap_print_token h _ _)

theorem Cap_nl {j : xjson} (h : Cap j) :
    Cap (if j.pretty_print then xjson_print_new_line j else j) := by
  split
  · unfold xjson_print_new_line
    split
    · exact h
    · exact Cap_print_tabs _ _ (Cap_print_token h _ _)
  · exact h

/-- A one byte token printed without error stands in front of the cursor. -/
theorem print_char_last (j : xjson) (c : Char) (hc : c ≠ '\x00') (hcap : Cap j)
    (he : (xjson_print_token j [c] 1).error = false) :
    load (xjson_print_token j [c] 1).mem ((xjson_print_token j [c] 1).current - 1) = c := by
  have hje : j.error = false := by
    cases h : j.error with
    | false => rfl
    | true =>
      rw [print_token_latched j _ _ h, h] at he
      cases he
  unfold xjson_print_token at he ⊢
  simp only [hje, Bool.false_eq_true, if_false] at he ⊢
  by_cases hov : j.current + 1 > j.end_
  · simp [hov] at he
  · simp only [hov, if_false] at he ⊢
    rw [strncpy_bytes_char c hc]
    unfold Cap at hcap
    have hlt : j.current < j.mem.length := by omega
    simp only [store_bytes, Nat.add_sub_cancel, load, store]
    rw [List.getD_eq_getElem?_getD, List.getElem?_set_self hlt]
    rfl

theorem Cap_key {j : xjson} (h : Cap j) (key : Option (List Char)) :
    Cap (match key with
      | some k => xjson_print_key j k
      | none => j) := by
  cases key with
  | none => exact h
  | some k => exact Cap_print_key h k

theorem write_scalar_eq (j : xjson) (key : Option (List Char)) (text : List Char) :
    write_scalar j key text
      = xjson_print_token
          { (match key with
              | some k => xjson_print_key (if j.pretty_print then xjson_print_new_line j else j) k
              | none => (if j.pretty_print then xjson_print_new_line j else j)) with
            mem := store_bytes
              (match key with
                | some k => xjson_print_key (if j.pretty_print then xjson_print_new_line j else j) k
                | none => (if j.pretty_print then xjson_print_new_line j else j)).mem
              (match key with
                | some k => xjson_print_key (if j.pretty_print then xjson_print_new_line j else j) k
                | none => (if j.pretty_print then xjson_print_new_line j else j)).current
              (text ++ ['\x00'])
            current :=
              (match key with
                | some k => xjson_print_key (if j.pretty_print then xjson_print_new_line j else j) k
                | none => (if j.pretty_print then xjson_print_new_line j else j)).current
                + text.length } [','] 1 := by
  cases key <;> rfl

theorem Cap_store {j : xjson} (h : Cap j) (bs : List Char) (p n : Nat) :
    Cap { j with mem := store_bytes j.mem p bs, current := n } := by
  unfold Cap at h ⊢
  simp only [store_bytes_length]
  exact h

theorem Cap_write_scalar {j : xjson} (h : Cap j) (key : Option (List Char)) (text : List Char) :
    Cap (write_scalar j key text) := by
  rw [write_scalar_eq]
  exact Cap_print_token (Cap_store (Cap_key (Cap_nl h) key) _ _ _) _ _

/-- A scalar written without error leaves a comma in front of the cursor. -/
theorem write_scalar_last (j : xjson) (key : Option (List Char)) (text : List Char) (hcap : Cap j)
    (he : (write_scalar j key text).error = false) :
    load (write_scalar j key text).mem ((write_scalar j key text).current - 1) = ',' := by
  rw [write_scalar_eq] at he ⊢
  exact print_char_last _ ',' (by decide) (Cap_store (Cap_key (Cap_nl hcap) key) _ _ _) he

theorem Cap_write_begin {j : xjson} (h : Cap j) (c : Char) (key : Option (List Char)) :
    Cap (write_begin c key j) := by
  unfold write_begin
  cases key with
  | none => exact Cap_print_token h _ _
  | some k => exact Cap_print_token (Cap_print_key (Cap_nl h) k) _ _

/-- A `begin` that ends without error leaves the opening delimiter in front of the cursor. -/
theorem write_begin_last (j : xjson) (c : Char) (hc : c ≠ '\x00') (key : Option (List Char))
    (hcap : Cap j) (he : (write_begin c key j).error = false) :
    load (write_begin c key j).mem ((write_begin c key j).current - 1) = c := by
  unfold write_begin at he ⊢
  cases key with
  | none => exact print_char_last j c hc hcap he
  | some k => exact print_char_last _ c hc (Cap_print_key (Cap_nl hcap) k) he

theorem Cap_retract {j : xjson} (h : Cap j) (c : Char) : Cap (retract c j) := by
  unfold retract
  split <;> exact h

theorem Cap_write_end {j : xjson} (h : Cap j) (c c' : Char) : Cap (write_end c c' j) := by
  unfold write_end
  exact Cap_print_token (Cap_print_token (Cap_nl (Cap_retract h c)) _ _) _ _

/-- An `end` that ends without error leaves a comma in front of the cursor. -/
theorem write_end_last (j : xjson) (c c' : Char) (hcap : Cap j)
    (he : (write_end c c' j).error = false) :
    load (write_end c c' j).mem ((write_end c c' j).current - 1) = ',' := by
  unfold write_end at he ⊢
  exact print_char_last _ ',' (by decide) (Cap_print_token (Cap_nl (Cap_retract hcap c)) _ _) he

theorem Cap_terminate_root {j : xjson} (h : Cap j) : Cap (terminate_root j) := by
  unfold terminate_root
  split
  · unfold Cap at h ⊢
    simp only [store, List.length_set]
    exact h
  · exact h

theorem terminate_root_nested_eq (j : xjson) (h : 1 ≤ (terminate_root j).intendation) :
    terminate_root j = j := by
  rw [terminate_root_intendation] at h
  unfold terminate_root
  rw [if_neg]
  intro h0
  rw [h0.1] at h
  omega

theorem step_mode (j r : xjson) (op : Op) (h : step j op = some r) : r.mode = j.mode := by
  cases op with
  | object_begin key => exact (Frame_object_begin j r key h).1
  | object_end => cases h; exact (Frame_object_end j).1
  | array_begin key => exact (Frame_array_begin j r key h).1
  | array_end => cases h; exact (Frame_array_end j).1
  | integer key val type =>
    simp only [step, Option.map_eq_some'] at h
    obtain ⟨r1, h1, h2⟩ := h
    subst h2
    exact (Frame_integer j key val type r1 h1).1
  | float key val =>
    simp only [step, Option.map_eq_some'] at h
    obtain ⟨r1, h1, h2⟩ := h
    subst h2
    exact (Frame_float j key val r1 h1).1
  | double key val =>
    simp only [step, Option.map_eq_some'] at h
    obtain ⟨r1, h1, h2⟩ := h
    subst h2
    exact (Frame_double j key val r1 h1).1
  | bool key val =>
    simp only [step, Option.map_eq_some'] at h
    obtain ⟨r1, h1, h2⟩ := h
    subst h2
    exact (Frame_bool j key val r1 h1).1
  | string key str =>
    simp only [step, Option.map_eq_some'] at h
    obtain ⟨r1, h1, h2⟩ := h
    subst h2
    exact (Frame_string j key str r1 h1).1

/-- What one call does in write mode. -/
theorem step_write (j : xjson) (op : Op) (hm : j.mode = XJSON_STATE_WRITE) :
    step j op = some
      (match op with
        | .object_begin key => if j.error then j else write_begin '{' key j
        | .array_begin key => if j.error then j else write_begin '[' key j
        | .object_end => if j.error then j else terminate_root (write_end '{' '}' j)
        | .array_end => if j.error then j else write_end '[' ']' j
        | .integer key val type => write_scalar j key (fmt_int (int_cast type val))
        | .float key val => write_scalar j key (fmt_f val)
        | .double key val => write_scalar j key (fmt_f val)
        | .bool key val => write_scalar j key (bool_text val)
        | .string key str => write_scalar j key ('"' :: cstr str ++ ['"'])) := by
  cases op with
  | object_begin key => exact object_begin_write_eq j key hm
  | object_end => simp only [step, object_end_write_eq j hm]
  | array_begin key => exact array_begin_write_eq j key hm
  | array_end => simp only [step, array_end_write_eq j hm]
  | integer key val type => simp only [step, integer_write_eq j key val type hm, Option.map_some']
  | float key val => simp only [step, float_write_eq j key val hm, Option.map_some']
  | double key val => simp only [step, double_write_eq j key val hm, Option.map_some']
  | bool key val => simp only [step, bool_write_eq j key val hm, Option.map_some']
  | string key str => simp only [step, string_write_eq j key str hm, Option.map_some']

theorem step_cap (j r : xjson) (op : Op) (hm : j.mode = XJSON_STATE_WRITE) (hcap : Cap j)
    (h : step j op = some r) : Cap r := by
  rw [step_write j op hm] at h
  cases h
  cases op with
  | object_begin key => simp only; split; exact hcap; exact Cap_write_begin hcap _ _
  | array_begin key => simp only; split; exact hcap; exact Cap_write_begin hcap _ _
  | object_end =>
    simp only; split; exact hcap; exact Cap_terminate_root (Cap_write_end hcap _ _)
  | array_end => simp only; split; exact hcap; exact Cap_write_end hcap _ _
  | integer key val type => exact Cap_write_scalar hcap _ _
  | float key val => exact Cap_write_scalar hcap _ _
  | double key val => exact Cap_write_scalar hcap _ _
  | bool key val => exact Cap_write_scalar hcap _ _
  | string key str => exact Cap_write_scalar hcap _ _

/-- After one call in write mode that leaves the error unset and the
indentation at 1 or more, the byte in front of the cursor is the opening
delimiter (after a `begin`) or a comma (after a scalar accessor or an `end`). -/
theorem step_last_byte (j r : xjson) (op : Op) (hm : j.mode = XJSON_STATE_WRITE) (hcap : Cap j)
    (h : step j op = some r) (he : r.error = false) (hi : 1 ≤ r.intendation) :
    load r.mem (r.current - 1) = last_byte op := by
  rw [step_write j op hm] at h
  cases h
  cases op with
  | object_begin key =>
    simp only at he hi ⊢
    split at he
    · rename_i hje; rw [hje] at he; cases he
    · rename_i hje
      rw [if_neg hje]
      exact write_begin_last j '{' (by decide) key hcap he
  | array_begin key =>
    simp only at he hi ⊢
    split at he
    · rename_i hje; rw [hje] at he; cases he
    · rename_i hje
      rw [if_neg hje]
      exact write_begin_last j '[' (by decide) key hcap he
  | object_end =>
    simp only at he hi ⊢
    split at he
    · rename_i hje; rw [hje] at he; cases he
    · rename_i hje
      rw [if_neg hje] at hi ⊢
      rw [terminate_root_nested_eq _ hi] at he ⊢
      exact write_end_last j '{' '}' hcap he
  | array_end =>
    simp only at he hi ⊢
    split at he
    · rename_i hje; rw [hje] at he; cases he
    · rename_i hje
      rw [if_neg hje]
      exact write_end_last j '[' ']' hcap he
  | integer key val type => exact write_scalar_last j key _ hcap he
  | float key val => exact write_scalar_last j key _ hcap he
  | double key val => exact write_scalar_last j key _ hcap he
  | bool key val => exact write_scalar_last j key _ hcap he
  | string key str => exact write_scalar_last j key _ hcap he

theorem steps_last_byte : ∀ (ops : List Op) (j : xjson) (trace : List xjson),
    j.mode = XJSON_STATE_WRITE → Cap j → steps j ops = some trace →
    ∀ p ∈ List.zip ops trace, p.2.error = false → 1 ≤ p.2.intendation →
      load p.2.mem (p.2.current - 1) = last_byte p.1 := by
  intro ops
  induction ops with
  | nil =>
    intro j trace _ _ h p hp
    simp at hp
  | cons op ops ih =>
    intro j trace hm hcap h p hp he hi
    simp only [steps, Option.bind_eq_some, Option.map_eq_some'] at h
    obtain ⟨j1, h1, js, h2, h3⟩ := h
    subst h3
    simp only [List.zip_cons_cons, List.mem_cons] at hp
    rcases hp with hp | hp
    · subst hp
      exact step_last_byte j j1 op hm hcap h1 he hi
    · exact ih j1 js (by rw [step_mode j j1 op h1]; exact hm) (step_cap j j1 op hm hcap h1) h2
        p hp he hi

theorem render_eq_nil (pp : Bool) (d : Nat) (t : Trav) : render pp d t = [] ↔ t = .done := by
  cases t <;> simp [render]

theorem Wr_last {j : xjson} {X : List Char} {c : Char} {pp : Bool} {d : Nat}
    (h : Wr j (X ++ [c]) pp d) : load j.mem (j.current - 1) = c := by
  have hl : j.current - 1 < (X ++ [c]).length := by
    rw [h.2.2.2.2.1]; simp
  rw [load_of_take j.mem _ _ h.2.2.2.2.2.1 hl, h.2.2.2.2.1]
  simp

/-- The byte in front of the cursor when the `end` of a container is called:
the opening delimiter if and only if the container has no children. -/
theorem closing_byte (pp : Bool) (c : Char) (hc : c ≠ ',') (body : Trav) (jb : xjson)
    (T : List Char) (d : Nat) (hw : Wr jb (T ++ [c] ++ render pp (d + 1) body) pp (d + 1)) :
    (load jb.mem (jb.current - 1) = c ↔ body = .done)
      ∧ (load jb.mem (jb.current - 1) = ',' ↔ body ≠ .done) := by
  rcases render_tail pp body (d + 1) with hr | ⟨B, hr⟩
  · have hd := (render_eq_nil pp (d + 1) body).mp hr
    rw [hr, List.append_nil] at hw
    rw [Wr_last hw]
    exact ⟨⟨fun _ => hd, fun _ => rfl⟩, ⟨fun h => absurd h hc, fun h => absurd hd h⟩⟩
  · have hd : body ≠ .done := by
      intro h
      rw [(render_eq_nil pp (d + 1) body).mpr h] at hr
      simp at hr
    rw [hr, ← List.append_assoc] at hw
    rw [Wr_last hw]
    exact ⟨⟨fun h => absurd h.symm hc, fun h => absurd h hd⟩, ⟨fun _ => hd, fun _ => rfl⟩⟩
/-- **C22** A write context whose declared capacity lies inside the
allocation.  After each call of a sequence of calls that leaves the error
unset and the indentation at 1 or more, the byte in front of the cursor is
the opening delimiter of the container just opened (after `object_begin` or
`array_begin`) or a comma (after a scalar accessor, `object_end` or
`array_end`).  And for a container opened from a context without error and
its children `body` written without error: when its `end` is called, the byte
in front of the cursor, on which the one byte step back lands, is the opening
delimiter if and only if the container has no children, and a comma if and
only if it has some. -/
theorem c22_separator_invariant (json : xjson) (hm : json.mode = XJSON_STATE_WRITE)
    (hcap : json.end_ ≤ json.mem.length) :
    (∀ (ops : List Op) (trace : List xjson), steps json ops = some trace →
        ∀ p ∈ List.zip ops trace, p.2.error = false → 1 ≤ p.2.intendation →
          load p.2.mem (p.2.current - 1) = last_byte p.1)
      ∧ (∀ (T : List Char) (pp : Bool) (d : Nat) (key : Option (List Char)) (body t : Trav)
          (j1 jb : xjson) (e : Bool), Wr json T pp d →
          xjson_object_begin json key = some j1 → run body none j1 = some (jb, t, e) →
          jb.error = false →
          (load jb.mem (jb.current - 1) = '{' ↔ body = .done)
            ∧ (load jb.mem (jb.current - 1) = ',' ↔ body ≠ .done))
      ∧ (∀ (T : List Char) (pp : Bool) (d : Nat) (key : Option (List Char)) (body t : Trav)
          (j1 jb : xjson) (e : Bool), Wr json T pp d →
          xjson_array_begin json key = some j1 →
          run body (some (0, (body.count : Int))) j1 = some (jb, t, e) →
          jb.error = false →
          (load jb.mem (jb.current - 1) = '[' ↔ body = .done)
            ∧ (load jb.mem (jb.current - 1) = ',' ↔ body ≠ .done)) := by
  refine ⟨fun ops trace h => steps_last_byte ops json trace hm hcap h, ?_, ?_⟩
  · intro T pp d key body t j1 jb e hw hb hr he
    obtain ⟨j1', hb', hm1, _, hwr1⟩ := object_begin_write pp json key hm
    rw [hb] at hb'
    cases hb'
    obtain ⟨jb', hrb, _, hmonob, hwrb⟩ := run_write pp body none j1 hm1 trivial
    rw [hr] at hrb
    cases hrb
    have he1 := error_false_of_mono hmonob he
    have h1 := hwr1 T d hw he1
    have h2 := hwrb _ (d + 1) (by omega) h1 he
    exact closing_byte pp '{' (by decide) body jb (T ++ (key_nl pp d key ++ key_text key)) d
      (by simpa [List.append_assoc] using h2)
  · intro T pp d key body t j1 jb e hw hb hr he
    obtain ⟨j1', hb', hm1, _, hwr1⟩ := array_begin_write pp json key hm
    rw [hb] at hb'
    cases hb'
    obtain ⟨jb', hrb, _, hmonob, hwrb⟩ := run_write pp body (some (0, (body.count : Int))) j1 hm1
      (by simp [lp_ok])
    rw [hr] at hrb
    cases hrb
    have he1 := error_false_of_mono hmonob he
    have h1 := hwr1 T d hw he1
    have h2 := hwrb _ (d + 1) (by omega) h1 he
    exact closing_byte pp '[' (by decide) body jb (T ++ (key_nl pp d key ++ key_text key)) d
      (by simpa [List.append_assoc] using h2)

/-- **C22** (witness) The calls that write `{"a":1,"b":[],"c":{}}` into a 32
byte buffer: the error, the indentation and the byte in front of the cursor
after each call. -/
theorem c22_separator_invariant_witness :
    steps example_write_context example_write_ops = some example_write_trace
      ∧ example_write_trace.map (fun x => (x.error, x.intendation, load x.mem (x.current - 1)))
          = [(false, 1, '\x7b'), (false, 1, ','), (false, 2, '['), (false, 1, ','),
              (false, 2, '\x7b'), (false, 1, ','), (false, 0, '\x7d')]
      ∧ ∀ p ∈ List.zip example_write_ops example_write_trace, p.2.error = false →
          1 ≤ p.2.intendation → load p.2.mem (p.2.current - 1) = last_byte p.1 :=
  ⟨by decide, by decide,
    (c22_separator_invariant example_write_context (by decide) (by decide)).1
      example_write_ops example_write_trace (by decide)⟩

/-! ### Write mode: room in the declared capacity -/

theorem WFit_id (pp : Bool) (d : Nat) : WFit pp d (fun j => j) [] :=
  fun _ _ hw _ => ⟨hw.2.1, rfl⟩

theorem WFit_comp {pp : Bool} {d d' : Nat} {f g : xjson → xjson} {X Y : List Char}
    (hf : WStep pp d d' f X) (hff : WFit pp d f X) (hg : WFit pp d' g Y) :
    WFit pp d (fun j => g (f j)) (X ++ Y) := by
  intro j T hw hcap
  rw [List.length_append] at hcap
  have h1 := hff j T hw (by omega)
  have h2 := hg (f j) (T ++ X) (hf.2.2 j T hw h1.1) (by rw [h1.2, List.length_append]; omega)
  exact ⟨h2.1, h2.2.trans h1.2⟩

theorem WFit_congr {pp : Bool} {d : Nat} {f g : xjson → xjson} {X Y : List Char}
    (hf : WFit pp d f X) (hfg : ∀ j, g j = f j) (hXY : Y = X) : WFit pp d g Y := by
  have : g = f := funext hfg
  rw [this, hXY]; exact hf

theorem WFit_print_token (pp : Bool) (d : Nat) (tok X : List Char) (n : Nat)
    (hn : X.length = n) :
    WFit pp d (fun j => xjson_print_token j tok n) X := by
  intro j T hw hcap
  refine ⟨?_, (Frame_print_token j tok n).2.2.1⟩
  beta_reduce
  unfold xjson_print_token
  simp only [hw.2.1, Bool.false_eq_true, if_false]
  rw [if_neg (by rw [hw.2.2.2.2.1]; omega)]
  exact hw.2.1

theorem WFit_print_char (pp : Bool) (d : Nat) (c : Char) :
    WFit pp d (fun j => xjson_print_token j [c] 1) [c] :=
  WFit_print_token pp d [c] [c] 1 rfl

theorem WFit_print_key (pp : Bool) (d : Nat) (k : List Char) :
    WFit pp d (fun j => xjson_print_key j k) (key_text (some k)) := by
  have h1 := WStep_print_char pp d '"' (by decide)
  have h2 := WStep_print_token pp d k (cstr k) (strlen k) (strncpy_bytes_key k) (by simp [cstr, strlen])
  have f1 := WFit_print_char pp d '"'
  have f2 := WFit_print_token pp d k (cstr k) (strlen k) (by simp [cstr, strlen])
  have f3 := WFit_print_char pp d ':'
  refine WFit_congr (WFit_comp (WStep_comp (WStep_comp h1 h2) h1)
    (WFit_comp (WStep_comp h1 h2) (WFit_comp h1 f1 f2) f1) f3) ?_ ?_
  · intro j
    unfold xjson_print_key
    cases he : j.error with
    | false => simp
    | true => simp [print_token_latched, he]
  · simp [key_text]

theorem WFit_print_tabs (pp : Bool) (d : Nat) : ∀ n : Nat,
    WFit pp d (fun j => print_tabs n j) (List.replicate n '\t') := by
  intro n
  induction n with
  | zero => exact WFit_id pp d
  | succ n ih =>
    exact WFit_congr (WFit_comp (WStep_print_char pp d '\t' (by decide)) (WFit_print_char pp d '\t') ih)
      (fun j => rfl) (by simp [List.replicate_succ])

theorem WFit_print_new_line (d : Nat) :
    WFit true d xjson_print_new_line (nl true d) := by
  intro j T hw hcap
  have hi : j.intendation.toNat = d := by rw [hw.2.2.2.1]; simp
  rw [print_new_line_eq, hi]
  exact WFit_comp (WStep_print_char true d '\n' (by decide)) (WFit_print_char true d '\n')
    (WFit_print_tabs true d d) j T hw (by simpa [nl] using hcap)

theorem WFit_nl (pp : Bool) (d : Nat) :
    WFit pp d (fun j => if j.pretty_print then xjson_print_new_line j else j) (nl pp d) := by
  intro j T hw hcap
  have hp := hw.2.2.1
  cases pp with
  | false => simp only [hp, Bool.false_eq_true, if_false]; exact ⟨hw.2.1, trivial⟩
  | true =>
    simp only [hp, if_true]
    exact WFit_print_new_line d j T hw hcap

theorem WFit_key (pp : Bool) (d : Nat) (key : Option (List Char)) :
    WFit pp d
      (fun j => match key with
        | some k => xjson_print_key j k
        | none => j) (key_text key) := by
  cases key with
  | none => exact WFit_id pp d
  | some k => exact WFit_print_key pp d k

theorem WFit_value (pp : Bool) (d : Nat) (text : List Char) :
    WFit pp d
      (fun j => xjson_print_token
        { j with
          mem := store_bytes j.mem j.current (text ++ ['\x00'])
          current := j.current + text.length } [','] 1) (text ++ [',']) := by
  intro j T hw hcap
  refine ⟨?_, (Frame_print_token _ _ _).2.2.1⟩
  beta_reduce
  unfold xjson_print_token
  simp only [hw.2.1, Bool.false_eq_true, if_false]
  rw [if_neg (by rw [hw.2.2.2.2.1]; simp only [List.length_append, List.length_singleton] at hcap; omega)]

theorem WFit_write_scalar (pp : Bool) (d : Nat) (key : Option (List Char)) (text : List Char) :
    WFit pp d (fun j => write_scalar j key text)
      (nl pp d ++ key_text key ++ text ++ [',']) :=
  WFit_congr (WFit_comp (WStep_comp (WStep_nl pp d) (WStep_key pp d key))
      (WFit_comp (WStep_nl pp d) (WFit_nl pp d) (WFit_key pp d key)) (WFit_value pp d text))
    (fun j => by cases key <;> rfl) (by simp)

theorem WStep_begin_key (pp : Bool) (d : Nat) (key : Option (List Char)) :
    WStep pp d d
      (fun j => match key with
        | some k => xjson_print_key (if j.pretty_print then xjson_print_new_line j else j) k
        | none => j) (key_nl pp d key ++ key_text key) := by
  cases key with
  | none => exact WStep_id pp d
  | some k =>
    exact WStep_congr (WStep_comp (WStep_nl pp d) (WStep_print_key pp d k))
      (fun j => rfl) rfl

theorem WFit_begin_key (pp : Bool) (d : Nat) (key : Option (List Char)) :
    WFit pp d
      (fun j => match key with
        | some k => xjson_print_key (if j.pretty_print then xjson_print_new_line j else j) k
        | none => j) (key_nl pp d key ++ key_text key) := by
  cases key with
  | none => exact WFit_id pp d
  | some k =>
    exact WFit_congr (WFit_comp (WStep_nl pp d) (WFit_nl pp d) (WFit_print_key pp d k))
      (fun j => rfl) rfl

theorem WFit_write_begin (pp : Bool) (d : Nat) (c : Char) (hc : c ≠ '\x00')
    (key : Option (List Char)) :
    WFit pp d (write_begin c key) (key_nl pp d key ++ key_text key ++ [c]) := by
  have fi : WFit pp d (fun j => { j with intendation := j.intendation + 1 }) [] :=
    fun j T hw _ => ⟨hw.2.1, rfl⟩
  exact WFit_congr (WFit_comp (WStep_comp (WStep_begin_key pp d key) (WStep_print_char pp d c hc))
      (WFit_comp (WStep_begin_key pp d key) (WFit_begin_key pp d key) (WFit_print_char pp d c)) fi)
    (fun j => rfl) (by simp)

theorem write_end_fits (pp : Bool) (d : Nat) (c c' : Char) (T0 B : List Char) (j : xjson)
    (hw : Wr j (T0 ++ c :: B) pp (d + 1)) (hB : B = [] ∨ ∃ B', B = B' ++ [','])
    (hc : c ≠ ',') (hc' : c' ≠ '\x00')
    (hcap : (T0 ++ c :: B.dropLast ++ nl pp d ++ [c', ',']).length ≤ j.end_) :
    (write_end c c' j).error = false ∧ (write_end c c' j).end_ = j.end_ := by
  have hs := WFit_comp (WStep_comp (WStep_nl pp d) (WStep_print_char pp d c' hc'))
    (WFit_comp (WStep_nl pp d) (WFit_nl pp d) (WFit_print_char pp d c'))
    (WFit_print_char pp d ',')
  have := hs (retract c j) _ (retract_wr pp d c T0 B j hw hB hc)
    (by
      rw [(Frame_retract c j).2.2.1]
      simp only [List.length_append, List.length_cons, List.length_nil] at hcap ⊢
      omega)
  exact ⟨by simpa [write_end] using this.1, (Frame_write_end c c' j).2.2.1⟩

theorem begin_fits (pp : Bool) (c : Char) (hc : c ≠ '\x00') (key : Option (List Char))
    (j j1 : xjson) (T : List Char) (d : Nat) (hw : Wr j T pp d)
    (h1 : some j1 = some (if j.error then j else write_begin c key j))
    (hcap : T.length + (key_nl pp d key ++ key_text key ++ [c]).length ≤ j.end_) :
    j1.error = false ∧ j1.end_ = j.end_ := by
  rw [if_neg (by rw [hw.2.1]; simp)] at h1
  rw [Option.some.inj h1]
  exact WFit_write_begin pp d c hc key j T hw hcap

theorem object_end_fits (pp : Bool) (d : Nat) (T0 B : List Char) (j : xjson)
    (hw : Wr j (T0 ++ '{' :: B) pp (d + 1)) (hB : B = [] ∨ ∃ B', B = B' ++ [','])
    (hcap : (T0 ++ '{' :: B.dropLast ++ nl pp d ++ ['}', ',']).length ≤ j.end_) :
    (xjson_object_end j).error = false ∧ (xjson_object_end j).end_ = j.end_ := by
  have := write_end_fits pp d '{' '}' T0 B j hw hB (by decide) (by decide) hcap
  rw [object_end_write_eq j hw.1, if_neg (by rw [hw.2.1]; simp), terminate_root_error]
  exact ⟨this.1, ((Frame_terminate_root _).2.2.1).trans this.2⟩

theorem array_end_fits (pp : Bool) (d : Nat) (T0 B : List Char) (j : xjson)
    (hw : Wr j (T0 ++ '[' :: B) pp (d + 1)) (hB : B = [] ∨ ∃ B', B = B' ++ [','])
    (hcap : (T0 ++ '[' :: B.dropLast ++ nl pp d ++ [']', ',']).length ≤ j.end_) :
    (xjson_array_end j).error = false ∧ (xjson_array_end j).end_ = j.end_ := by
  have := write_end_fits pp d '[' ']' T0 B j hw hB (by decide) (by decide) hcap
  rw [array_end_write_eq j hw.1, if_neg (by rw [hw.2.1]; simp)]
  exact this

theorem write_scalar_fits (pp : Bool) (j j' : xjson) (key : Option (List Char)) (text : List Char)
    (rest : Trav)
    (ih : ∀ T d, 1 ≤ d → Wr (write_scalar j key text) T pp d →
      T.length + (render pp d rest).length ≤ (write_scalar j key text).end_ →
      j'.error = false ∧ j'.end_ = (write_scalar j key text).end_)
    (T : List Char) (d : Nat) (hd : 1 ≤ d) (hw : Wr j T pp d)
    (hcap : T.length + (nl pp d ++ key_text key ++ text ++ [','] ++ render pp d rest).length
      ≤ j.end_) :
    j'.error = false ∧ j'.end_ = j.end_ := by
  simp only [List.length_append, List.length_singleton] at hcap
  have h1 := WFit_write_scalar pp d key text j T hw
    (by simp only [List.length_append, List.length_singleton]; omega)
  have hw1 := (WStep_write_scalar pp d key text).2.2 j T hw h1.1
  have := ih _ d hd hw1
    (by rw [h1.2]; simp only [List.length_append, List.length_singleton]; omega)
  exact ⟨this.1, this.2.trans h1.2⟩

theorem run_result_eq {t t' : Trav} {lp : Option (Int × Int)} {j j' j'' : xjson} {b b' : Bool}
    (h : run t lp j = some (j', t', b)) (h' : run t lp j = some (j'', t', b')) : j'' = j' := by
  rw [h] at h'
  exact (congrArg (fun r => r.1) (Option.some.inj h')).symm

/-- A write traversal ends without error when the declared capacity has room
for the text it appends. -/
theorem run_fits (pp : Bool) : ∀ (t : Trav) (lp : Option (Int × Int)) (j j' : xjson),
    j.mode = XJSON_STATE_WRITE → lp_ok lp t → run t lp j = some (j', t, true) →
    ∀ T d, 1 ≤ d → Wr j T pp d → T.length + (render pp d t).length ≤ j.end_ →
      j'.error = false ∧ j'.end_ = j.end_ := by
  intro t
  induction t with
  | done =>
    intro lp j j' hm hl hr T d _ hw _
    have h0 : run .done lp j = some (j, .done, true) := by
      cases lp with
      | none => rfl
      | some p =>
        obtain ⟨i, n⟩ := p
        simp only [lp_ok, Trav.count] at hl
        simp [run, xjson_array_reached_end, hm, hl]
    rw [run_result_eq h0 hr]
    exact ⟨hw.2.1, rfl⟩
  | int key type val rest ih =>
    intro lp j j' hm hl hr T d hd hw hcap
    have hl' := lp_ok_next lp _ rest hl rfl
    have hm1 : (write_scalar j key (fmt_int (int_cast type val))).mode = XJSON_STATE_WRITE := by
      rw [(WStep_write_scalar pp 0 key _).1]; exact hm
    obtain ⟨j2, hr2, _⟩ := run_write pp rest (loop_next lp) _ hm1 hl'
    have h0 : run (.int key type val rest) lp j = some (j2, .int key type val rest, true) := by
      simp [run, loop_stops_write lp _ j hm hl (by simp [Trav.count]),
        integer_write_eq j key val type hm, hr2]
    rw [run_result_eq h0 hr]
    exact write_scalar_fits pp j j2 key _ rest
      (ih (loop_next lp) _ j2 hm1 hl' hr2) T d hd hw (by simpa [render] using hcap)
  | float key val rest ih =>
    intro lp j j' hm hl hr T d hd hw hcap
    have hl' := lp_ok_next lp _ rest hl rfl
    have hm1 : (write_scalar j key (fmt_f val)).mode = XJSON_STATE_WRITE := by
      rw [(WStep_write_scalar pp 0 key _).1]; exact hm
    obtain ⟨j2, hr2, _⟩ := run_write pp rest (loop_next lp) _ hm1 hl'
    have h0 : run (.float key val rest) lp j = some (j2, .float key val rest, true) := by
      simp [run, loop_stops_write lp _ j hm hl (by simp [Trav.count]),
        float_write_eq j key val hm, hr2]
    rw [run_result_eq h0 hr]
    exact write_scalar_fits pp j j2 key _ rest
      (ih (loop_next lp) _ j2 hm1 hl' hr2) T d hd hw (by simpa [render] using hcap)
  | double key val rest ih =>
    intro lp j j' hm hl hr T d hd hw hcap
    have hl' := lp_ok_next lp _ rest hl rfl
    have hm1 : (write_scalar j key (fmt_f val)).mode = XJSON_STATE_WRITE := by
      rw [(WStep_write_scalar pp 0 key _).1]; exact hm
    obtain ⟨j2, hr2, _⟩ := run_write pp rest (loop_next lp) _ hm1 hl'
    have h0 : run (.double key val rest) lp j = some (j2, .double key val rest, true) := by
      simp [run, loop_stops_write lp _ j hm hl (by simp [Trav.count]),
        double_write_eq j key val hm, hr2]
    rw [run_result_eq h0 hr]
    exact write_scalar_fits pp j j2 key _ rest
      (ih (loop_next lp) _ j2 hm1 hl' hr2) T d hd hw (by simpa [render] using hcap)
  | bool key val rest ih =>
    intro lp j j' hm hl hr T d hd hw hcap
    have hl' := lp_ok_next lp _ rest hl rfl
    have hm1 : (write_scalar j key (bool_text val)).mode = XJSON_STATE_WRITE := by
      rw [(WStep_write_scalar pp 0 key _).1]; exact hm
    obtain ⟨j2, hr2, _⟩ := run_write pp rest (loop_next lp) _ hm1 hl'
    have h0 : run (.bool key val rest) lp j = some (j2, .bool key val rest, true) := by
      simp [run, loop_stops_write lp _ j hm hl (by simp [Trav.count]),
        bool_write_eq j key val hm, hr2]
    rw [run_result_eq h0 hr]
    exact write_scalar_fits pp j j2 key _ rest
      (ih (loop_next lp) _ j2 hm1 hl' hr2) T d hd hw (by simpa [render] using hcap)
  | string key str rest ih =>
    intro lp j j' hm hl hr T d hd hw hcap
    have hl' := lp_ok_next lp _ rest hl rfl
    have hm1 : (write_scalar j key ('"' :: cstr str ++ ['"'])).mode = XJSON_STATE_WRITE := by
      rw [(WStep_write_scalar pp 0 key _).1]; exact hm
    obtain ⟨j2, hr2, _⟩ := run_write pp rest (loop_next lp) _ hm1 hl'
    have h0 : run (.string key str rest) lp j = some (j2, .string key str rest, true) := by
      simpa [run, loop_stops_write lp _ j hm hl (by simp [Trav.count]),
        string_write_eq j key str hm] using hr2
    rw [run_result_eq h0 hr]
    exact write_scalar_fits pp j j2 key _ rest
      (ih (loop_next lp) _ j2 hm1 hl' hr2) T d hd hw (by simpa [render] using hcap)
  | object key body rest ihb ih =>
    intro lp j j' hm hl hr T d hd hw hcap
    have hl' := lp_ok_next lp _ rest hl rfl
    obtain ⟨j1, hb1, hm1, _, hwr1⟩ := object_begin_write pp j key hm
    obtain ⟨jb, hrb, hmb, _, hwrb⟩ := run_write pp body none j1 hm1 trivial
    obtain ⟨hm2, _, hwr2⟩ := object_end_write pp jb hmb
    obtain ⟨j2, hr2, _⟩ := run_write pp rest (loop_next lp) (xjson_object_end jb) hm2 hl'
    have h0 : run (.object key body rest) lp j = some (j2, .object key body rest, true) := by
      simp [run, loop_stops_write lp _ j hm hl (by simp [Trav.count]), hb1, hrb, hr2]
    rw [run_result_eq h0 hr]
    simp only [render, List.length_append, List.length_cons, List.length_nil,
      List.length_dropLast] at hcap
    have f1 := begin_fits pp '{' (by decide) key j j1 T d hw
      (by rw [← hb1, object_begin_write_eq j key hm])
      (by simp only [List.length_append, List.length_cons, List.length_nil]; omega)
    have hw1 := hwr1 T d hw f1.1
    have fb := ihb none j1 jb hm1 trivial hrb _ (d + 1) (by omega) hw1
      (by rw [f1.2]; simp only [List.length_append, List.length_cons, List.length_nil]; omega)
    have hwb := hwrb _ (d + 1) (by omega) hw1 fb.1
    have hwb' : Wr jb ((T ++ (key_nl pp d key ++ key_text key)) ++ '{' :: render pp (d + 1) body)
        pp (d + 1) := by simpa [List.append_assoc] using hwb
    have f2 := object_end_fits pp d _ _ jb hwb' (render_tail pp body (d + 1))
      (by
        rw [fb.2, f1.2]
        simp only [List.length_append, List.length_cons, List.length_nil, List.length_dropLast]
        omega)
    have hw2 := hwr2 _ _ d hd hwb' (render_tail pp body (d + 1)) f2.1
    have fr := ih (loop_next lp) (xjson_object_end jb) j2 hm2 hl' hr2 _ d hd hw2
      (by
        rw [f2.2, fb.2, f1.2]
        simp only [List.length_append, List.length_cons, List.length_nil, List.length_dropLast]
        omega)
    exact ⟨fr.1, fr.2.trans (f2.2.trans (fb.2.trans f1.2))⟩
  | array key body rest ihb ih =>
    intro lp j j' hm hl hr T d hd hw hcap
    have hl' := lp_ok_next lp _ rest hl rfl
    obtain ⟨j1, hb1, hm1, _, hwr1⟩ := array_begin_write pp j key hm
    have hlb : lp_ok (some (0, (body.count : Int))) body := by simp [lp_ok]
    obtain ⟨jb, hrb, hmb, _, hwrb⟩ := run_write pp body (some (0, (body.count : Int))) j1 hm1 hlb
    obtain ⟨hm2, _, hwr2⟩ := array_end_write pp jb hmb
    obtain ⟨j2, hr2, _⟩ := run_write pp rest (loop_next lp) (xjson_array_end jb) hm2 hl'
    have h0 : run (.array key body rest) lp j = some (j2, .array key body rest, true) := by
      simp [run, loop_stops_write lp _ j hm hl (by simp [Trav.count]), hb1, hrb, hr2]
    rw [run_result_eq h0 hr]
    simp only [render, List.length_append, List.length_cons, List.length_nil,
      List.length_dropLast] at hcap
    have f1 := begin_fits pp '[' (by decide) key j j1 T d hw
      (by rw [← hb1, array_begin_write_eq j key hm])
      (by simp only [List.length_append, List.length_cons, List.length_nil]; omega)
    have hw1 := hwr1 T d hw f1.1
    have fb := ihb (some (0, (body.count : Int))) j1 jb hm1 hlb hrb _ (d + 1) (by omega) hw1
      (by rw [f1.2]; simp only [List.length_append, List.length_cons, List.length_nil]; omega)
    have hwb := hwrb _ (d + 1) (by omega) hw1 fb.1
    have hwb' : Wr jb ((T ++ (key_nl pp d key ++ key_text key)) ++ '[' :: render pp (d + 1) body)
        pp (d + 1) := by simpa [List.append_assoc] using hwb
    have f2 := array_end_fits pp d _ _ jb hwb' (render_tail pp body (d + 1))
      (by
        rw [fb.2, f1.2]
        simp only [List.length_append, List.length_cons, List.length_nil, List.length_dropLast]
        omega)
    have hw2 := hwr2 _ _ d hwb' (render_tail pp body (d + 1)) f2.1
    have fr := ih (loop_next lp) (xjson_array_end jb) j2 hm2 hl' hr2 _ d hd hw2
      (by
        rw [f2.2, fb.2, f1.2]
        simp only [List.length_append, List.length_cons, List.length_nil, List.length_dropLast]
        omega)
    exact ⟨fr.1, fr.2.trans (f2.2.trans (fb.2.trans f1.2))⟩

theorem object_fits (pp : Bool) (key : Option (List Char)) (body : Trav) (j j' : xjson)
    (T : List Char) (d : Nat) (hw : Wr j T pp d)
    (hr : run (.object key body .done) none j = some (j', .object key body .done, true))
    (hcap : T.length + (key_nl pp d key ++ key_text key ++ '{' ::
        (render pp (d + 1) body).dropLast ++ nl pp d ++ ['}', ',']).length ≤ j.end_) :
    j'.error = false := by
  have hm := hw.1
  obtain ⟨j1, hb1, hm1, _, hwr1⟩ := object_begin_write pp j key hm
  obtain ⟨jb, hrb, hmb, _, hwrb⟩ := run_write pp body none j1 hm1 trivial
  have h0 : run (.object key body .done) none j
      = some (xjson_object_end jb, .object key body .done, true) := by
    simp [run, loop_stops, loop_next, hb1, hrb]
  rw [run_result_eq h0 hr]
  simp only [List.length_append, List.length_cons, List.length_nil,
    List.length_dropLast] at hcap
  have f1 := begin_fits pp '{' (by decide) key j j1 T d hw
    (by rw [← hb1, object_begin_write_eq j key hm])
    (by simp only [List.length_append, List.length_cons, List.length_nil]; omega)
  have hw1 := hwr1 T d hw f1.1
  have fb := run_fits pp body none j1 jb hm1 trivial hrb _ (d + 1) (by omega) hw1
    (by rw [f1.2]; simp only [List.length_append, List.length_cons, List.length_nil]; omega)
  have hwb := hwrb _ (d + 1) (by omega) hw1 fb.1
  have hwb' : Wr jb ((T ++ (key_nl pp d key ++ key_text key)) ++ '{' :: render pp (d + 1) body)
      pp (d + 1) := by simpa [List.append_assoc] using hwb
  exact (object_end_fits pp d _ _ jb hwb' (render_tail pp body (d + 1))
    (by
      rw [fb.2, f1.2]
      simp only [List.length_append, List.length_cons, List.length_nil, List.length_dropLast]
      omega)).1

theorem array_fits (pp : Bool) (key : Option (List Char)) (body : Trav) (j j' : xjson)
    (T : List Char) (d : Nat) (hw : Wr j T pp d)
    (hr : run (.array key body .done) none j = some (j', .array key body .done, true))
    (hcap : T.length + (key_nl pp d key ++ key_text key ++ '[' ::
        (render pp (d + 1) body).dropLast ++ nl pp d ++ [']', ',']).length ≤ j.end_) :
    j'.error = false := by
  have hm := hw.1
  obtain ⟨j1, hb1, hm1, _, hwr1⟩ := array_begin_write pp j key hm
  have hlb : lp_ok (some (0, (body.count : Int))) body := by simp [lp_ok]
  obtain ⟨jb, hrb, hmb, _, hwrb⟩ := run_write pp body (some (0, (body.count : Int))) j1 hm1 hlb
  have h0 : run (.array key body .done) none j
      = some (xjson_array_end jb, .array key body .done, true) := by
    simp [run, loop_stops, loop_next, hb1, hrb]
  rw [run_result_eq h0 hr]
  simp only [List.length_append, List.length_cons, List.length_nil,
    List.length_dropLast] at hcap
  have f1 := begin_fits pp '[' (by decide) key j j1 T d hw
    (by rw [← hb1, array_begin_write_eq j key hm])
    (by simp only [List.length_append, List.length_cons, List.length_nil]; omega)
  have hw1 := hwr1 T d hw f1.1
  have fb := run_fits pp body (some (0, (body.count : Int))) j1 jb hm1 hlb hrb _ (d + 1)
    (by omega) hw1
    (by rw [f1.2]; simp only [List.length_append, List.length_cons, List.length_nil]; omega)
  have hwb := hwrb _ (d + 1) (by omega) hw1 fb.1
  have hwb' : Wr jb ((T ++ (key_nl pp d key ++ key_text key)) ++ '[' :: render pp (d + 1) body)
      pp (d + 1) := by simpa [List.append_assoc] using hwb
  exact (array_end_fits pp d _ _ jb hwb' (render_tail pp body (d + 1))
    (by
      rw [fb.2, f1.2]
      simp only [List.length_append, List.length_cons, List.length_nil, List.length_dropLast]
      omega)).1

/-! ### C3 -/

/-- C3: in write mode without pretty printing, from any context without error
(at any indentation, so at any nesting depth, with the cursor inside the
declared capacity and the capacity inside the buffer), writing a container
returns.  When the capacity is sufficient, that is when the declared capacity
has room behind the cursor for the key, the text of the container and the
comma the writer puts after it, the write ends without error.  When the write
ends without error, the bytes it has put behind the old cursor are exactly the
key and `container_text`: the opening delimiter, the texts of the children
joined by commas (`List.intercalate`: N-1 commas for N children, nothing for
none, so `{}` and `[]` for empty containers), and the closing delimiter right
after the last child.  This holds for objects and for arrays, and for children
that are scalars or containers. -/
theorem c3_trailing_comma (key : Option (List Char)) (body : Trav) (j : xjson)
    (hm : j.mode = XJSON_STATE_WRITE) (hp : j.pretty_print = false) (he : j.error = false)
    (hi : 0 ≤ j.intendation) (hc : j.current ≤ j.end_) (hcap : j.end_ ≤ j.mem.length) :
    (∃ j', run (.object key body .done) none j = some (j', .object key body .done, true)
      ∧ (j.current + (key_text key ++ container_text '{' '}' body).length + 1 ≤ j.end_ →
          j'.error = false)
      ∧ (j'.error = false →
          j'.mem.take (j.current + (key_text key ++ container_text '{' '}' body).length)
            = j.mem.take j.current ++ (key_text key ++ container_text '{' '}' body)))
    ∧ (∃ j', run (.array key body .done) none j = some (j', .array key body .done, true)
      ∧ (j.current + (key_text key ++ container_text '[' ']' body).length + 1 ≤ j.end_ →
          j'.error = false)
      ∧ (j'.error = false →
          j'.mem.take (j.current + (key_text key ++ container_text '[' ']' body).length)
            = j.mem.take j.current ++ (key_text key ++ container_text '[' ']' body))) := by
  have hw := Wr_of_context j hm he hi hc hcap
  rw [hp] at hw
  have hl : (j.mem.take j.current).length = j.current := by simp; omega
  constructor
  · obtain ⟨j', hr, h⟩ := object_write false key body j _ _ hw
    have hE : j.mem.take j.current ++ (key_text key ++ container_text '{' '}' body)
        = j.mem.take j.current ++ key_nl false j.intendation.toNat key ++ key_text key ++ '{' ::
            (render false (j.intendation.toNat + 1) body).dropLast
            ++ nl false j.intendation.toNat ++ ['}'] := by
      rw [render_eq_child_texts, dropLast_join_sep]
      cases key <;> simp [container_text, nl, key_nl]
    refine ⟨j', hr, fun hroom => ?_, fun he' => ?_⟩
    · refine object_fits false key body j j' _ _ hw hr ?_
      have := congrArg List.length hE
      simp only [List.length_append, List.length_cons, List.length_nil, hl] at this hroom ⊢
      omega
    · obtain ⟨h1, h0⟩ := h he'
      have hlen : j.current + (key_text key ++ container_text '{' '}' body).length
          = (j.mem.take j.current ++ (key_text key ++ container_text '{' '}' body)).length := by
        simp only [List.length_append, hl]
      rw [hlen, hE]
      by_cases hd : 1 ≤ j.intendation.toNat
      · exact Wr_take (h1 hd)
      · exact (h0 (by omega)).1.2.2.2.2.2.1
  · obtain ⟨j', hr, h⟩ := array_write false key body j _ _ hw
    have hE : j.mem.take j.current ++ (key_text key ++ container_text '[' ']' body)
        = j.mem.take j.current ++ key_nl false j.intendation.toNat key ++ key_text key ++ '[' ::
            (render false (j.intendation.toNat + 1) body).dropLast
            ++ nl false j.intendation.toNat ++ [']'] := by
      rw [render_eq_child_texts, dropLast_join_sep]
      cases key <;> simp [container_text, nl, key_nl]
    refine ⟨j', hr, fun hroom => ?_, fun he' => ?_⟩
    · refine array_fits false key body j j' _ _ hw hr ?_
      have := congrArg List.length hE
      simp only [List.length_append, List.length_cons, List.length_nil, hl] at this hroom ⊢
      omega
    · have hlen : j.current + (key_text key ++ container_text '[' ']' body).length
          = (j.mem.take j.current ++ (key_text key ++ container_text '[' ']' body)).length := by
        simp only [List.length_append, hl]
      rw [hlen, hE]
      exact Wr_take (h he')

/-- C3 at a concrete input: in the context `nested_write_context`, whose
buffer of 64 bytes has room for the text, the children of `example_body` keyed
`"k"` are written without error, as an object and as an array, and the buffer
then starts with the text stated: no comma after the opening delimiters, none
before the closing ones, `{}` for the empty object. -/
theorem c3_trailing_comma_witness :
    (nested_write_context.mode = XJSON_STATE_WRITE ∧ nested_write_context.pretty_print = false
      ∧ nested_write_context.error = false ∧ 0 ≤ nested_write_context.intendation
      ∧ nested_write_context.current ≤ nested_write_context.end_
      ∧ nested_write_context.end_ ≤ nested_write_context.mem.length)
    ∧ (nested_write_context.current
          + (key_text (some ['k']) ++ container_text '{' '}' example_body).length + 1
          ≤ nested_write_context.end_
      ∧ nested_write_context.current
          + (key_text (some ['k']) ++ container_text '[' ']' example_body).length + 1
          ≤ nested_write_context.end_)
    ∧ (∃ j', run (.object (some ['k']) example_body .done) none nested_write_context
          = some (j', .object (some ['k']) example_body .done, true)
        ∧ j'.error = false
        ∧ j'.mem.take 33
          = "\x7b\"k\":\x7b\"a\":1,\"b\":[true,-2],\"c\":\x7b\x7d\x7d".toList)
    ∧ (∃ j', run (.array (some ['k']) example_body .done) none nested_write_context
          = some (j', .array (some ['k']) example_body .done, true)
        ∧ j'.error = false
        ∧ j'.mem.take 33
          = "\x7b\"k\":[\"a\":1,\"b\":[true,-2],\"c\":\x7b\x7d]".toList) := by
  obtain ⟨⟨j1, hr1, hf1, ht1⟩, ⟨j2, hr2, hf2, ht2⟩⟩ :=
    c3_trailing_comma (some ['k']) example_body nested_write_context
      (by decide) (by decide) (by decide) (by decide) (by decide) (by decide)
  have e1 := hf1 (by decide)
  have e2 := hf2 (by decide)
  have h1 := ht1 e1
  have h2 := ht2 e2
  have a1 : nested_write_context.current
      + (key_text (some ['k']) ++ container_text '{' '}' example_body).length = 33 := by decide
  have b1 : nested_write_context.mem.take nested_write_context.current
      ++ (key_text (some ['k']) ++ container_text '{' '}' example_body)
      = "\x7b\"k\":\x7b\"a\":1,\"b\":[true,-2],\"c\":\x7b\x7d\x7d".toList := by decide
  have a2 : nested_write_context.current
      + (key_text (some ['k']) ++ container_text '[' ']' example_body).length = 33 := by decide
  have b2 : nested_write_context.mem.take nested_write_context.current
      ++ (key_text (some ['k']) ++ container_text '[' ']' example_body)
      = "\x7b\"k\":[\"a\":1,\"b\":[true,-2],\"c\":\x7b\x7d]".toList := by decide
  rw [a1, b1] at h1
  rw [a2, b2] at h2
  exact ⟨by decide, by decide, ⟨j1, hr1, e1, h1⟩, ⟨j2, hr2, e2, h2⟩⟩

end XJson
